import Mathlib

/-!
# envdoc: inspection of environment variables against a rule set

A shallow embedding of the Go package `envdoc` (rule model, secret classifier,
fingerprinter, value validator, inspection engine) and theorems about it.

Modelling conventions
* A Go `string` is a Lean `String` (so the strings considered are those that
  hold valid UTF-8 text); `len(s)` is `s.utf8ByteSize`.
* A Go `*bool` / `*int` is an `Option Bool` / `Option Int` (`nil` is `none`).
* A Go `[]T` is a `List T` (`nil` and the empty slice are both `[]`).
* A Go `map[string]Rule` is a function `String → Option Rule`; indexing a
  missing key yields the zero `Rule`.
* The interfaces `EnvReader` and `Clock` are records of their methods.
* Summary counters are natural numbers (they only count list elements).
* Functions of the Go standard library that are not modelled concretely
  (`time.ParseDuration`, `url.Parse`, `json.Valid`, `regexp`, `%q`) are the
  fields of the record `Lib`, passed explicitly.
-/

namespace Envdoc

/-! ## rule.go -/

/-- The Go struct `Rule`; the field `Type` (a `VarType`, i.e. a string) is named `Typ`. -/
structure Rule where
  Key : String
  Required : Bool
  Typ : String
  MinLen : Option Int
  MaxLen : Option Int
  Regex : String
  Allowed : List String
  Secret : Option Bool
  Fingerprint : Option Bool
deriving DecidableEq, Repr

/-- The zero value `Rule{}`. -/
def Rule.zero : Rule :=
  { Key := "", Required := false, Typ := "", MinLen := none, MaxLen := none,
    Regex := "", Allowed := [], Secret := none, Fingerprint := none }

def TypeString : String := "string"
def TypeInt : String := "int"
def TypeBool : String := "bool"
def TypeDuration : String := "duration"
def TypeURL : String := "url"
def TypeJSON : String := "json"

/-! ## secret.go -/

/-- The literal alternatives of `secretPattern`, with the optional separator
`[_\-]?` of `api[_\-]?key` and `private[_\-]?key` expanded. -/
def secretAlternatives : List String :=
  ["password", "passwd", "pwd", "secret", "token", "apikey",
   "apikey", "api_key", "api-key",
   "privatekey", "private_key", "private-key",
   "ssh", "pem", "cert", "jwt", "session", "cookie", "authorization",
   "bearer", "kms", "encrypt", "signing"]

/-- Case folding of the flag `(?i)`: a lower-case pattern character `p` matches
the input character `c` when `c` is in the simple-fold orbit of `p`.  For an
ASCII letter that is the letter and its upper-case form, and in addition the
Kelvin sign U+212A for `k` and the long s U+017F for `s`. -/
def foldMatches (p c : Char) : Bool :=
  c == p || (p.isLower && c == p.toUpper) ||
    (p == 'k' && c.toNat == 0x212A) || (p == 's' && c.toNat == 0x17F)

/-- Does the input start with a match of the literal `pat` under case folding? -/
def matchesAt : List Char → List Char → Bool
  | [], _ => true
  | _ :: _, [] => false
  | p :: ps, c :: cs => foldMatches p c && matchesAt ps cs

/-- Does some suffix of the input start with a match of `pat`? (unanchored match) -/
def matchesAnywhere (pat : List Char) : List Char → Bool
  | [] => matchesAt pat []
  | c :: cs => matchesAt pat (c :: cs) || matchesAnywhere pat cs

/-- Go `IsSecretLike`: `secretPattern.MatchString(key)`. -/
def IsSecretLike (key : String) : Bool :=
  secretAlternatives.any (fun alt => matchesAnywhere alt.data key.data)

/-- Go `classifySecretLike`: `Rule.Secret` explicitly overrides the heuristic. -/
def classifySecretLike (key : String) (rule : Rule) : Bool :=
  match rule.Secret with
  | some b => b
  | none => IsSecretLike key

/-! ## fingerprint.go -/

/-- SHA-256 round constants. -/
def sha256K : List Nat :=
  [0x428a2f98, 0x71374491, 0xb5c0fbcf, 0xe9b5dba5, 0x3956c25b, 0x59f111f1, 0x923f82a4, 0xab1c5ed5,
   0xd807aa98, 0x12835b01, 0x243185be, 0x550c7dc3, 0x72be5d74, 0x80deb1fe, 0x9bdc06a7, 0xc19bf174,
   0xe49b69c1, 0xefbe4786, 0x0fc19dc6, 0x240ca1cc, 0x2de92c6f, 0x4a7484aa, 0x5cb0a9dc, 0x76f988da,
   0x983e5152, 0xa831c66d, 0xb00327c8, 0xbf597fc7, 0xc6e00bf3, 0xd5a79147, 0x06ca6351, 0x14292967,
   0x27b70a85, 0x2e1b2138, 0x4d2c6dfc, 0x53380d13, 0x650a7354, 0x766a0abb, 0x81c2c92e, 0x92722c85,
   0xa2bfe8a1, 0xa81a664b, 0xc24b8b70, 0xc76c51a3, 0xd192e819, 0xd6990624, 0xf40e3585, 0x106aa070,
   0x19a4c116, 0x1e376c08, 0x2748774c, 0x34b0bcb5, 0x391c0cb3, 0x4ed8aa4a, 0x5b9cca4f, 0x682e6ff3,
   0x748f82ee, 0x78a5636f, 0x84c87814, 0x8cc70208, 0x90befffa, 0xa4506ceb, 0xbef9a3f7, 0xc67178f2]

/-- SHA-256 initial hash value. -/
def sha256Init : List Nat :=
  [0x6a09e667, 0xbb67ae85, 0x3c6ef372, 0xa54ff53a, 0x510e527f, 0x9b05688c, 0x1f83d9ab, 0x5be0cd19]

/-- Addition of 32-bit words. -/
def add32 (a b : Nat) : Nat := (a + b) % 2 ^ 32

/-- Rotation of a 32-bit word to the right. -/
def rotr32 (x n : Nat) : Nat := ((x >>> n) ||| (x <<< (32 - n))) % 2 ^ 32

/-- Complement of a 32-bit word. -/
def not32 (x : Nat) : Nat := (2 ^ 32 - 1) - x % 2 ^ 32

/-- The padded message: the bytes, `0x80`, zero bytes up to 56 mod 64, and the
bit length as 8 big-endian bytes. -/
def sha256Pad (msg : List Nat) : List Nat :=
  let l := msg.length
  let zeros := (119 - l % 64) % 64
  let bits := 8 * l
  msg ++ [0x80] ++ List.replicate zeros 0 ++
    (List.range 8).map (fun i => (bits >>> (8 * (7 - i))) % 256)

/-- Big-endian 32-bit words of a byte list (trailing bytes short of a word are dropped). -/
def bytesToWords : List Nat → List Nat
  | a :: b :: c :: d :: rest => (((a * 256 + b) * 256 + c) * 256 + d) :: bytesToWords rest
  | _ => []

/-- The message schedule: the 16 words of the block extended to 64 words. -/
def sha256Schedule (block : List Nat) : List Nat :=
  (List.range 48).foldl (fun w i =>
    let t := i + 16
    let w15 := w.getD (t - 15) 0
    let w2 := w.getD (t - 2) 0
    let s0 := (rotr32 w15 7 ^^^ rotr32 w15 18) ^^^ (w15 >>> 3)
    let s1 := (rotr32 w2 17 ^^^ rotr32 w2 19) ^^^ (w2 >>> 10)
    w ++ [add32 (add32 (add32 (w.getD (t - 16) 0) s0) (w.getD (t - 7) 0)) s1]) block

/-- One round of the compression function on the working variables `a..h`. -/
def sha256Round (st : List Nat) (kw : Nat × Nat) : List Nat :=
  match st with
  | [a, b, c, d, e, f, g, h] =>
    let s1 := (rotr32 e 6 ^^^ rotr32 e 11) ^^^ rotr32 e 25
    let ch := (e &&& f) ^^^ (not32 e &&& g)
    let t1 := add32 (add32 (add32 (add32 h s1) ch) kw.1) kw.2
    let s0 := (rotr32 a 2 ^^^ rotr32 a 13) ^^^ rotr32 a 22
    let maj := ((a &&& b) ^^^ (a &&& c)) ^^^ (b &&& c)
    let t2 := add32 s0 maj
    [add32 t1 t2, a, b, c, add32 d t1, e, f, g]
  | _ => st

/-- The compression of one 16-word block into the hash state. -/
def sha256Block (st : List Nat) (block : List Nat) : List Nat :=
  let w := sha256Schedule block
  let out := (sha256K.zip w).foldl sha256Round st
  List.zipWith add32 st out

/-- Splits a word list into the blocks of 16 words. -/
def sha256Blocks : Nat → List Nat → List (List Nat)
  | 0, _ => []
  | n + 1, ws => ws.take 16 :: sha256Blocks n (ws.drop 16)

/-- The eight 32-bit words of the digest `sha256.Sum256(msg)`. -/
def sha256Words (msg : List Nat) : List Nat :=
  let ws := bytesToWords (sha256Pad msg)
  (sha256Blocks (ws.length / 16) ws).foldl sha256Block sha256Init

/-- The bytes of `[]byte(value)`: the UTF-8 encoding of the string. -/
def stringBytes (value : String) : List Nat :=
  (value.data.map (fun c => (String.utf8EncodeChar c).map UInt8.toNat)).flatten

/-- One lower-case hexadecimal digit. -/
def hexDigit (n : Nat) : Char :=
  "0123456789abcdef".data.getD (n % 16) '0'

/-- The verb `%x` on one byte: two lower-case hexadecimal digits. -/
def hexByte (b : Nat) : List Char := [hexDigit (b / 16), hexDigit b]

/-- The four big-endian bytes of a 32-bit word. -/
def wordBytes (w : Nat) : List Nat :=
  [(w >>> 24) % 256, (w >>> 16) % 256, (w >>> 8) % 256, w % 256]

/-- Go `FingerprintValue`: the first 8 hex characters of the SHA-256 hash of value
(`fmt.Sprintf("%x", h[:4])`; the first four digest bytes are the first word). -/
def FingerprintValue (value : String) : String :=
  String.mk ((wordBytes ((sha256Words (stringBytes value)).getD 0 0)).map hexByte).flatten

/-- Go `shouldFingerprint`: explicit rule override, then no fingerprint for
secret-like variables, then the dump-all-fingerprint switch. -/
def shouldFingerprint (secretLike : Bool) (rule : Rule) (dumpAllFingerprint : Bool) : Bool :=
  match rule.Fingerprint with
  | some b => b
  | none =>
    if secretLike then false
    else if dumpAllFingerprint then true
    else false

/-! ## validate.go -/

/-- Functions of the Go standard library that the package calls and that are
taken as given: `time.ParseDuration` (does it succeed), `url.Parse` (the scheme
and host of the parsed URL, `none` on error), `json.Valid`, `regexp.Compile`
(the `MatchString` of the compiled expression, `none` on error), the verb
`%q` of `fmt`, the text of the error of `regexp.Compile` for a pattern that does
not compile, `yaml.Unmarshal` into a `RuleSet` (the rules, or the text of
the error), and `time.Parse(time.RFC3339, s)` (the instant, `none` on error). -/
structure Lib where
  parseDuration : String → Bool
  urlParse : String → Option (String × String)
  jsonValid : String → Bool
  regexpCompile : String → Option (String → Bool)
  quote : String → String
  regexpError : String → String
  yamlUnmarshal : String → Except String (List Rule)
  parseRFC3339 : String → Option Int

/-- The value of a string of decimal digits. -/
def digitsValue (ds : List Char) : Nat :=
  ds.foldl (fun n c => 10 * n + (c.toNat - 48)) 0

/-- Success of `strconv.ParseInt(value, 10, 64)`: an optional sign, at least one
decimal digit and nothing else, and a value in the range of `int64`. -/
def parseIntOk (value : String) : Bool :=
  let body (neg : Bool) (ds : List Char) : Bool :=
    !ds.isEmpty && ds.all Char.isDigit &&
      (if neg then decide (digitsValue ds ≤ 2 ^ 63) else decide (digitsValue ds < 2 ^ 63))
  match value.data with
  | '+' :: ds => body false ds
  | '-' :: ds => body true ds
  | ds => body false ds

/-- Success of `strconv.ParseBool(value)`. -/
def parseBoolOk (value : String) : Bool :=
  ["1", "t", "T", "TRUE", "true", "True", "0", "f", "F", "FALSE", "false", "False"].contains value

/-- Go `checkType`: the error message, or `none` for `nil`. -/
def checkType (lib : Lib) (value : String) (typ : String) : Option String :=
  if typ = TypeString then none
  else if typ = TypeInt then
    (if parseIntOk value then none else some "not a valid int")
  else if typ = TypeBool then
    (if parseBoolOk value then none else some "not a valid bool")
  else if typ = TypeDuration then
    (if lib.parseDuration value then none else some "not a valid duration")
  else if typ = TypeURL then
    (match lib.urlParse value with
     | none => some "not a valid url"
     | some (scheme, host) =>
       if scheme = "" || host = "" then some "not a valid url" else none)
  else if typ = TypeJSON then
    (if lib.jsonValid value then none else some "not valid json")
  else none

/-- The type check of `ValidateVar`. -/
def typeProblems (lib : Lib) (value : String) (rule : Rule) : List String :=
  if rule.Typ ≠ "" then
    match checkType lib value rule.Typ with
    | some msg => [msg]
    | none => []
  else []

/-- The `min_len` check of `ValidateVar`. -/
def minLenProblems (value : String) (rule : Rule) : List String :=
  match rule.MinLen with
  | some m =>
    if (value.utf8ByteSize : Int) < m then
      ["length " ++ toString value.utf8ByteSize ++ " < min_len " ++ toString m]
    else []
  | none => []

/-- The `max_len` check of `ValidateVar`. -/
def maxLenProblems (value : String) (rule : Rule) : List String :=
  match rule.MaxLen with
  | some m =>
    if (value.utf8ByteSize : Int) > m then
      ["length " ++ toString value.utf8ByteSize ++ " > max_len " ++ toString m]
    else []
  | none => []

/-- The regex check of `ValidateVar`; a pattern that does not compile is skipped. -/
def regexProblems (lib : Lib) (value : String) (rule : Rule) : List String :=
  if rule.Regex ≠ "" then
    match lib.regexpCompile rule.Regex with
    | some re => if !re value then ["does not match regex " ++ lib.quote rule.Regex] else []
    | none => []
  else []

/-- The allowed-values check of `ValidateVar`. -/
def allowedProblems (value : String) (rule : Rule) : List String :=
  if rule.Allowed.length > 0 then
    if rule.Allowed.any (fun a => value == a) then []
    else ["value not in allowed set [" ++ String.intercalate ", " rule.Allowed ++ "]"]
  else []

/-- Go `ValidateVar`: the problems of a value against a rule, appended check by check. -/
def ValidateVar (lib : Lib) (value : String) (rule : Rule) : List String :=
  let problems : List String := []
  let problems := problems ++ typeProblems lib value rule
  let problems := problems ++ minLenProblems value rule
  let problems := problems ++ maxLenProblems value rule
  let problems := problems ++ regexProblems lib value rule
  let problems := problems ++ allowedProblems value rule
  problems

/-- Go `unicode.IsSpace`. -/
def isSpace (c : Char) : Bool :=
  let n := c.toNat
  n == 0x09 || n == 0x0A || n == 0x0B || n == 0x0C || n == 0x0D || n == 0x20 ||
  n == 0x85 || n == 0xA0 || n == 0x1680 || (0x2000 ≤ n && n ≤ 0x200A) ||
  n == 0x2028 || n == 0x2029 || n == 0x202F || n == 0x205F || n == 0x3000

/-- Go `strings.TrimSpace` on the characters of a string. -/
def trimSpace (cs : List Char) : List Char :=
  ((cs.dropWhile isSpace).reverse.dropWhile isSpace).reverse

/-- Go `detectWhitespace`: does the value differ from its trimmed form? -/
def detectWhitespace (value : String) : Bool :=
  value.data != trimSpace value.data

/-! ## config.go -/

/-- A `time.Time`, as an integer count of nanoseconds from the zero time, so
that `IsZero` is equality with 0. -/
abbrev Time := Int

def ModeAllowlist : String := "allowlist"
def ModeDumpAll : String := "dumpall"

/-- The Go struct `Config`. -/
structure Config where
  Mode : String
  EnableHTTP : Bool
  FailFast : Bool
  DumpAll : Bool
  DumpAllFingerprint : Bool
  Token : String
  ExpiresAt : Time
  ListenAddr : String
deriving DecidableEq, Repr

/-- The zero value `Config{}`. -/
def Config.zero : Config :=
  { Mode := "", EnableHTTP := false, FailFast := false, DumpAll := false,
    DumpAllFingerprint := false, Token := "", ExpiresAt := 0, ListenAddr := "" }

/-! ## envdoc.go -/

/-- The interface `EnvReader`: `LookupEnv` yields the value and whether the key
is set, `Environ` yields the entries `key=value`. -/
structure EnvReader where
  Getenv : String → String
  LookupEnv : String → String × Bool
  Environ : List String

/-- The interface `Clock`, read once per inspection. -/
structure Clock where
  Now : Time

/-! ## inspect.go -/

/-- The Go struct `VarResult`. -/
structure VarResult where
  Key : String
  Present : Bool
  Length : Nat
  Required : Bool
  Valid : Bool
  Problems : List String
  SecretLike : Bool
  Fingerprint : String
  Trimmed : Bool
deriving DecidableEq, Repr

/-- The Go struct `Summary`. -/
structure Summary where
  Total : Nat
  Present : Nat
  Valid : Nat
  Required : Nat
  Missing : Nat
deriving DecidableEq, Repr

/-- The Go struct `Report`. -/
structure Report where
  Timestamp : Time
  Mode : String
  Results : List VarResult
  Summary : Summary
deriving DecidableEq, Repr

/-- A `map[string]Rule`. -/
abbrev RuleMap := String → Option Rule

/-- The assignment `m[k] = r`. -/
def RuleMap.set (m : RuleMap) (k : String) (r : Rule) : RuleMap :=
  fun k2 => if k2 = k then some r else m k2

/-- The index expression `m[k]`: the zero `Rule` when the key is missing. -/
def RuleMap.index (m : RuleMap) (k : String) : Rule :=
  (m k).getD Rule.zero

/-- The rule map of `inspect`: later rules overwrite earlier ones with the same key. -/
def buildRuleMap (rules : List Rule) : RuleMap :=
  rules.foldl (fun m r => m.set r.Key r) (fun _ => none)

/-- The key of an entry: `k, _, _ := strings.Cut(pair, "=")`, the text before
the first `=`, or the whole entry when it has none. -/
def cutKey (pair : String) : String :=
  String.mk (pair.data.takeWhile (fun c => c != '='))

/-- The first loop of dump-all discovery: the key of every entry of `Environ()`. -/
def environKeys (env : EnvReader) : List String :=
  env.Environ.foldl (fun keys pair => keys ++ [cutKey pair]) []

/-- The second loop of dump-all discovery: every rule key that is in the rule
map and not yet among the keys is appended. -/
def appendRuleKeys (ruleMap : RuleMap) (rules : List Rule) (keys : List String) : List String :=
  rules.foldl (fun keys r =>
    if (ruleMap r.Key).isSome then
      let found := keys.any (fun k => k == r.Key)
      if !found then keys ++ [r.Key] else keys
    else keys) keys

/-- The keys that `inspect` inspects, in order. -/
def discoverKeys (env : EnvReader) (rules : List Rule) (cfg : Config) : List String :=
  if cfg.DumpAll then
    appendRuleKeys (buildRuleMap rules) rules (environKeys env)
  else
    rules.foldl (fun keys r => keys ++ [r.Key]) []

/-- Go `inspectVar` inspects a single environment variable. -/
def inspectVar (lib : Lib) (env : EnvReader) (key : String) (rule : Rule) (cfg : Config) :
    VarResult :=
  let vr : VarResult :=
    { Key := key, Present := false, Length := 0, Required := rule.Required, Valid := true,
      Problems := [], SecretLike := false, Fingerprint := "", Trimmed := false }
  let (value, present) := env.LookupEnv key
  let vr := { vr with Present := present }
  if !present then
    let vr :=
      if rule.Required then
        { vr with Valid := false, Problems := vr.Problems ++ ["required but not set"] }
      else vr
    { vr with SecretLike := classifySecretLike key rule }
  else
    let vr := { vr with Length := value.utf8ByteSize }
    let vr := { vr with Trimmed := detectWhitespace value }
    let vr := { vr with SecretLike := classifySecretLike key rule }
    let vr :=
      if rule.Key ≠ "" then
        let problems := ValidateVar lib value rule
        if problems.length > 0 then
          { vr with Valid := false, Problems := problems }
        else vr
      else vr
    if shouldFingerprint vr.SecretLike rule cfg.DumpAllFingerprint then
      { vr with Fingerprint := FingerprintValue value }
    else vr

/-- The summary update of the main loop of `inspect`. -/
def updateSummary (s : Summary) (vr : VarResult) : Summary :=
  let s := { s with Total := s.Total + 1 }
  let s := if vr.Present then { s with Present := s.Present + 1 } else s
  let s := if vr.Valid then { s with Valid := s.Valid + 1 } else s
  if vr.Required then
    let s := { s with Required := s.Required + 1 }
    if !vr.Present then { s with Missing := s.Missing + 1 } else s
  else s

/-- Go `inspect` performs the core inspection logic. -/
def inspect (lib : Lib) (env : EnvReader) (clock : Clock) (rules : List Rule) (cfg : Config) :
    Report :=
  let report : Report :=
    { Timestamp := clock.Now, Mode := cfg.Mode, Results := [],
      Summary := { Total := 0, Present := 0, Valid := 0, Required := 0, Missing := 0 } }
  let report := if report.Mode = "" then { report with Mode := "allowlist" } else report
  let ruleMap := buildRuleMap rules
  let keys := discoverKeys env rules cfg
  keys.foldl (fun report key =>
    let vr := inspectVar lib env key (ruleMap.index key) cfg
    { report with Results := report.Results ++ [vr],
                  Summary := updateSummary report.Summary vr }) report

/-! ## envdoc.go: the fail-fast check -/

/-- The verb `%t` of `fmt`. -/
def boolText (b : Bool) : String := if b then "true" else "false"

/-- The entry that `CheckFailFast` builds for one offending result. -/
def failFastEntry (r : VarResult) : String :=
  let msg := r.Key ++ ": present=" ++ boolText r.Present ++ " valid=" ++ boolText r.Valid
  if r.Problems.length > 0 then
    msg ++ " problems=[" ++ String.intercalate "; " r.Problems ++ "]"
  else msg

/-- Go `CheckFailFast`: the text of the error, `none` for `nil`. -/
def CheckFailFast (report : Report) (failFast : Bool) : Option String :=
  if !failFast then none
  else
    let problems := report.Results.foldl (fun problems r =>
      if r.Required && (!r.Present || !r.Valid) then problems ++ [failFastEntry r]
      else problems) []
    if problems.length > 0 then
      some ("envdoc: fail-fast: " ++ toString problems.length ++
        " required variable(s) invalid:\n  " ++ String.intercalate "\n  " problems)
    else none

/-! ## rule.go: loading and validating rules -/

/-- The map `validTypes`. -/
def validTypes (t : String) : Bool :=
  t == TypeString || t == TypeInt || t == TypeBool || t == TypeDuration || t == TypeURL ||
    t == TypeJSON

/-- The body of the loop of `validateRules` for the rule at index `idx`, given
the keys seen so far: the text of the error it returns, or `none` when the loop
goes on. -/
def ruleError (lib : Lib) (idx : Nat) (seen : String → Bool) (r : Rule) : Option String :=
  if r.Key = "" then
    some ("envdoc: rule[" ++ toString idx ++ "]: key is required")
  else if seen r.Key then
    some ("envdoc: rule[" ++ toString idx ++ "]: duplicate key " ++ lib.quote r.Key)
  else if r.Typ ≠ "" && !validTypes r.Typ then
    some ("envdoc: rule[" ++ toString idx ++ "] (" ++ r.Key ++ "): unknown type " ++
      lib.quote r.Typ)
  else if r.Regex ≠ "" && (lib.regexpCompile r.Regex).isNone then
    some ("envdoc: rule[" ++ toString idx ++ "] (" ++ r.Key ++ "): invalid regex: " ++
      lib.regexpError r.Regex)
  else
    match r.MinLen, r.MaxLen with
    | some lo, some hi =>
      if lo > hi then
        some ("envdoc: rule[" ++ toString idx ++ "] (" ++ r.Key ++ "): min_len (" ++
          toString lo ++ ") > max_len (" ++ toString hi ++ ")")
      else none
    | _, _ => none

/-- The loop of `validateRules` from index `idx` on, with the map `seen`. -/
def validateRulesFrom (lib : Lib) : Nat → (String → Bool) → List Rule → Option String
  | _, _, [] => none
  | idx, seen, r :: rest =>
    match ruleError lib idx seen r with
    | some e => some e
    | none => validateRulesFrom lib (idx + 1) (fun k => if k = r.Key then true else seen k) rest

/-- Go `validateRules`: the text of the error, `none` for `nil`. -/
def validateRules (lib : Lib) (rules : List Rule) : Option String :=
  validateRulesFrom lib 0 (fun _ => false) rules

/-- Go `LoadRules`: the rules parsed from the YAML text, or the text of the error. -/
def LoadRules (lib : Lib) (data : String) : Except String (List Rule) :=
  match lib.yamlUnmarshal data with
  | Except.error e => Except.error ("envdoc: parsing rules: " ++ e)
  | Except.ok rules =>
    match validateRules lib rules with
    | some e => Except.error e
    | none => Except.ok rules

/-! ## config.go: loading the configuration -/

/-- Go `strings.EqualFold(s, lit)` for a literal `lit` of lower-case ASCII
letters: the same number of characters, each equal to the literal's under
simple case folding. -/
def equalFold (s lit : String) : Bool :=
  decide (s.data.length = lit.data.length) && matchesAt lit.data s.data

/-- Go `parseBool` of config.go. -/
def parseBool (s : String) : Bool :=
  equalFold s "true" || s == "1"

/-- Go `LoadConfig` reads the `ENVDOC_*` variables from the given reader. -/
def LoadConfig (lib : Lib) (env : EnvReader) : Config :=
  let cfg : Config := { Config.zero with Mode := ModeAllowlist }
  let cfg :=
    if parseBool (env.Getenv "ENVDOC_DUMP_ALL") then
      { cfg with DumpAll := true, Mode := ModeDumpAll }
    else cfg
  let cfg := { cfg with EnableHTTP := parseBool (env.Getenv "ENVDOC_ENABLE_HTTP") }
  let cfg := { cfg with FailFast := parseBool (env.Getenv "ENVDOC_FAIL_FAST") }
  let cfg :=
    { cfg with DumpAllFingerprint := parseBool (env.Getenv "ENVDOC_DUMP_ALL_FINGERPRINT") }
  let cfg := { cfg with Token := env.Getenv "ENVDOC_TOKEN" }
  let cfg := { cfg with ListenAddr := env.Getenv "ENVDOC_LISTEN_ADDR" }
  let exp := env.Getenv "ENVDOC_EXPIRES_AT"
  if exp ≠ "" then
    match lib.parseRFC3339 exp with
    | some t => { cfg with ExpiresAt := t }
    | none => cfg
  else cfg

/-! ## logger.go -/

/-- The line that `LogReport` writes for one result (without the line break). -/
def logLine (lib : Lib) (r : VarResult) : String :=
  let line := "envdoc: key=" ++ r.Key ++ " present=" ++ boolText r.Present
  let line := if r.Present then line ++ " len=" ++ toString r.Length else line
  let line := if r.Fingerprint ≠ "" then line ++ " fp=" ++ r.Fingerprint else line
  let line := if r.Required then line ++ " required=" ++ boolText r.Required else line
  let line := line ++ " valid=" ++ boolText r.Valid
  let line := if r.Trimmed then line ++ " trimmed=true" else line
  if r.Problems.length > 0 then
    r.Problems.foldl (fun line p => line ++ " problem=" ++ lib.quote p) line
  else line

/-- An `io.Writer`, as the lines written to it so far. -/
abbrev Writer := List String

/-- Go `LogReport` writes one line per variable to the writer. -/
def LogReport (lib : Lib) (w : Writer) (report : Report) : Writer :=
  report.Results.foldl (fun w r => w ++ [logLine lib r]) w

/-! ## envdoc.go: the inspector -/

/-- The Go struct `Inspector`. -/
structure Inspector where
  env : EnvReader
  clock : Clock
  rules : List Rule
  config : Config
  output : Writer

/-- The Go type `Option`: a function that configures an `Inspector`. -/
abbrev InspectorOption := Inspector → Inspector

/-- Go `WithEnvReader`. -/
def WithEnvReader (r : EnvReader) : InspectorOption := fun i => { i with env := r }

/-- Go `WithClock`. -/
def WithClock (c : Clock) : InspectorOption := fun i => { i with clock := c }

/-- Go `WithRules`. -/
def WithRules (rules : List Rule) : InspectorOption := fun i => { i with rules := rules }

/-- Go `WithConfig`. -/
def WithConfig (cfg : Config) : InspectorOption := fun i => { i with config := cfg }

/-- Go `WithOutput`. -/
def WithOutput (w : Writer) : InspectorOption := fun i => { i with output := w }

/-- Go `New`; the process environment, the real clock and the standard error
stream that back the defaults are arguments. -/
def New (lib : Lib) (osEnv : EnvReader) (realClock : Clock) (stderr : Writer)
    (opts : List InspectorOption) : Inspector :=
  let i : Inspector :=
    { env := osEnv, clock := realClock, rules := [], config := Config.zero, output := stderr }
  let i := opts.foldl (fun i opt => opt i) i
  if i.config = Config.zero then { i with config := LoadConfig lib i.env } else i

/-- Go method `Inspector.Config`. -/
def Inspector.Config (i : Inspector) : Config := i.config

/-- Go method `Inspector.Inspect`. -/
def Inspector.Inspect (lib : Lib) (i : Inspector) : Report :=
  inspect lib i.env i.clock i.rules i.config

/-- The outcome of `Run`: the writer after logging, the report and the error
(`none` for `nil`). -/
structure RunResult where
  output : Writer
  report : Report
  err : Option String

/-- Go method `Inspector.Run`: inspect, log, check fail-fast. -/
def Inspector.Run (lib : Lib) (i : Inspector) : RunResult :=
  let report := i.Inspect lib
  let output := LogReport lib i.output report
  match CheckFailFast report i.config.FailFast with
  | some e => { output := output, report := report, err := some e }
  | none => { output := output, report := report, err := none }

/-- Go function `Run`. -/
def Run (lib : Lib) (osEnv : EnvReader) (realClock : Clock) (stderr : Writer)
    (opts : List InspectorOption) : RunResult :=
  (New lib osEnv realClock stderr opts).Run lib

/-! ## httphandler.go -/

/-- An HTTP request as the handler reads it: the method and the value of the
`Authorization` header (`none` when the header is absent). -/
structure Request where
  Method : String
  Authorization : Option String

/-- The response of the handler: `http.Error` with a status code and a text, or
status 200 with the JSON encoding of a report. -/
inductive Response where
  | error (status : Nat) (text : String)
  | json (report : Report)

/-- The status code of a response. -/
def Response.status : Response → Nat
  | Response.error status _ => status
  | Response.json _ => 200

/-- Go `strings.TrimPrefix` on characters: the input without the leading
characters `lead` when it starts with them, the input itself otherwise. -/
def trimLeadingChars : List Char → List Char → Option (List Char)
  | [], cs => some cs
  | _ :: _, [] => none
  | p :: ps, c :: cs => if p = c then trimLeadingChars ps cs else none

/-- Go `strings.TrimPrefix(s, lead)`. -/
def trimLeading (s lead : String) : String :=
  match trimLeadingChars lead.data s.data with
  | some rest => String.mk rest
  | none => s

/-- Go `newDebugHandler`: the handler of `GET /debug/env`, as a function from
the request to the response. -/
def newDebugHandler (lib : Lib) (i : Inspector) (r : Request) : Response :=
  if r.Method ≠ "GET" then Response.error 405 "method not allowed"
  else
    let unauthorized :=
      if i.config.Token ≠ "" then
        let auth := r.Authorization.getD ""
        let token := trimLeading auth "Bearer "
        decide (token ≠ i.config.Token)
      else false
    if unauthorized then Response.error 401 "unauthorized"
    else
      let expired :=
        if i.config.ExpiresAt ≠ 0 then decide (i.clock.Now > i.config.ExpiresAt) else false
      if expired then Response.error 410 "endpoint expired"
      else Response.json (i.Inspect lib)

/-! ## Definitions used in the statements -/

/-- The summary obtained by running the loop body over a list of results. -/
def summarize (s : Summary) (rs : List VarResult) : Summary :=
  rs.foldl updateSummary s

/-- The keys kept at their first occurrence, in order. -/
def firstOccurrences : List String → List String
  | [] => []
  | k :: ks => k :: (firstOccurrences ks).filter (fun x => x != k)

/-! ## Concrete inputs -/

/-- A library record for inputs that call none of its functions: every parse
fails, no pattern compiles, quoting is the identity. -/
def noLib : Lib :=
  { parseDuration := fun _ => false, urlParse := fun _ => none, jsonValid := fun _ => false,
    regexpCompile := fun _ => none, quote := fun s => s,
    regexpError := fun _ => "error", yamlUnmarshal := fun _ => Except.error "error",
    parseRFC3339 := fun _ => none }

/-- The test helper `MapEnvReader` (testutil_test.go): a map, given by its
entries, enumerated in the order of the list. -/
def MapEnvReader (m : List (String × String)) : EnvReader :=
  { Getenv := fun key => ((m.find? (fun kv => kv.1 == key)).map (fun kv => kv.2)).getD "",
    LookupEnv := fun key =>
      match m.find? (fun kv => kv.1 == key) with
      | some kv => (kv.2, true)
      | none => ("", false),
    Environ := m.foldl (fun pairs kv => pairs ++ [kv.1 ++ "=" ++ kv.2]) [] }

/-- The rule `Rule{Key: key}`. -/
def keyRule (key : String) : Rule := { Rule.zero with Key := key }

/-- The configuration `Config{DumpAll: true}`. -/
def dumpAllConfig : Config := { Config.zero with DumpAll := true }

/-- The rule of `TestInspect_ValidationFails`. -/
def portRule : Rule := { keyRule "PORT" with Required := true, Typ := TypeInt }

/-- The result of inspecting `PORT=notanumber` under `portRule`. -/
def portResult : VarResult :=
  { Key := "PORT", Present := true, Length := 10, Required := true, Valid := false,
    Problems := ["not a valid int"], SecretLike := false, Fingerprint := "", Trimmed := false }

/-- The rule for `DB_PASSWORD` of `TestInspect_AllowlistMode`. -/
def passwordRule : Rule :=
  { keyRule "DB_PASSWORD" with
    Required := true, Typ := TypeString, Secret := some true, MinLen := some 16,
    Fingerprint := some true }

/-- The result of inspecting `DB_PASSWORD=super-secret-password-long` under `passwordRule`. -/
def passwordResult : VarResult :=
  { Key := "DB_PASSWORD", Present := true, Length := 26, Required := true, Valid := true,
    Problems := [], SecretLike := true, Fingerprint := "2181ad29", Trimmed := false }

/-- A map with the two keys `A=B` and `A`: both entries of its enumeration,
`A=B=c` and `A=d`, have the key `A`. -/
def twoEntryEnv : EnvReader := MapEnvReader [("A=B", "c"), ("A", "d")]

/-- The environment and rule of `TestInspect_DumpAllMode` with a rule for an unset key. -/
def dumpAllEnv : EnvReader :=
  MapEnvReader [("DB_HOST", "localhost"), ("APP_NAME", "myapp"), ("SECRET_KEY", "s3cr3t")]

/-- The rule `Rule{Key: "REQUIRED_VAR", Required: true, Type: TypeString}` of
`TestInspect_MissingRequired`. -/
def requiredRule : Rule := { keyRule "REQUIRED_VAR" with Required := true, Typ := TypeString }

/-- The rule `Rule{Type: TypeInt}`, whose key is empty. -/
def emptyKeyRule : Rule := { Rule.zero with Typ := TypeInt }

/-- The result of inspecting the unset key `REQUIRED_VAR` under `requiredRule`. -/
def requiredResult : VarResult :=
  { Key := "REQUIRED_VAR", Present := false, Length := 0, Required := true, Valid := false,
    Problems := ["required but not set"], SecretLike := false, Fingerprint := "",
    Trimmed := false }

/-- The result of inspecting the empty key, set to `x`, under `emptyKeyRule`. -/
def emptyKeyResult : VarResult :=
  { Key := "", Present := true, Length := 1, Required := false, Valid := true,
    Problems := [], SecretLike := false, Fingerprint := "", Trimmed := false }

/-- The first character of a string, if it has one. -/
def firstChar (s : String) : Option Char := s.data.head?

/-- Which of the five checks of `ValidateVar` the value violates, in the order
type, min_len, max_len, regex, allowed set; each flag is the condition under
which the code appends that check's problem. -/
def violations (lib : Lib) (value : String) (rule : Rule) : List Bool :=
  [ decide (rule.Typ ≠ "") && (checkType lib value rule.Typ).isSome,
    (match rule.MinLen with
     | some m => decide ((value.utf8ByteSize : Int) < m)
     | none => false),
    (match rule.MaxLen with
     | some m => decide ((value.utf8ByteSize : Int) > m)
     | none => false),
    decide (rule.Regex ≠ "") &&
      (match lib.regexpCompile rule.Regex with
       | some re => !re value
       | none => false),
    decide (rule.Allowed.length > 0) && !rule.Allowed.contains value ]

/-- The boolean grammar as the specification words it: the value equals "true"
or "false" when compared case-insensitively, or is "1" or "0". -/
def claimedBoolToken (value : String) : Bool :=
  value.data.map Char.toLower == "true".data ||
    value.data.map Char.toLower == "false".data || value == "1" || value == "0"

/-- The tokens that `strconv.ParseBool` accepts. -/
def parseBoolTokens : List String :=
  ["1", "t", "T", "TRUE", "true", "True", "0", "f", "F", "FALSE", "false", "False"]

/-- A base-10 signed integer literal as the specification words it: an optional
sign `+` or `-` followed by one or more decimal digits. -/
def isSignedDecimal (value : String) : Bool :=
  match value.data with
  | '+' :: ds => !ds.isEmpty && ds.all Char.isDigit
  | '-' :: ds => !ds.isEmpty && ds.all Char.isDigit
  | ds => !ds.isEmpty && ds.all Char.isDigit

/-- The integer that a signed decimal literal denotes. -/
def literalValue (value : String) : Int :=
  match value.data with
  | '+' :: ds => (digitsValue ds : Int)
  | '-' :: ds => - (digitsValue ds : Int)
  | ds => (digitsValue ds : Int)

/-- Is the result offending for the fail-fast check: required and (not present
or not valid)? -/
def offending (r : VarResult) : Bool := r.Required && (!r.Present || !r.Valid)

/-- A rule that is well-formed on its own: a non-empty key, a type that is unset
or one of the six recognised ones, a regex that is unset or compiles, and
min_len at most max_len when both are set. -/
def ruleWellFormed (lib : Lib) (r : Rule) : Bool :=
  decide (r.Key ≠ "") && (r.Typ == "" || validTypes r.Typ) &&
    (r.Regex == "" || (lib.regexpCompile r.Regex).isSome) &&
    (match r.MinLen, r.MaxLen with
     | some lo, some hi => decide (lo ≤ hi)
     | _, _ => true)

/-- The result of inspecting `EMPTY`, set to the empty string, under a required rule. -/
def emptyValueResult : VarResult :=
  { Key := "EMPTY", Present := true, Length := 0, Required := true, Valid := true,
    Problems := [], SecretLike := false, Fingerprint := "", Trimmed := false }

/-- The rule `Rule{Allowed: []string{"dev", "staging", "prod"}}` of `TestValidateVar_Allowed`. -/
def allowedRule : Rule := { Rule.zero with Allowed := ["dev", "staging", "prod"] }

/-- The rule `Rule{Type: TypeBool}`. -/
def boolRule : Rule := { Rule.zero with Typ := TypeBool }

/-- The rule `Rule{Type: TypeInt}`. -/
def intRule : Rule := { Rule.zero with Typ := TypeInt }

/-- The result of inspecting `SECRET_KEY=s3cr3t` without a rule, in dump-all mode. -/
def secretKeyResult : VarResult :=
  { Key := "SECRET_KEY", Present := true, Length := 6, Required := false, Valid := true,
    Problems := [], SecretLike := true, Fingerprint := "", Trimmed := false }

/-- The report of `TestCheckFailFast_MultipleFailures`. -/
def failingReport : Report :=
  { Timestamp := 0, Mode := "",
    Results :=
      [ { Key := "A", Present := false, Length := 0, Required := true, Valid := false,
          Problems := ["required but not set"], SecretLike := false, Fingerprint := "",
          Trimmed := false },
        { Key := "B", Present := true, Length := 0, Required := true, Valid := false,
          Problems := ["not a valid int"], SecretLike := false, Fingerprint := "",
          Trimmed := false },
        { Key := "C", Present := true, Length := 0, Required := false, Valid := true,
          Problems := [], SecretLike := false, Fingerprint := "", Trimmed := false } ],
    Summary := { Total := 0, Present := 0, Valid := 0, Required := 0, Missing := 0 } }

/-- The library record `noLib` with the verb `%q` as it acts on a string of
printable characters other than the double quote and the backslash: the string
between double quotes. -/
def quotingLib : Lib := { noLib with quote := fun s => "\"" ++ s ++ "\"" }

/-- The 32 bytes of the digest `sha256.Sum256(msg)`: the eight words, big-endian. -/
def sha256Sum (msg : List Nat) : List Nat :=
  ((sha256Words msg).map wordBytes).flatten

/-- The verb `%x` on a byte slice: two lower-case hexadecimal digits per byte. -/
def hexEncode (bytes : List Nat) : String :=
  String.mk (bytes.map hexByte).flatten

/-- The environment `MapEnvReader{"ENVDOC_FAIL_FAST": "true"}` of `TestNew_DefaultConfig`. -/
def failFastEnv : EnvReader := MapEnvReader [("ENVDOC_FAIL_FAST", "true")]

/-- The inspector of `TestHandler_TokenAuth`: the token `my-token`, an empty environment. -/
def tokenInspector : Inspector :=
  New noLib (MapEnvReader []) (Clock.mk 0) []
    [WithEnvReader (MapEnvReader []), WithConfig { Config.zero with Token := "my-token" }]

/-- Does the input start with the fragment, compared case-insensitively (each
character lower-cased equals the fragment's)? -/
def startsWithIgnoreCase : List Char → List Char → Bool
  | [], _ => true
  | _ :: _, [] => false
  | f :: fs, c :: cs => c.toLower == f && startsWithIgnoreCase fs cs

/-- Does the input contain the lower-case fragment anywhere, compared
case-insensitively? -/
def containsIgnoreCase (fragment : List Char) : List Char → Bool
  | [] => startsWithIgnoreCase fragment []
  | c :: cs => startsWithIgnoreCase fragment (c :: cs) || containsIgnoreCase fragment cs

/-- The fragments of claim C30 as the specification lists them. -/
def claimedFragments : List String :=
  ["password", "secret", "token", "apikey", "private key", "ssh", "pem", "cert", "jwt",
   "session", "cookie", "authorization", "bearer", "kms", "encrypt", "signing"]

/-- The fragments of claim C30 with "private key" replaced by the three
spellings that the pattern has. -/
def patternFragments : List String :=
  ["password", "secret", "token", "apikey", "privatekey", "private_key", "private-key",
   "ssh", "pem", "cert", "jwt", "session", "cookie", "authorization", "bearer", "kms",
   "encrypt", "signing"]

/-- The inspector of `TestRun_FailFast`. -/
def failFastInspector : Inspector :=
  New noLib (MapEnvReader []) (Clock.mk 0) []
    [WithEnvReader (MapEnvReader []), WithClock (Clock.mk 0),
     WithRules [{ keyRule "REQUIRED_VAR" with Required := true }],
     WithConfig { Config.zero with Mode := ModeAllowlist, FailFast := true }, WithOutput []]

/-- The text of the type check's problem for a type name: the message of the
error that `checkType` returns when a value fails the check of that type. -/
def typeMessage (typ : String) : String :=
  if typ = TypeInt then "not a valid int"
  else if typ = TypeBool then "not a valid bool"
  else if typ = TypeDuration then "not a valid duration"
  else if typ = TypeURL then "not a valid url"
  else if typ = TypeJSON then "not valid json"
  else ""

/-- The problem list as a function of the rule, the byte length of the value and
the flags of the failed checks (in the order type, min_len, max_len, regex,
allowed set); the value itself is not an argument. -/
def problemsFor (lib : Lib) (rule : Rule) (len : Nat) (failed : List Bool) : List String :=
  (if failed.getD 0 false then [typeMessage rule.Typ] else []) ++
  (if failed.getD 1 false then
    ["length " ++ toString len ++ " < min_len " ++ toString (rule.MinLen.getD 0)] else []) ++
  (if failed.getD 2 false then
    ["length " ++ toString len ++ " > max_len " ++ toString (rule.MaxLen.getD 0)] else []) ++
  (if failed.getD 3 false then ["does not match regex " ++ lib.quote rule.Regex] else []) ++
  (if failed.getD 4 false then
    ["value not in allowed set [" ++ String.intercalate ", " rule.Allowed ++ "]"] else [])

/-- A rule with every check set, for values of three bytes. -/
def strictRule : Rule :=
  { keyRule "PIN" with Typ := TypeInt, MinLen := some 4, MaxLen := some 2,
                       Allowed := ["1234", "5678"] }

/-- The inspector of `TestHandler_Expiry`: the expiry instant 12, the clock at `now`,
an empty environment. -/
def expiryInspector (now : Time) : Inspector :=
  New noLib (MapEnvReader []) (Clock.mk 0) []
    [WithEnvReader (MapEnvReader []), WithClock (Clock.mk now),
     WithConfig { Config.zero with ExpiresAt := 12 }]

/-- The configuration of `TestDumpAllMode_WithFingerprints`. -/
def dumpAllFingerprintConfig : Config :=
  { Config.zero with Mode := ModeDumpAll, DumpAll := true, DumpAllFingerprint := true }

/-- The environment `SECRET_KEY=s3cr3t`, `APP_NAME=myapp`. -/
def twoKeyEnv : EnvReader := MapEnvReader [("SECRET_KEY", "s3cr3t"), ("APP_NAME", "myapp")]

/-- The result of inspecting `APP_NAME=myapp` without a rule, in
dump-all-fingerprint mode. -/
def appNameResult : VarResult :=
  { Key := "APP_NAME", Present := true, Length := 5, Required := false, Valid := true,
    Problems := [], SecretLike := false, Fingerprint := "c1b70247", Trimmed := false }

/-- Simple case folding on the characters that fold to a character of the
pattern: an ASCII capital letter folds to its small letter, the Kelvin sign
U+212A to `k` and the long s U+017F to `s`; the characters of the pattern (small
ASCII letters, `_` and `-`) fold to themselves.  Other characters are left as
they are: none of them folds to a character of the pattern. -/
def simpleFold (c : Char) : Char :=
  if c.toNat = 0x212A then 'k' else if c.toNat = 0x17F then 's' else c.toLower

/-- Is `fragment` a substring of `s`: do some consecutive characters of `s` spell it? -/
def isSubstring (fragment s : List Char) : Bool :=
  s.tails.any (fun t => t.take fragment.length == fragment)

/-- Does the key, compared case-insensitively, contain the folded fragment as a
substring: is the fragment a substring of the case-folded key? -/
def containsFold (fragment key : String) : Bool :=
  isSubstring fragment.data (key.data.map simpleFold)

/-- The literal alternatives of the pattern as claim C31 lists them. -/
def literalAlternatives : List String :=
  ["password", "passwd", "pwd", "secret", "token", "apikey", "api_key", "api-key",
   "privatekey", "private_key", "private-key", "ssh", "pem", "cert", "jwt", "session",
   "cookie", "authorization", "bearer", "kms", "encrypt", "signing"]

/-! ## Auxiliary lemmas -/

theorem foldl_append_singleton {α β : Type} (f : α → β) (l : List α) (init : List β) :
    l.foldl (fun acc x => acc ++ [f x]) init = init ++ l.map f := by
  induction l generalizing init with
  | nil => simp
  | cons a t ih => simp [ih]

theorem environKeys_eq (env : EnvReader) : environKeys env = env.Environ.map cutKey := by
  simp [environKeys, foldl_append_singleton]

theorem inspect_loop (f : String → VarResult) (keys : List String) (init : Report) :
    keys.foldl (fun report key =>
      { report with Results := report.Results ++ [f key],
                    Summary := updateSummary report.Summary (f key) }) init
    = { init with Results := init.Results ++ keys.map f,
                  Summary := summarize init.Summary (keys.map f) } := by
  induction keys generalizing init with
  | nil => simp [summarize]
  | cons k t ih => simp [ih, summarize]

theorem inspect_results (lib : Lib) (env : EnvReader) (clock : Clock) (rules : List Rule)
    (cfg : Config) :
    (inspect lib env clock rules cfg).Results
      = (discoverKeys env rules cfg).map
          (fun key => inspectVar lib env key ((buildRuleMap rules).index key) cfg) := by
  unfold inspect
  simp only [inspect_loop]
  split <;> simp

theorem inspect_summary (lib : Lib) (env : EnvReader) (clock : Clock) (rules : List Rule)
    (cfg : Config) :
    (inspect lib env clock rules cfg).Summary
      = summarize { Total := 0, Present := 0, Valid := 0, Required := 0, Missing := 0 }
          (inspect lib env clock rules cfg).Results := by
  unfold inspect
  simp only [inspect_loop]
  split <;> simp

/-- The result of `inspectVar` written out field by field. -/
theorem inspectVar_eq (lib : Lib) (env : EnvReader) (key : String) (rule : Rule) (cfg : Config) :
    inspectVar lib env key rule cfg =
      if (env.LookupEnv key).2 = false then
        { Key := key, Present := false, Length := 0, Required := rule.Required,
          Valid := !rule.Required,
          Problems := if rule.Required then ["required but not set"] else [],
          SecretLike := classifySecretLike key rule, Fingerprint := "", Trimmed := false }
      else
        { Key := key, Present := true, Length := (env.LookupEnv key).1.utf8ByteSize,
          Required := rule.Required,
          Valid := (if rule.Key ≠ "" then ValidateVar lib (env.LookupEnv key).1 rule else []).isEmpty,
          Problems := if rule.Key ≠ "" then ValidateVar lib (env.LookupEnv key).1 rule else [],
          SecretLike := classifySecretLike key rule,
          Fingerprint :=
            if shouldFingerprint (classifySecretLike key rule) rule cfg.DumpAllFingerprint
            then FingerprintValue (env.LookupEnv key).1 else "",
          Trimmed := detectWhitespace (env.LookupEnv key).1 } := by
  rcases h : env.LookupEnv key with ⟨value, present⟩
  cases present
  · cases hr : rule.Required <;> simp [inspectVar, h, hr]
  · by_cases hk : rule.Key = ""
    · cases hf : shouldFingerprint (classifySecretLike key rule) rule cfg.DumpAllFingerprint <;>
        simp [inspectVar, h, hk, hf]
    · cases hv : ValidateVar lib value rule with
      | nil =>
        cases hf : shouldFingerprint (classifySecretLike key rule) rule cfg.DumpAllFingerprint <;>
          simp [inspectVar, h, hk, hf, hv]
      | cons p ps =>
        cases hf : shouldFingerprint (classifySecretLike key rule) rule cfg.DumpAllFingerprint <;>
          simp [inspectVar, h, hk, hf, hv]

theorem inspectVar_key (lib : Lib) (env : EnvReader) (key : String) (rule : Rule) (cfg : Config) :
    (inspectVar lib env key rule cfg).Key = key := by
  rw [inspectVar_eq]; split <;> rfl

theorem inspectVar_valid_iff (lib : Lib) (env : EnvReader) (key : String) (rule : Rule)
    (cfg : Config) :
    (inspectVar lib env key rule cfg).Valid = (inspectVar lib env key rule cfg).Problems.isEmpty := by
  rw [inspectVar_eq]; split
  · cases rule.Required <;> simp
  · rfl

theorem summarize_counts (rs : List VarResult) (s : Summary) :
    summarize s rs =
      { Total := s.Total + rs.length,
        Present := s.Present + rs.countP (fun vr => vr.Present),
        Valid := s.Valid + rs.countP (fun vr => vr.Valid),
        Required := s.Required + rs.countP (fun vr => vr.Required),
        Missing := s.Missing + rs.countP (fun vr => vr.Required && !vr.Present) } := by
  induction rs generalizing s with
  | nil => simp [summarize]
  | cons vr t ih =>
    have hstep : summarize s (vr :: t) = summarize (updateSummary s vr) t := rfl
    rw [hstep, ih]
    cases hp : vr.Present <;> cases hv : vr.Valid <;> cases hr : vr.Required <;>
      simp [updateSummary, hp, hv, hr, List.countP_cons] <;> omega

theorem foldl_set_some (rules : List Rule) (m : RuleMap) (k : String) (r : Rule)
    (h : rules.foldl (fun m r => m.set r.Key r) m k = some r) :
    (r ∈ rules ∧ r.Key = k) ∨ m k = some r := by
  induction rules generalizing m with
  | nil => right; simpa using h
  | cons a t ih =>
    rcases ih (m.set a.Key a) h with h1 | h1
    · left; exact ⟨List.mem_cons_of_mem _ h1.1, h1.2⟩
    · unfold RuleMap.set at h1
      by_cases hk : k = a.Key
      · simp [hk] at h1
        left; subst h1; exact ⟨List.mem_cons_self _ _, hk.symm⟩
      · simp [hk] at h1
        right; exact h1

theorem foldl_set_isSome (rules : List Rule) (m : RuleMap) (k : String) :
    (rules.foldl (fun m r => m.set r.Key r) m k).isSome
      = ((m k).isSome || rules.any (fun r => r.Key == k)) := by
  induction rules generalizing m with
  | nil => simp
  | cons a t ih =>
    simp only [List.foldl_cons, ih, List.any_cons]
    unfold RuleMap.set
    by_cases hk : k = a.Key
    · simp [hk]
    · have hk2 : (a.Key == k) = false := by
        simp only [beq_eq_false_iff_ne, ne_eq]
        exact fun h => hk h.symm
      simp [hk, hk2]

theorem buildRuleMap_some (rules : List Rule) (k : String) (r : Rule)
    (h : buildRuleMap rules k = some r) : r ∈ rules ∧ r.Key = k := by
  rcases foldl_set_some rules (fun _ => none) k r h with h1 | h1
  · exact h1
  · simp at h1

theorem buildRuleMap_isSome_of_mem (rules : List Rule) (r : Rule) (h : r ∈ rules) :
    (buildRuleMap rules r.Key).isSome = true := by
  unfold buildRuleMap
  rw [foldl_set_isSome]
  simp
  exact ⟨r, h, rfl⟩

theorem buildRuleMap_none (rules : List Rule) (k : String) (h : ∀ r ∈ rules, r.Key ≠ k) :
    buildRuleMap rules k = none := by
  cases hm : buildRuleMap rules k with
  | none => rfl
  | some r => exact absurd (buildRuleMap_some rules k r hm).2 (h r (buildRuleMap_some rules k r hm).1)

theorem index_key (rules : List Rule) (k : String) :
    ((buildRuleMap rules).index k).Key = k ∨
      ((∀ r ∈ rules, r.Key ≠ k) ∧ (buildRuleMap rules).index k = Rule.zero) := by
  unfold RuleMap.index
  cases hm : buildRuleMap rules k with
  | some r => left; simpa using (buildRuleMap_some rules k r hm).2
  | none =>
    right
    refine ⟨?_, by simp⟩
    intro r hr hk
    have := buildRuleMap_isSome_of_mem rules r hr
    rw [hk, hm] at this
    simp at this

theorem index_mem (rules : List Rule) (k : String) (q : Rule) (hq : q ∈ rules) (hk : q.Key = k) :
    (buildRuleMap rules).index k ∈ rules ∧ ((buildRuleMap rules).index k).Key = k := by
  unfold RuleMap.index
  cases hm : buildRuleMap rules k with
  | some r => simpa using buildRuleMap_some rules k r hm
  | none =>
    have := buildRuleMap_isSome_of_mem rules q hq
    rw [hk, hm] at this
    simp at this

theorem index_unique (rules : List Rule) (q : Rule) (hq : q ∈ rules)
    (hnd : (rules.map (fun r => r.Key)).Nodup) :
    (buildRuleMap rules).index q.Key = q := by
  obtain ⟨hmem, hkey⟩ := index_mem rules q.Key q hq rfl
  exact List.inj_on_of_nodup_map hnd hmem hq hkey

theorem firstOccurrences_filter (p : String → Bool) (l : List String) :
    (firstOccurrences l).filter p = firstOccurrences (l.filter p) := by
  induction l with
  | nil => rfl
  | cons a t ih =>
    by_cases hp : p a = true
    · simp only [firstOccurrences, List.filter_cons, hp, if_true]
      rw [← ih, List.filter_filter, List.filter_filter]
      congr 2
      funext x
      exact Bool.and_comm _ _
    · have hp2 : p a = false := by simpa using hp
      simp only [firstOccurrences, List.filter_cons, hp2, Bool.false_eq_true, if_false]
      rw [← ih, List.filter_filter]
      apply List.filter_congr
      intro x _
      by_cases hx : x = a
      · subst hx; simp [hp2]
      · simp [hx]

theorem firstOccurrences_subset (l : List String) (k : String) (h : k ∈ firstOccurrences l) :
    k ∈ l := by
  induction l with
  | nil => simp [firstOccurrences] at h
  | cons a t ih =>
    simp only [firstOccurrences, List.mem_cons, List.mem_filter] at h
    rcases h with h | ⟨h, _⟩
    · exact h ▸ List.mem_cons_self _ _
    · exact List.mem_cons_of_mem _ (ih h)

theorem mem_firstOccurrences (l : List String) (k : String) (h : k ∈ l) :
    k ∈ firstOccurrences l := by
  induction l with
  | nil => simp at h
  | cons a t ih =>
    by_cases hk : k = a
    · subst hk; simp [firstOccurrences]
    · have ht : k ∈ t := by
        rcases List.mem_cons.mp h with h1 | h1
        · exact absurd h1 hk
        · exact h1
      simp [firstOccurrences, List.mem_filter, hk, ih ht]

theorem firstOccurrences_nodup (l : List String) (h : l.Nodup) : firstOccurrences l = l := by
  induction l with
  | nil => rfl
  | cons a t ih =>
    have ha : a ∉ t := (List.nodup_cons.mp h).1
    simp only [firstOccurrences, ih (List.nodup_cons.mp h).2]
    congr 1
    rw [List.filter_eq_self]
    intro x hx
    have : x ≠ a := fun hxa => ha (hxa ▸ hx)
    simp [this]

theorem any_beq_eq_decide (l : List String) (k : String) :
    l.any (fun x => x == k) = decide (k ∈ l) := by
  induction l with
  | nil => simp
  | cons a t ih =>
    by_cases h : a = k
    · simp [h]
    · have h2 : ¬ k = a := fun e => h e.symm
      simp [h, h2, ih]

theorem appendKeys_eq (ks : List String) (keys : List String) :
    ks.foldl (fun keys k => if !(keys.any (fun x => x == k)) then keys ++ [k] else keys) keys
      = keys ++ firstOccurrences (ks.filter (fun k => !(keys.any (fun x => x == k)))) := by
  induction ks generalizing keys with
  | nil => simp [firstOccurrences]
  | cons k t ih =>
    by_cases hk : k ∈ keys
    · have hany : keys.any (fun x => x == k) = true := by
        rw [any_beq_eq_decide]; simpa using hk
      simp only [List.foldl_cons, hany, List.filter_cons]
      simpa using ih keys
    · have hany : keys.any (fun x => x == k) = false := by
        rw [any_beq_eq_decide]; simpa using hk
      simp only [List.foldl_cons, hany, List.filter_cons, Bool.not_false, if_true]
      rw [ih (keys ++ [k])]
      simp only [firstOccurrences, List.append_assoc, List.singleton_append]
      congr 2
      rw [firstOccurrences_filter, List.filter_filter]
      congr 1
      apply List.filter_congr
      intro x _
      by_cases hx : x = k
      · subst hx; simp
      · have hx2 : (k == x) = false := by
          simp only [beq_eq_false_iff_ne, ne_eq]
          exact fun h => hx h.symm
        have hx3 : (x != k) = true := by simp [hx]
        simp [hx2, hx3, List.any_append]

theorem appendRuleKeys_eq (rules : List Rule) (keys : List String) :
    appendRuleKeys (buildRuleMap rules) rules keys
      = keys ++ firstOccurrences
          ((rules.map (fun r => r.Key)).filter (fun k => !(keys.any (fun x => x == k)))) := by
  rw [← appendKeys_eq]
  unfold appendRuleKeys
  rw [List.foldl_map]
  have hgen : ∀ (l : List Rule) (acc : List String), (∀ r ∈ l, r ∈ rules) →
      l.foldl (fun keys r =>
        if (buildRuleMap rules r.Key).isSome then
          let found := keys.any (fun k => k == r.Key)
          if !found then keys ++ [r.Key] else keys
        else keys) acc
      = l.foldl (fun keys r =>
          if !(keys.any (fun x => x == r.Key)) then keys ++ [r.Key] else keys) acc := by
    intro l
    induction l with
    | nil => intro acc _; rfl
    | cons a t ih =>
      intro acc hsub
      have ha : (buildRuleMap rules a.Key).isSome = true :=
        buildRuleMap_isSome_of_mem rules a (hsub a (List.mem_cons_self _ _))
      simp only [List.foldl_cons, ha, if_true]
      exact ih _ (fun r hr => hsub r (List.mem_cons_of_mem _ hr))
  exact hgen rules keys (fun _ h => h)

theorem discoverKeys_allowlist (env : EnvReader) (rules : List Rule) (cfg : Config)
    (h : cfg.DumpAll = false) : discoverKeys env rules cfg = rules.map (fun r => r.Key) := by
  simp [discoverKeys, h, foldl_append_singleton]

theorem discoverKeys_dumpAll (env : EnvReader) (rules : List Rule) (cfg : Config)
    (h : cfg.DumpAll = true) :
    discoverKeys env rules cfg
      = env.Environ.map cutKey ++ firstOccurrences
          ((rules.map (fun r => r.Key)).filter (fun k => decide (k ∉ env.Environ.map cutKey))) := by
  simp only [discoverKeys, h, if_true, appendRuleKeys_eq, environKeys_eq]
  congr 2
  apply List.filter_congr
  intro x _
  rw [any_beq_eq_decide, decide_not]

theorem inspect_keys (lib : Lib) (env : EnvReader) (clock : Clock) (rules : List Rule)
    (cfg : Config) :
    (inspect lib env clock rules cfg).Results.map (fun vr => vr.Key)
      = discoverKeys env rules cfg := by
  rw [inspect_results, List.map_map]
  conv => rhs; rw [← List.map_id (discoverKeys env rules cfg)]
  apply List.map_congr_left
  intro k _
  simp [inspectVar_key]

theorem inspectVar_secretLike (lib : Lib) (env : EnvReader) (key : String) (rule : Rule)
    (cfg : Config) :
    (inspectVar lib env key rule cfg).SecretLike = classifySecretLike key rule := by
  rw [inspectVar_eq]; split <;> rfl

theorem inspectVar_present (lib : Lib) (env : EnvReader) (key : String) (rule : Rule)
    (cfg : Config) :
    (inspectVar lib env key rule cfg).Present = (env.LookupEnv key).2 := by
  rw [inspectVar_eq]; split
  · rename_i h; rw [h]
  · rename_i h; simpa using h

theorem inspectVar_fingerprint (lib : Lib) (env : EnvReader) (key : String) (rule : Rule)
    (cfg : Config) :
    (inspectVar lib env key rule cfg).Fingerprint =
      if (env.LookupEnv key).2 = true ∧
          shouldFingerprint (classifySecretLike key rule) rule cfg.DumpAllFingerprint = true
      then FingerprintValue (env.LookupEnv key).1 else "" := by
  rw [inspectVar_eq]
  cases hp : (env.LookupEnv key).2 <;> simp

theorem inspectVar_absent (lib : Lib) (env : EnvReader) (key : String) (rule : Rule)
    (cfg : Config) (h : (env.LookupEnv key).2 = false) :
    (inspectVar lib env key rule cfg).Length = 0 ∧
    (inspectVar lib env key rule cfg).Valid = !rule.Required ∧
    (inspectVar lib env key rule cfg).Problems
      = if rule.Required then ["required but not set"] else [] := by
  rw [inspectVar_eq]; simp [h]

theorem inspectVar_set (lib : Lib) (env : EnvReader) (key : String) (rule : Rule)
    (cfg : Config) (value : String) (h : env.LookupEnv key = (value, true)) :
    (inspectVar lib env key rule cfg).Length = value.utf8ByteSize ∧
    (inspectVar lib env key rule cfg).Problems
      = (if rule.Key ≠ "" then ValidateVar lib value rule else []) := by
  rw [inspectVar_eq]; simp [h]

theorem ValidateVar_zero (lib : Lib) (value : String) : ValidateVar lib value Rule.zero = [] := by
  simp [ValidateVar, typeProblems, minLenProblems, maxLenProblems, regexProblems,
    allowedProblems, Rule.zero]

/-! ## The fingerprint decision and the secret classifier -/

/-- C1: shouldFingerprint returns the rule's fingerprint value when the rule sets
it (true or false), whatever the other two inputs; otherwise false when
secretLike is true; otherwise dumpAllFingerprint.  Equivalently the result is
rule.Fingerprint if set, else (not secretLike and dumpAllFingerprint). -/
theorem shouldFingerprint_priority (secretLike : Bool) (rule : Rule)
    (dumpAllFingerprint b : Bool) :
    shouldFingerprint secretLike { rule with Fingerprint := some b } dumpAllFingerprint = b ∧
    shouldFingerprint true { rule with Fingerprint := none } dumpAllFingerprint = false ∧
    shouldFingerprint false { rule with Fingerprint := none } dumpAllFingerprint
      = dumpAllFingerprint ∧
    shouldFingerprint secretLike rule dumpAllFingerprint
      = (match rule.Fingerprint with
         | some v => v
         | none => !secretLike && dumpAllFingerprint) := by
  refine ⟨rfl, rfl, ?_, ?_⟩
  · cases dumpAllFingerprint <;> rfl
  · unfold shouldFingerprint
    cases rule.Fingerprint <;> cases secretLike <;> cases dumpAllFingerprint <;> rfl

/-- C2: classifySecretLike returns the rule's secret value verbatim when the rule
sets it (true or false), whatever the key, and IsSecretLike of the key when the
rule leaves it unset. -/
theorem classifySecretLike_override (key : String) (rule : Rule) (b : Bool) :
    classifySecretLike key { rule with Secret := some b } = b ∧
    classifySecretLike key { rule with Secret := none } = IsSecretLike key ∧
    classifySecretLike key rule
      = (match rule.Secret with
         | some v => v
         | none => IsSecretLike key) := by
  refine ⟨rfl, rfl, ?_⟩
  unfold classifySecretLike
  cases rule.Secret <;> rfl

/-! ## The inspection engine -/

/-- C3: every VarResult in the report returned by inspect satisfies
valid = (problems is empty). -/
theorem inspect_valid_iff_no_problems (lib : Lib) (env : EnvReader) (clock : Clock)
    (rules : List Rule) (cfg : Config) (vr : VarResult)
    (hmem : vr ∈ (inspect lib env clock rules cfg).Results) :
    vr.Valid = vr.Problems.isEmpty := by
  rw [inspect_results] at hmem
  obtain ⟨key, _, rfl⟩ := List.mem_map.mp hmem
  exact inspectVar_valid_iff lib env key _ cfg

/-- Witness of C3: the test `TestInspect_ValidationFails`. -/
theorem inspect_valid_iff_no_problems_witness :
    portResult ∈ (inspect noLib (MapEnvReader [("PORT", "notanumber")]) (Clock.mk 0)
        [portRule] Config.zero).Results ∧
    portResult.Valid = portResult.Problems.isEmpty :=
  ⟨by decide,
   inspect_valid_iff_no_problems noLib (MapEnvReader [("PORT", "notanumber")]) (Clock.mk 0)
     [portRule] Config.zero portResult (by decide)⟩

/-- C4: no VarResult returned by inspect has both secret_like = true and a
non-empty fingerprint unless the rule applied to its key (the entry of the rule
map for that key) explicitly sets fingerprint = true. -/
theorem inspect_secret_fingerprint_forced (lib : Lib) (env : EnvReader) (clock : Clock)
    (rules : List Rule) (cfg : Config) (vr : VarResult)
    (hmem : vr ∈ (inspect lib env clock rules cfg).Results)
    (hsecret : vr.SecretLike = true) (hfp : vr.Fingerprint ≠ "") :
    ((buildRuleMap rules).index vr.Key).Fingerprint = some true := by
  rw [inspect_results] at hmem
  obtain ⟨key, _, rfl⟩ := List.mem_map.mp hmem
  rw [inspectVar_key]
  rw [inspectVar_secretLike] at hsecret
  rw [inspectVar_fingerprint, hsecret] at hfp
  have hsf : shouldFingerprint true ((buildRuleMap rules).index key) cfg.DumpAllFingerprint
      = true := by
    by_contra hne
    exact hfp (by simp [hne])
  unfold shouldFingerprint at hsf
  cases hf : ((buildRuleMap rules).index key).Fingerprint with
  | none => simp [hf] at hsf
  | some b => simp [hf] at hsf; rw [hsf]

/-- Witness of C4: `DB_PASSWORD` of `TestInspect_AllowlistMode`, secret by rule
and fingerprinted because its rule sets fingerprint = true. -/
theorem inspect_secret_fingerprint_forced_witness :
    passwordResult ∈ (inspect noLib
        (MapEnvReader [("DB_PASSWORD", "super-secret-password-long")]) (Clock.mk 0)
        [passwordRule] Config.zero).Results ∧
    passwordResult.SecretLike = true ∧ passwordResult.Fingerprint ≠ "" ∧
    ((buildRuleMap [passwordRule]).index passwordResult.Key).Fingerprint = some true :=
  ⟨by decide!, by decide, by decide,
   inspect_secret_fingerprint_forced noLib
     (MapEnvReader [("DB_PASSWORD", "super-secret-password-long")]) (Clock.mk 0)
     [passwordRule] Config.zero passwordResult (by decide!) (by decide) (by decide)⟩

/-- C5: the summary of the report returned by inspect is the aggregate of its
results: total = number of results, present / valid / required = number of
results with that flag, missing = number of results required and not present. -/
theorem inspect_summary_aggregate (lib : Lib) (env : EnvReader) (clock : Clock)
    (rules : List Rule) (cfg : Config) :
    (inspect lib env clock rules cfg).Summary.Total
      = (inspect lib env clock rules cfg).Results.length ∧
    (inspect lib env clock rules cfg).Summary.Present
      = (inspect lib env clock rules cfg).Results.countP (fun vr => vr.Present) ∧
    (inspect lib env clock rules cfg).Summary.Valid
      = (inspect lib env clock rules cfg).Results.countP (fun vr => vr.Valid) ∧
    (inspect lib env clock rules cfg).Summary.Required
      = (inspect lib env clock rules cfg).Results.countP (fun vr => vr.Required) ∧
    (inspect lib env clock rules cfg).Summary.Missing
      = (inspect lib env clock rules cfg).Results.countP
          (fun vr => vr.Required && !vr.Present) := by
  rw [inspect_summary, summarize_counts]
  simp

/-- C6: in allow-list mode (DumpAll false) the sequence of result keys equals the
sequence of rule keys in rule order: one result per rule, and no result has a
key that no rule defines, whatever the environment holds. -/
theorem inspect_allowlist_keys (lib : Lib) (env : EnvReader) (clock : Clock)
    (rules : List Rule) (cfg : Config) (hmode : cfg.DumpAll = false) :
    (inspect lib env clock rules cfg).Results.map (fun vr => vr.Key)
      = rules.map (fun r => r.Key) ∧
    (inspect lib env clock rules cfg).Results.length = rules.length ∧
    ∀ vr ∈ (inspect lib env clock rules cfg).Results, ∃ r ∈ rules, r.Key = vr.Key := by
  have hkeys := inspect_keys lib env clock rules cfg
  rw [discoverKeys_allowlist env rules cfg hmode] at hkeys
  refine ⟨hkeys, ?_, ?_⟩
  · have := congrArg List.length hkeys
    simpa using this
  · intro vr hvr
    have hk : vr.Key ∈ rules.map (fun r => r.Key) := by
      rw [← hkeys]; exact List.mem_map.mpr ⟨vr, hvr, rfl⟩
    obtain ⟨r, hr, hrk⟩ := List.mem_map.mp hk
    exact ⟨r, hr, hrk⟩

/-- Witness of C6: `OTHER` is set in the environment and named by no rule; the
report has the one key `PORT`. -/
theorem inspect_allowlist_keys_witness :
    Config.zero.DumpAll = false ∧
    (inspect noLib (MapEnvReader [("OTHER", "x"), ("PORT", "80")]) (Clock.mk 0)
        [portRule] Config.zero).Results.map (fun vr => vr.Key) = ["PORT"] :=
  ⟨rfl,
   (inspect_allowlist_keys noLib (MapEnvReader [("OTHER", "x"), ("PORT", "80")]) (Clock.mk 0)
     [portRule] Config.zero rfl).1⟩

/-- C7 as stated fails for a rule list that names a key twice: with the rules
`X`, `X` and an empty environment, dump-all discovery yields the one key `X`,
while the snapshot keys followed by the rule keys not among them are `X`, `X`. -/
theorem inspect_dumpAll_keys_duplicate_rule :
    (inspect noLib (MapEnvReader []) (Clock.mk 0) [keyRule "X", keyRule "X"]
        dumpAllConfig).Results.map (fun vr => vr.Key) = ["X"] ∧
    (MapEnvReader []).Environ.map cutKey ++
      ([keyRule "X", keyRule "X"].map (fun r => r.Key)).filter
        (fun k => decide (k ∉ (MapEnvReader []).Environ.map cutKey)) = ["X", "X"] ∧
    (inspect noLib (MapEnvReader []) (Clock.mk 0) [keyRule "X", keyRule "X"]
        dumpAllConfig).Results.map (fun vr => vr.Key) ≠
      (MapEnvReader []).Environ.map cutKey ++
        ([keyRule "X", keyRule "X"].map (fun r => r.Key)).filter
          (fun k => decide (k ∉ (MapEnvReader []).Environ.map cutKey)) := by
  refine ⟨by decide, by decide, by decide⟩

/-- C7, amended: in dump-all mode (DumpAll true) the sequence of result keys is
the keys of the snapshot's entries in enumeration order (the text before the
first `=` of each entry), followed by the rule keys that are not among the
snapshot keys, in rule order, each listed once at its first occurrence; when the
rule keys are pairwise distinct that is every rule key not among the snapshot
keys.  Hence every environment key and every rule key appears in the report. -/
theorem inspect_dumpAll_keys (lib : Lib) (env : EnvReader) (clock : Clock)
    (rules : List Rule) (cfg : Config) (hmode : cfg.DumpAll = true) :
    (inspect lib env clock rules cfg).Results.map (fun vr => vr.Key)
      = env.Environ.map cutKey ++
          firstOccurrences ((rules.map (fun r => r.Key)).filter
            (fun k => decide (k ∉ env.Environ.map cutKey))) ∧
    ((rules.map (fun r => r.Key)).Nodup →
      (inspect lib env clock rules cfg).Results.map (fun vr => vr.Key)
        = env.Environ.map cutKey ++
            (rules.map (fun r => r.Key)).filter
              (fun k => decide (k ∉ env.Environ.map cutKey))) ∧
    (∀ pair ∈ env.Environ,
      cutKey pair ∈ (inspect lib env clock rules cfg).Results.map (fun vr => vr.Key)) ∧
    (∀ r ∈ rules, r.Key ∈ (inspect lib env clock rules cfg).Results.map (fun vr => vr.Key)) := by
  have hkeys := inspect_keys lib env clock rules cfg
  rw [discoverKeys_dumpAll env rules cfg hmode] at hkeys
  refine ⟨hkeys, ?_, ?_, ?_⟩
  · intro hnd
    rw [hkeys, firstOccurrences_nodup _ (hnd.filter _)]
  · intro pair hpair
    rw [hkeys]
    exact List.mem_append_left _ (List.mem_map.mpr ⟨pair, hpair, rfl⟩)
  · intro r hr
    rw [hkeys]
    by_cases hin : r.Key ∈ env.Environ.map cutKey
    · exact List.mem_append_left _ hin
    · apply List.mem_append_right
      apply mem_firstOccurrences
      rw [List.mem_filter]
      exact ⟨List.mem_map.mpr ⟨r, hr, rfl⟩, by simpa using hin⟩

/-- Witness of C7: three environment entries and a rule for the unset key
`REQUIRED_VAR`, which is appended after the environment keys. -/
theorem inspect_dumpAll_keys_witness :
    dumpAllConfig.DumpAll = true ∧
    (inspect noLib dumpAllEnv (Clock.mk 0) [keyRule "APP_NAME", requiredRule]
        dumpAllConfig).Results.map (fun vr => vr.Key)
      = ["DB_HOST", "APP_NAME", "SECRET_KEY", "REQUIRED_VAR"] :=
  ⟨rfl,
   (inspect_dumpAll_keys noLib dumpAllEnv (Clock.mk 0) [keyRule "APP_NAME", requiredRule]
     dumpAllConfig rfl).1.trans (by decide)⟩

/-- C8 as stated fails for a snapshot whose enumeration lists a key twice: the
map with the keys `A=B` and `A` enumerates `A=B=c` and `A=d`, both with the key
`A`, and the dump-all report has two results for `A`. -/
theorem inspect_dumpAll_key_twice :
    "A" ∈ twoEntryEnv.Environ.map cutKey ∧
    ((inspect noLib twoEntryEnv (Clock.mk 0) [] dumpAllConfig).Results.map
        (fun vr => vr.Key)).count "A" = 2 ∧
    ((inspect noLib twoEntryEnv (Clock.mk 0) [] dumpAllConfig).Results.map
        (fun vr => vr.Key)).count "A" ≠ 1 := by
  refine ⟨by decide, by decide, by decide⟩

/-- C8, amended: in dump-all mode every key present in the snapshot occurs among
the report's results exactly as many times as the snapshot enumeration lists it,
at its positions in that enumeration (the results begin with the snapshot keys
in order), whether or not a rule also names it; so it occurs exactly once when
the enumeration lists it once. -/
theorem inspect_dumpAll_key_count (lib : Lib) (env : EnvReader) (clock : Clock)
    (rules : List Rule) (cfg : Config) (key : String) (hmode : cfg.DumpAll = true)
    (hkey : key ∈ env.Environ.map cutKey) :
    ((inspect lib env clock rules cfg).Results.map (fun vr => vr.Key)).count key
      = (env.Environ.map cutKey).count key ∧
    ((inspect lib env clock rules cfg).Results.map (fun vr => vr.Key)).take
        env.Environ.length = env.Environ.map cutKey ∧
    ((env.Environ.map cutKey).count key = 1 →
      ((inspect lib env clock rules cfg).Results.map (fun vr => vr.Key)).count key = 1) := by
  have hkeys := inspect_keys lib env clock rules cfg
  rw [discoverKeys_dumpAll env rules cfg hmode] at hkeys
  have hcount : ((inspect lib env clock rules cfg).Results.map (fun vr => vr.Key)).count key
      = (env.Environ.map cutKey).count key := by
    rw [hkeys, List.count_append]
    have hnot : key ∉ firstOccurrences ((rules.map (fun r => r.Key)).filter
        (fun k => decide (k ∉ env.Environ.map cutKey))) := by
      intro hin
      have := firstOccurrences_subset _ _ hin
      rw [List.mem_filter] at this
      simp at this
      exact absurd hkey (by simpa using this.2)
    rw [List.count_eq_zero_of_not_mem hnot]
    rfl
  refine ⟨hcount, ?_, ?_⟩
  · rw [hkeys]
    have hlen : env.Environ.length = (env.Environ.map cutKey).length := by simp
    rw [hlen, List.take_left]
  · intro h1
    rw [hcount, h1]

/-- Witness of C8: `APP_NAME` is set in the environment and named by a rule; it
occurs once among the results. -/
theorem inspect_dumpAll_key_count_witness :
    dumpAllConfig.DumpAll = true ∧ "APP_NAME" ∈ dumpAllEnv.Environ.map cutKey ∧
    ((inspect noLib dumpAllEnv (Clock.mk 0) [keyRule "APP_NAME", requiredRule]
        dumpAllConfig).Results.map (fun vr => vr.Key)).count "APP_NAME" = 1 :=
  ⟨rfl, by decide,
   (inspect_dumpAll_key_count noLib dumpAllEnv (Clock.mk 0) [keyRule "APP_NAME", requiredRule]
     dumpAllConfig "APP_NAME" rfl (by decide)).2.2 (by decide)⟩

theorem inspect_valid_iff_problems_nil (lib : Lib) (env : EnvReader) (clock : Clock)
    (rules : List Rule) (cfg : Config) (vr : VarResult)
    (hmem : vr ∈ (inspect lib env clock rules cfg).Results) :
    vr.Valid = true ↔ vr.Problems = [] := by
  rw [inspect_results] at hmem
  obtain ⟨key, _, rfl⟩ := List.mem_map.mp hmem
  rw [inspectVar_valid_iff]
  exact List.isEmpty_iff

/-- C9: for every key that the snapshot lookup reports as not set, the result
has present = false and length = 0; if the rule passed for the key is required
the result is invalid with problems exactly "required but not set", and if it is
not required the result is valid with no problems.  The same holds for every
result of inspect with that key, the rule being the rule map's entry for it. -/
theorem inspect_absent_result (lib : Lib) (env : EnvReader) (clock : Clock)
    (rules : List Rule) (cfg : Config) (key : String) (rule : Rule)
    (habsent : (env.LookupEnv key).2 = false) :
    ((inspectVar lib env key rule cfg).Present = false ∧
      (inspectVar lib env key rule cfg).Length = 0 ∧
      (rule.Required = true →
        (inspectVar lib env key rule cfg).Valid = false ∧
        (inspectVar lib env key rule cfg).Problems = ["required but not set"]) ∧
      (rule.Required = false →
        (inspectVar lib env key rule cfg).Valid = true ∧
        (inspectVar lib env key rule cfg).Problems = [])) ∧
    (∀ vr ∈ (inspect lib env clock rules cfg).Results, vr.Key = key →
      vr.Present = false ∧ vr.Length = 0 ∧
      (((buildRuleMap rules).index key).Required = true →
        vr.Valid = false ∧ vr.Problems = ["required but not set"]) ∧
      (((buildRuleMap rules).index key).Required = false →
        vr.Valid = true ∧ vr.Problems = [])) := by
  have hvar : ∀ rule : Rule,
      (inspectVar lib env key rule cfg).Present = false ∧
      (inspectVar lib env key rule cfg).Length = 0 ∧
      (rule.Required = true →
        (inspectVar lib env key rule cfg).Valid = false ∧
        (inspectVar lib env key rule cfg).Problems = ["required but not set"]) ∧
      (rule.Required = false →
        (inspectVar lib env key rule cfg).Valid = true ∧
        (inspectVar lib env key rule cfg).Problems = []) := by
    intro rule
    obtain ⟨hlen, hvalid, hprob⟩ := inspectVar_absent lib env key rule cfg habsent
    refine ⟨by rw [inspectVar_present, habsent], hlen, ?_, ?_⟩
    · intro hreq
      rw [hvalid, hprob, hreq]
      exact ⟨rfl, rfl⟩
    · intro hreq
      rw [hvalid, hprob, hreq]
      exact ⟨rfl, rfl⟩
  refine ⟨hvar rule, ?_⟩
  intro vr hmem hk
  rw [inspect_results] at hmem
  obtain ⟨k, _, rfl⟩ := List.mem_map.mp hmem
  rw [inspectVar_key] at hk
  subst hk
  exact hvar _

/-- Witness of C9: the test `TestInspect_MissingRequired`. -/
theorem inspect_absent_result_witness :
    ((MapEnvReader []).LookupEnv "REQUIRED_VAR").2 = false ∧
    requiredResult ∈ (inspect noLib (MapEnvReader []) (Clock.mk 0) [requiredRule]
        Config.zero).Results ∧
    requiredResult.Present = false ∧ requiredResult.Length = 0 ∧
    requiredResult.Valid = false ∧ requiredResult.Problems = ["required but not set"] :=
  have h := (inspect_absent_result noLib (MapEnvReader []) (Clock.mk 0) [requiredRule]
    Config.zero "REQUIRED_VAR" requiredRule (by decide)).2 requiredResult (by decide) rfl
  ⟨by decide, by decide, h.1, h.2.1, (h.2.2.1 (by decide)).1, (h.2.2.1 (by decide)).2⟩

theorem foldl_set_getLast (rules : List Rule) (m : RuleMap) (k : String) :
    rules.foldl (fun m r => m.set r.Key r) m k
      = match (rules.filter (fun r => r.Key == k)).getLast? with
        | some r => some r
        | none => m k := by
  induction rules using List.reverseRecOn with
  | nil => rfl
  | append_singleton l a ih =>
    rw [List.foldl_append, List.filter_append]
    simp only [List.foldl_cons, List.foldl_nil]
    show (if k = a.Key then some a else l.foldl (fun m r => m.set r.Key r) m k) = _
    by_cases hk : k = a.Key
    · subst hk
      simp
    · have hk2 : (a.Key == k) = false := by
        simp only [beq_eq_false_iff_ne, ne_eq]
        exact fun h => hk h.symm
      rw [if_neg hk, ih]
      simp only [List.filter_cons, hk2, List.filter_nil, Bool.false_eq_true, if_false,
        List.append_nil]

theorem index_getLast (rules : List Rule) (k : String) :
    (buildRuleMap rules).index k
      = ((rules.filter (fun r => r.Key == k)).getLast?).getD Rule.zero := by
  unfold RuleMap.index buildRuleMap
  rw [foldl_set_getLast]
  cases (rules.filter (fun r => r.Key == k)).getLast? <;> rfl

/-- C10 fails at a rule with an empty key: with the rule `Rule{Type: TypeInt}`
(empty key) and a snapshot in which the empty key is set to `x`, the result for
the empty key has no problems and is valid, while `ValidateVar` of `x` against
that rule, the one whose key equals the inspected key, reports
"not a valid int".  The rule has a constraint, and the comment above the guard
`rule.Key != ""` of `inspectVar` reads "Run validation if rule has any
constraints"; the guard skips the validation all the same. -/
theorem inspect_empty_key_not_validated :
    (MapEnvReader [("", "x")]).LookupEnv "" = ("x", true) ∧
    emptyKeyRule.Key = emptyKeyResult.Key ∧
    (buildRuleMap [emptyKeyRule]).index "" = emptyKeyRule ∧
    (inspect noLib (MapEnvReader [("", "x")]) (Clock.mk 0) [emptyKeyRule]
        Config.zero).Results = [emptyKeyResult] ∧
    emptyKeyResult.Problems = [] ∧
    ValidateVar noLib "x" emptyKeyRule = ["not a valid int"] ∧
    emptyKeyResult.Problems ≠ ValidateVar noLib "x" emptyKeyRule := by
  refine ⟨by decide, by decide, by decide, by decide, by decide, by decide, by decide⟩

/-- What inspect does for a key that is set in the snapshot: the result has
present = true and length equal to the byte length of the value; for a
non-empty key its problems are exactly ValidateVar(value, r), where r is the
rule map's entry for the key: the last rule of the list whose key equals that
key (the only one when rule keys are pairwise distinct), the empty rule when no
rule names it; for the empty key no validation is run and there are no
problems; the result is valid iff its problems list is empty. -/
theorem inspect_present_result (lib : Lib) (env : EnvReader) (clock : Clock)
    (rules : List Rule) (cfg : Config) (vr : VarResult) (value : String)
    (hmem : vr ∈ (inspect lib env clock rules cfg).Results)
    (hset : env.LookupEnv vr.Key = (value, true)) :
    vr.Present = true ∧ vr.Length = value.utf8ByteSize ∧
    (vr.Key ≠ "" →
      vr.Problems = ValidateVar lib value ((buildRuleMap rules).index vr.Key)) ∧
    (vr.Key = "" → vr.Problems = []) ∧
    (vr.Valid = true ↔ vr.Problems = []) ∧
    ((∀ q ∈ rules, q.Key ≠ vr.Key) → (buildRuleMap rules).index vr.Key = Rule.zero) ∧
    (∀ q ∈ rules, q.Key = vr.Key →
      (buildRuleMap rules).index vr.Key ∈ rules ∧
      ((buildRuleMap rules).index vr.Key).Key = vr.Key ∧
      ((rules.map (fun r => r.Key)).Nodup → (buildRuleMap rules).index vr.Key = q)) ∧
    (buildRuleMap rules).index vr.Key
      = ((rules.filter (fun r => r.Key == vr.Key)).getLast?).getD Rule.zero := by
  have hvalid := inspect_valid_iff_problems_nil lib env clock rules cfg vr hmem
  rw [inspect_results] at hmem
  obtain ⟨key, _, rfl⟩ := List.mem_map.mp hmem
  rw [inspectVar_key] at hset ⊢
  obtain ⟨hlen, hprob⟩ := inspectVar_set lib env key ((buildRuleMap rules).index key) cfg value hset
  refine ⟨by rw [inspectVar_present, hset], hlen, ?_, ?_, hvalid, ?_, ?_, index_getLast rules key⟩
  · intro hne
    rw [hprob]
    rcases index_key rules key with hk | ⟨_, hz⟩
    · rw [hk]; simp [hne]
    · rw [hz, ValidateVar_zero]; simp
  · intro he
    rw [hprob]
    rcases index_key rules key with hk | ⟨_, hz⟩
    · rw [hk]; simp [he]
    · rw [hz]; simp [Rule.zero]
  · intro hnone
    rcases index_key rules key with hk | ⟨_, hz⟩
    · unfold RuleMap.index
      rw [buildRuleMap_none rules key hnone]
      rfl
    · exact hz
  · intro q hq hqk
    obtain ⟨h1, h2⟩ := index_mem rules key q hq hqk
    refine ⟨h1, h2, ?_⟩
    intro hnd
    rw [← hqk]
    exact index_unique rules q hq hnd

/-- The test `TestInspect_ValidationFails`: the set key `PORT` is validated
against its rule. -/
theorem inspect_present_result_witness :
    portResult ∈ (inspect noLib (MapEnvReader [("PORT", "notanumber")]) (Clock.mk 0)
        [portRule] Config.zero).Results ∧
    (MapEnvReader [("PORT", "notanumber")]).LookupEnv portResult.Key = ("notanumber", true) ∧
    portResult.Present = true ∧ portResult.Length = "notanumber".utf8ByteSize ∧
    portResult.Problems = ValidateVar noLib "notanumber" ((buildRuleMap [portRule]).index "PORT") :=
  have h := inspect_present_result noLib (MapEnvReader [("PORT", "notanumber")]) (Clock.mk 0)
    [portRule] Config.zero portResult "notanumber" (by decide) (by decide)
  ⟨by decide, by decide, h.1, h.2.1, h.2.2.1 (by decide)⟩

/-! ### Strings and decimal numerals -/

theorem firstChar_append (a b : String) (h : a.data ≠ []) :
    firstChar (a ++ b) = firstChar a := by
  unfold firstChar
  rw [String.data_append]
  cases hd : a.data with
  | nil => exact absurd hd h
  | cons c cs => rfl

theorem string_append_cancel (a b c : String) (h : a ++ b = a ++ c) : b = c := by
  have hd := congrArg String.data h
  rw [String.data_append, String.data_append] at hd
  exact String.ext (List.append_cancel_left hd)

theorem digitChar_value (d : Nat) (h : d < 10) :
    (Nat.digitChar d).toNat - 48 = d ∧ (Nat.digitChar d).isDigit = true := by
  interval_cases d <;> exact ⟨by decide, by decide⟩

theorem toDigitsCore_append (fuel n : Nat) (ds : List Char) :
    Nat.toDigitsCore 10 fuel n ds = Nat.toDigitsCore 10 fuel n [] ++ ds := by
  induction fuel generalizing n ds with
  | zero => simp [Nat.toDigitsCore]
  | succ f ih =>
    simp only [Nat.toDigitsCore]
    split
    · simp
    · rw [ih (n / 10) (Nat.digitChar (n % 10) :: ds), ih (n / 10) [Nat.digitChar (n % 10)]]
      simp

theorem digitsValue_append_singleton (cs : List Char) (c : Char) :
    digitsValue (cs ++ [c]) = 10 * digitsValue cs + (c.toNat - 48) := by
  simp [digitsValue, List.foldl_append]

theorem digitsValue_toDigitsCore (fuel n : Nat) (h : n < fuel) :
    digitsValue (Nat.toDigitsCore 10 fuel n []) = n := by
  induction fuel generalizing n with
  | zero => omega
  | succ f ih =>
    simp only [Nat.toDigitsCore]
    split
    · rename_i h0
      have hn : n % 10 = n := by omega
      have := (digitChar_value (n % 10) (Nat.mod_lt _ (by decide))).1
      rw [hn] at this
      simp [digitsValue, hn, this]
    · rename_i h0
      rw [toDigitsCore_append, digitsValue_append_singleton, ih (n / 10) (by omega),
        (digitChar_value (n % 10) (Nat.mod_lt _ (by decide))).1]
      omega

theorem toDigitsCore_isDigit (fuel n : Nat) (c : Char)
    (h : c ∈ Nat.toDigitsCore 10 fuel n []) : c.isDigit = true := by
  induction fuel generalizing n with
  | zero => simp [Nat.toDigitsCore] at h
  | succ f ih =>
    simp only [Nat.toDigitsCore] at h
    split at h
    · simp at h
      rw [h]; exact (digitChar_value (n % 10) (Nat.mod_lt _ (by decide))).2
    · rw [toDigitsCore_append] at h
      rcases List.mem_append.mp h with h1 | h1
      · exact ih _ h1
      · simp at h1
        rw [h1]; exact (digitChar_value (n % 10) (Nat.mod_lt _ (by decide))).2

theorem digitsValue_repr (n : Nat) : digitsValue (toString n).data = n := by
  show digitsValue (Nat.toDigits 10 n).asString.data = n
  simp only [List.asString, Nat.toDigits]
  exact digitsValue_toDigitsCore (n + 1) n (by omega)

theorem repr_isDigit (n : Nat) (c : Char) (h : c ∈ (toString n).data) : c.isDigit = true := by
  have h2 : c ∈ (Nat.toDigits 10 n).asString.data := h
  simp only [List.asString, Nat.toDigits] at h2
  exact toDigitsCore_isDigit _ _ c h2

theorem toString_nat_injective (m n : Nat) (h : toString m = toString n) : m = n := by
  rw [← digitsValue_repr m, ← digitsValue_repr n, h]

theorem toString_int_ofNat (m : Nat) : toString (Int.ofNat m) = toString m := rfl

theorem toString_int_negSucc (m : Nat) :
    toString (Int.negSucc m) = "-" ++ toString (m + 1) := rfl

theorem toString_int_injective (a b : Int) (h : toString a = toString b) : a = b := by
  have hneg : ∀ (m n : Nat), toString (Int.ofNat m) ≠ toString (Int.negSucc n) := by
    intro m n he
    rw [toString_int_ofNat, toString_int_negSucc] at he
    have hmem : '-' ∈ (toString m).data := by
      rw [he, String.data_append]
      exact List.mem_append_left _ (by decide)
    have := repr_isDigit m '-' hmem
    exact absurd this (by decide)
  cases a with
  | ofNat m =>
    cases b with
    | ofNat n =>
      rw [toString_int_ofNat, toString_int_ofNat] at h
      rw [toString_nat_injective m n h]
    | negSucc n => exact absurd h (hneg m n)
  | negSucc m =>
    cases b with
    | ofNat n => exact absurd h.symm (hneg n m)
    | negSucc n =>
      rw [toString_int_negSucc, toString_int_negSucc] at h
      have := toString_nat_injective _ _ (string_append_cancel _ _ _ h)
      have hmn : m = n := by omega
      rw [hmn]

/-! ### The value validator -/

theorem ValidateVar_eq (lib : Lib) (value : String) (rule : Rule) :
    ValidateVar lib value rule
      = typeProblems lib value rule ++ minLenProblems value rule ++ maxLenProblems value rule
          ++ regexProblems lib value rule ++ allowedProblems value rule := by
  simp [ValidateVar]

theorem mem_ValidateVar (lib : Lib) (value : String) (rule : Rule) (p : String) :
    p ∈ ValidateVar lib value rule ↔
      p ∈ typeProblems lib value rule ∨ p ∈ minLenProblems value rule ∨
      p ∈ maxLenProblems value rule ∨ p ∈ regexProblems lib value rule ∨
      p ∈ allowedProblems value rule := by
  rw [ValidateVar_eq]
  simp only [List.mem_append]
  tauto

theorem checkType_firstChar (lib : Lib) (value typ msg : String)
    (h : checkType lib value typ = some msg) : firstChar msg = some 'n' := by
  unfold checkType at h
  repeat' split at h
  all_goals first
    | (simp only [Option.some.injEq] at h; rw [← h]; rfl)
    | simp at h

theorem typeProblems_firstChar (lib : Lib) (value : String) (rule : Rule) (p : String)
    (h : p ∈ typeProblems lib value rule) : firstChar p = some 'n' := by
  unfold typeProblems at h
  split at h
  · split at h
    · rename_i msg hmsg
      simp only [List.mem_singleton] at h
      rw [h]; exact checkType_firstChar lib value rule.Typ msg hmsg
    · simp at h
  · simp at h

theorem mem_minLenProblems (value : String) (rule : Rule) (p : String) :
    p ∈ minLenProblems value rule ↔
      ∃ m, rule.MinLen = some m ∧ (value.utf8ByteSize : Int) < m ∧
        p = "length " ++ toString value.utf8ByteSize ++ " < min_len " ++ toString m := by
  unfold minLenProblems
  cases hm : rule.MinLen with
  | none => simp
  | some m =>
    by_cases hlt : (value.utf8ByteSize : Int) < m
    · simp [hlt]
    · simp [hlt]

theorem mem_maxLenProblems (value : String) (rule : Rule) (p : String) :
    p ∈ maxLenProblems value rule ↔
      ∃ m, rule.MaxLen = some m ∧ (value.utf8ByteSize : Int) > m ∧
        p = "length " ++ toString value.utf8ByteSize ++ " > max_len " ++ toString m := by
  unfold maxLenProblems
  cases hm : rule.MaxLen with
  | none => simp
  | some m =>
    by_cases hlt : (value.utf8ByteSize : Int) > m
    · simp [hlt]
    · simp [hlt]

theorem lengthMessage_firstChar (a b c : String) :
    firstChar ("length " ++ a ++ b ++ c) = some 'l' := by
  rw [String.append_assoc, String.append_assoc, firstChar_append _ _ (by decide)]
  rfl

theorem minLenProblems_firstChar (value : String) (rule : Rule) (p : String)
    (h : p ∈ minLenProblems value rule) : firstChar p = some 'l' := by
  obtain ⟨m, _, _, rfl⟩ := (mem_minLenProblems value rule p).mp h
  exact lengthMessage_firstChar _ _ _

theorem maxLenProblems_firstChar (value : String) (rule : Rule) (p : String)
    (h : p ∈ maxLenProblems value rule) : firstChar p = some 'l' := by
  obtain ⟨m, _, _, rfl⟩ := (mem_maxLenProblems value rule p).mp h
  exact lengthMessage_firstChar _ _ _

theorem regexProblems_firstChar (lib : Lib) (value : String) (rule : Rule) (p : String)
    (h : p ∈ regexProblems lib value rule) : firstChar p = some 'd' := by
  unfold regexProblems at h
  split at h
  · split at h
    · split at h
      · simp only [List.mem_singleton] at h
        rw [h, firstChar_append _ _ (by decide)]
        rfl
      · simp at h
    · simp at h
  · simp at h

theorem mem_allowedProblems (value : String) (rule : Rule) (p : String) :
    p ∈ allowedProblems value rule ↔
      rule.Allowed ≠ [] ∧ value ∉ rule.Allowed ∧
        p = "value not in allowed set [" ++ String.intercalate ", " rule.Allowed ++ "]" := by
  unfold allowedProblems
  cases ha : rule.Allowed with
  | nil => simp
  | cons a t =>
    by_cases hin : value ∈ a :: t
    · have hany : (a :: t).any (fun x => value == x) = true := by
        rw [List.any_eq_true]
        exact ⟨value, hin, by simp⟩
      simp [hany, hin]
    · have hany : (a :: t).any (fun x => value == x) = false := by
        rw [List.any_eq_false]
        intro x hx hv
        have : value = x := by simpa using hv
        exact hin (this ▸ hx)
      simp only [List.length_cons, gt_iff_lt, Nat.zero_lt_succ, if_true, hany,
        Bool.false_eq_true, if_false, List.mem_singleton, ne_eq, reduceCtorEq,
        not_false_eq_true, hin, true_and]

theorem allowedProblems_firstChar (value : String) (rule : Rule) (p : String)
    (h : p ∈ allowedProblems value rule) : firstChar p = some 'v' := by
  obtain ⟨_, _, rfl⟩ := (mem_allowedProblems value rule p).mp h
  rw [String.append_assoc, firstChar_append _ _ (by decide)]
  rfl

theorem ValidateVar_firstChar (lib : Lib) (value : String) (rule : Rule) (p : String)
    (h : p ∈ ValidateVar lib value rule) :
    firstChar p = some 'n' ∨ firstChar p = some 'l' ∨ firstChar p = some 'd' ∨
      firstChar p = some 'v' := by
  rcases (mem_ValidateVar lib value rule p).mp h with h | h | h | h | h
  · exact Or.inl (typeProblems_firstChar lib value rule p h)
  · exact Or.inr (Or.inl (minLenProblems_firstChar value rule p h))
  · exact Or.inr (Or.inl (maxLenProblems_firstChar value rule p h))
  · exact Or.inr (Or.inr (Or.inl (regexProblems_firstChar lib value rule p h)))
  · exact Or.inr (Or.inr (Or.inr (allowedProblems_firstChar value rule p h)))

theorem required_not_in_ValidateVar (lib : Lib) (value : String) (rule : Rule) :
    "required but not set" ∉ ValidateVar lib value rule := by
  intro h
  have hr : firstChar "required but not set" = some 'r' := rfl
  rcases ValidateVar_firstChar lib value rule _ h with h | h | h | h <;>
    (rw [hr] at h; exact absurd h (by decide))

theorem countP_filter_of_false {α : Type} (p q : α → Bool) (l : List α)
    (h : ∀ x ∈ l, q x = false → p x = false) :
    l.countP p = (l.filter q).countP p := by
  induction l with
  | nil => rfl
  | cons a t ih =>
    have iht := ih (fun x hx => h x (List.mem_cons_of_mem _ hx))
    cases hq : q a
    · have hp := h a (List.mem_cons_self _ _) hq
      simp [List.countP_cons, List.filter_cons, hq, hp, iht]
    · simp [List.countP_cons, List.filter_cons, hq, iht]

/-- C11: presence is the lookup's flag, not emptiness of the value.  For every
key set to the empty string the result has present = true and length = 0 and
never carries the problem "required but not set", whatever the rule, and it is
not counted in summary.missing: the missing count is the count over the results
with another key. -/
theorem inspect_empty_value_present (lib : Lib) (env : EnvReader) (clock : Clock)
    (rules : List Rule) (cfg : Config) (key : String)
    (hset : env.LookupEnv key = ("", true)) :
    (∀ rule : Rule,
      (inspectVar lib env key rule cfg).Present = true ∧
      (inspectVar lib env key rule cfg).Length = 0 ∧
      "required but not set" ∉ (inspectVar lib env key rule cfg).Problems) ∧
    (∀ vr ∈ (inspect lib env clock rules cfg).Results, vr.Key = key →
      vr.Present = true ∧ vr.Length = 0 ∧ "required but not set" ∉ vr.Problems) ∧
    (inspect lib env clock rules cfg).Summary.Missing
      = ((inspect lib env clock rules cfg).Results.filter (fun vr => vr.Key != key)).countP
          (fun vr => vr.Required && !vr.Present) := by
  have hvar : ∀ rule : Rule,
      (inspectVar lib env key rule cfg).Present = true ∧
      (inspectVar lib env key rule cfg).Length = 0 ∧
      "required but not set" ∉ (inspectVar lib env key rule cfg).Problems := by
    intro rule
    obtain ⟨hlen, hprob⟩ := inspectVar_set lib env key rule cfg "" hset
    refine ⟨by rw [inspectVar_present, hset], by rw [hlen]; rfl, ?_⟩
    rw [hprob]
    split
    · exact required_not_in_ValidateVar lib "" rule
    · simp
  have hres : ∀ vr ∈ (inspect lib env clock rules cfg).Results, vr.Key = key →
      vr.Present = true ∧ vr.Length = 0 ∧ "required but not set" ∉ vr.Problems := by
    intro vr hmem hk
    rw [inspect_results] at hmem
    obtain ⟨k, _, rfl⟩ := List.mem_map.mp hmem
    rw [inspectVar_key] at hk
    subst hk
    exact hvar _
  refine ⟨hvar, hres, ?_⟩
  rw [inspect_summary, summarize_counts]
  simp only [Nat.zero_add]
  apply countP_filter_of_false
  intro x hx hq
  have hk : x.Key = key := by simpa using hq
  simp [(hres x hx hk).1]

/-- Witness of C11: `EMPTY` is set to the empty string and required; its result
is present with length 0 and the report counts nothing as missing. -/
theorem inspect_empty_value_present_witness :
    (MapEnvReader [("EMPTY", "")]).LookupEnv "EMPTY" = ("", true) ∧
    emptyValueResult ∈ (inspect noLib (MapEnvReader [("EMPTY", "")]) (Clock.mk 0)
        [{ keyRule "EMPTY" with Required := true }] Config.zero).Results ∧
    emptyValueResult.Present = true ∧ emptyValueResult.Length = 0 ∧
    "required but not set" ∉ emptyValueResult.Problems ∧
    (inspect noLib (MapEnvReader [("EMPTY", "")]) (Clock.mk 0)
        [{ keyRule "EMPTY" with Required := true }] Config.zero).Summary.Missing = 0 :=
  have h := inspect_empty_value_present noLib (MapEnvReader [("EMPTY", "")]) (Clock.mk 0)
    [{ keyRule "EMPTY" with Required := true }] Config.zero "EMPTY" (by decide)
  ⟨by decide, by decide, (h.2.1 emptyValueResult (by decide) rfl).1,
   (h.2.1 emptyValueResult (by decide) rfl).2.1, (h.2.1 emptyValueResult (by decide) rfl).2.2,
   h.2.2.trans (by decide)⟩

theorem count_true_eq_sum (bs : List Bool) :
    bs.count true = (bs.map (fun b => if b then 1 else 0)).sum := by
  induction bs with
  | nil => rfl
  | cons b t ih => cases b <;> simp [List.count_cons, ih, Nat.add_comm]

/-- C12: ValidateVar(value, rule) is the concatenation, in the fixed order type
check, min_len check, max_len check, regex check, allowed-set check, of the
problems of the five checks, each a function of the value and the rule alone
that yields one problem when the check is violated and none otherwise; so the
number of problems is the number of violated checks, at most 5. -/
theorem ValidateVar_independent_checks (lib : Lib) (value : String) (rule : Rule) :
    ValidateVar lib value rule
      = typeProblems lib value rule ++ minLenProblems value rule ++ maxLenProblems value rule
          ++ regexProblems lib value rule ++ allowedProblems value rule ∧
    [(typeProblems lib value rule).length, (minLenProblems value rule).length,
      (maxLenProblems value rule).length, (regexProblems lib value rule).length,
      (allowedProblems value rule).length]
      = (violations lib value rule).map (fun b => if b then 1 else 0) ∧
    (ValidateVar lib value rule).length = (violations lib value rule).count true ∧
    (ValidateVar lib value rule).length ≤ 5 := by
  have hsum : (ValidateVar lib value rule).length
      = [(typeProblems lib value rule).length, (minLenProblems value rule).length,
          (maxLenProblems value rule).length, (regexProblems lib value rule).length,
          (allowedProblems value rule).length].sum := by
    rw [ValidateVar_eq]
    simp only [List.length_append, List.sum_cons, List.sum_nil]
    omega
  have htype : (typeProblems lib value rule).length
      = if (decide (rule.Typ ≠ "") && (checkType lib value rule.Typ).isSome) then 1 else 0 := by
    unfold typeProblems
    by_cases ht : rule.Typ = ""
    · simp [ht]
    · cases hc : checkType lib value rule.Typ <;> simp [ht]
  have hmin : (minLenProblems value rule).length
      = if (match rule.MinLen with
            | some m => decide ((value.utf8ByteSize : Int) < m)
            | none => false) then 1 else 0 := by
    unfold minLenProblems
    cases hm : rule.MinLen with
    | none => simp
    | some m => by_cases hlt : (value.utf8ByteSize : Int) < m <;> simp [hlt]
  have hmax : (maxLenProblems value rule).length
      = if (match rule.MaxLen with
            | some m => decide ((value.utf8ByteSize : Int) > m)
            | none => false) then 1 else 0 := by
    unfold maxLenProblems
    cases hm : rule.MaxLen with
    | none => simp
    | some m => by_cases hlt : (value.utf8ByteSize : Int) > m <;> simp [hlt]
  have hregex : (regexProblems lib value rule).length
      = if (decide (rule.Regex ≠ "") &&
            (match lib.regexpCompile rule.Regex with
             | some re => !re value
             | none => false)) then 1 else 0 := by
    unfold regexProblems
    by_cases hr : rule.Regex = ""
    · simp [hr]
    · cases hc : lib.regexpCompile rule.Regex with
      | none => simp [hr]
      | some re => cases hre : re value <;> simp [hr, hre]
  have hallowed : (allowedProblems value rule).length
      = if (decide (rule.Allowed.length > 0) && !rule.Allowed.contains value) then 1 else 0 := by
    unfold allowedProblems
    cases ha : rule.Allowed with
    | nil => simp
    | cons a t =>
      have hany : (a :: t).any (fun x => value == x) = (a :: t).contains value := by
        rw [List.contains_eq_any_beq]
      rw [hany]
      cases hc : (a :: t).contains value <;> simp
  have hlist : [(typeProblems lib value rule).length, (minLenProblems value rule).length,
      (maxLenProblems value rule).length, (regexProblems lib value rule).length,
      (allowedProblems value rule).length]
      = (violations lib value rule).map (fun b => if b then 1 else 0) := by
    rw [htype, hmin, hmax, hregex, hallowed]
    simp only [violations, List.map_cons, List.map_nil]
  have hlen : (ValidateVar lib value rule).length = (violations lib value rule).count true := by
    rw [hsum, hlist, count_true_eq_sum]
  refine ⟨ValidateVar_eq lib value rule, hlist, hlen, ?_⟩
  rw [hlen]
  have := List.count_le_length true (violations lib value rule)
  simpa [violations] using this

theorem minLen_message_injective (a : String) (m n : Int)
    (h : "length " ++ a ++ " < min_len " ++ toString m
        = "length " ++ a ++ " < min_len " ++ toString n) : m = n := by
  rw [String.append_assoc ("length " ++ a), String.append_assoc ("length " ++ a)] at h
  exact toString_int_injective m n
    (string_append_cancel _ _ _ (string_append_cancel _ _ _ h))

theorem maxLen_message_injective (a : String) (m n : Int)
    (h : "length " ++ a ++ " > max_len " ++ toString m
        = "length " ++ a ++ " > max_len " ++ toString n) : m = n := by
  rw [String.append_assoc ("length " ++ a), String.append_assoc ("length " ++ a)] at h
  exact toString_int_injective m n
    (string_append_cancel _ _ _ (string_append_cancel _ _ _ h))

theorem minLen_message_ne_maxLen (a b c : String) :
    "length " ++ a ++ " < min_len " ++ b ≠ "length " ++ a ++ " > max_len " ++ c := by
  intro h
  rw [String.append_assoc ("length " ++ a), String.append_assoc ("length " ++ a)] at h
  have h2 := congrArg String.data (string_append_cancel _ _ _ h)
  rw [String.data_append, String.data_append] at h2
  have e1 : " < min_len ".data = ' ' :: '<' :: " min_len ".data := rfl
  have e2 : " > max_len ".data = ' ' :: '>' :: " max_len ".data := rfl
  rw [e1, e2] at h2
  simp only [List.cons_append, List.cons.injEq, true_and] at h2
  exact absurd h2.1 (by decide)

/-- C13: ValidateVar reports the problem "length L < min_len M" iff min_len is
set to M and the value's byte length L is strictly less than M, and reports
"length L > max_len M" iff max_len is set to M and L is strictly greater than M;
a value whose length equals the bound yields no length problem. -/
theorem ValidateVar_length_problems (lib : Lib) (value : String) (rule : Rule) (m : Int) :
    (("length " ++ toString value.utf8ByteSize ++ " < min_len " ++ toString m)
        ∈ ValidateVar lib value rule
      ↔ rule.MinLen = some m ∧ (value.utf8ByteSize : Int) < m) ∧
    (("length " ++ toString value.utf8ByteSize ++ " > max_len " ++ toString m)
        ∈ ValidateVar lib value rule
      ↔ rule.MaxLen = some m ∧ (value.utf8ByteSize : Int) > m) ∧
    minLenProblems value { rule with MinLen := some (value.utf8ByteSize : Int) } = [] ∧
    maxLenProblems value { rule with MaxLen := some (value.utf8ByteSize : Int) } = [] := by
  have hl : ∀ (b c : String),
      firstChar ("length " ++ toString value.utf8ByteSize ++ b ++ c) = some 'l' :=
    fun b c => lengthMessage_firstChar _ b c
  refine ⟨⟨?_, ?_⟩, ⟨?_, ?_⟩, ?_, ?_⟩
  · intro h
    rcases (mem_ValidateVar lib value rule _).mp h with h | h | h | h | h
    · have := typeProblems_firstChar lib value rule _ h
      rw [hl] at this; exact absurd this (by decide)
    · obtain ⟨n, hn, hlt, heq⟩ := (mem_minLenProblems value rule _).mp h
      have hmn := minLen_message_injective _ m n heq
      subst hmn
      exact ⟨hn, hlt⟩
    · obtain ⟨n, _, _, heq⟩ := (mem_maxLenProblems value rule _).mp h
      exact absurd heq (minLen_message_ne_maxLen _ _ _)
    · have := regexProblems_firstChar lib value rule _ h
      rw [hl] at this; exact absurd this (by decide)
    · have := allowedProblems_firstChar value rule _ h
      rw [hl] at this; exact absurd this (by decide)
  · intro ⟨hm, hlt⟩
    apply (mem_ValidateVar lib value rule _).mpr
    exact Or.inr (Or.inl ((mem_minLenProblems value rule _).mpr ⟨m, hm, hlt, rfl⟩))
  · intro h
    rcases (mem_ValidateVar lib value rule _).mp h with h | h | h | h | h
    · have := typeProblems_firstChar lib value rule _ h
      rw [hl] at this; exact absurd this (by decide)
    · obtain ⟨n, _, _, heq⟩ := (mem_minLenProblems value rule _).mp h
      exact absurd heq.symm (minLen_message_ne_maxLen _ _ _)
    · obtain ⟨n, hn, hlt, heq⟩ := (mem_maxLenProblems value rule _).mp h
      have hmn := maxLen_message_injective _ m n heq
      subst hmn
      exact ⟨hn, hlt⟩
    · have := regexProblems_firstChar lib value rule _ h
      rw [hl] at this; exact absurd this (by decide)
    · have := allowedProblems_firstChar value rule _ h
      rw [hl] at this; exact absurd this (by decide)
  · intro ⟨hm, hlt⟩
    apply (mem_ValidateVar lib value rule _).mpr
    exact Or.inr (Or.inr (Or.inl ((mem_maxLenProblems value rule _).mpr ⟨m, hm, hlt, rfl⟩)))
  · simp [minLenProblems]
  · simp [maxLenProblems]

/-- C14: for every rule with a non-empty allowed list, ValidateVar reports the
allowed-set problem iff the value equals no member of the list, and the problem
text lists the allowed members in their given order joined by ", "; with an
empty allowed list no problem that begins "value not in allowed set [" is
reported. -/
theorem ValidateVar_allowed_problem (lib : Lib) (value : String) (rule : Rule) :
    (rule.Allowed ≠ [] →
      (("value not in allowed set [" ++ String.intercalate ", " rule.Allowed ++ "]")
          ∈ ValidateVar lib value rule
        ↔ value ∉ rule.Allowed)) ∧
    (rule.Allowed ≠ [] →
      (allowedProblems value rule ≠ [] ↔ value ∉ rule.Allowed)) ∧
    (rule.Allowed = [] →
      allowedProblems value rule = [] ∧
      ∀ rest : String, ("value not in allowed set [" ++ rest) ∉ ValidateVar lib value rule) := by
  have hv : ∀ rest : String, firstChar ("value not in allowed set [" ++ rest) = some 'v' := by
    intro rest
    rw [firstChar_append _ _ (by decide)]
    rfl
  have hother : ∀ rest : String, ("value not in allowed set [" ++ rest) ∈ ValidateVar lib value rule →
      ("value not in allowed set [" ++ rest) ∈ allowedProblems value rule := by
    intro rest h
    rcases (mem_ValidateVar lib value rule _).mp h with h | h | h | h | h
    · have := typeProblems_firstChar lib value rule _ h
      rw [hv] at this; exact absurd this (by decide)
    · have := minLenProblems_firstChar value rule _ h
      rw [hv] at this; exact absurd this (by decide)
    · have := maxLenProblems_firstChar value rule _ h
      rw [hv] at this; exact absurd this (by decide)
    · have := regexProblems_firstChar lib value rule _ h
      rw [hv] at this; exact absurd this (by decide)
    · exact h
  refine ⟨?_, ?_, ?_⟩
  · intro hne
    constructor
    · intro h
      rw [String.append_assoc] at h
      exact ((mem_allowedProblems value rule _).mp (hother _ h)).2.1
    · intro hnot
      apply (mem_ValidateVar lib value rule _).mpr
      exact Or.inr (Or.inr (Or.inr (Or.inr
        ((mem_allowedProblems value rule _).mpr ⟨hne, hnot, rfl⟩))))
  · intro hne
    constructor
    · intro h
      obtain ⟨p, hp⟩ := List.exists_mem_of_ne_nil _ h
      exact ((mem_allowedProblems value rule p).mp hp).2.1
    · intro hnot h
      have := (mem_allowedProblems value rule _).mpr ⟨hne, hnot, rfl⟩
      rw [h] at this
      simp at this
  · intro hnil
    refine ⟨by simp [allowedProblems, hnil], ?_⟩
    intro rest h
    exact ((mem_allowedProblems value rule _).mp (hother rest h)).1 hnil

/-- Witness of C14: the test `TestValidateVar_Allowed`. -/
theorem ValidateVar_allowed_problem_witness :
    allowedRule.Allowed ≠ [] ∧ "test" ∉ allowedRule.Allowed ∧
    "value not in allowed set [dev, staging, prod]" ∈ ValidateVar noLib "test" allowedRule :=
  ⟨by decide, by decide,
   ((ValidateVar_allowed_problem noLib "test" allowedRule).1 (by decide)).mpr (by decide)⟩

/-- C15 as stated fails in both directions: `t` is not "true" or "false" under
case-insensitive comparison nor "1" or "0", yet the bool type check accepts it;
`tRuE` equals "true" case-insensitively, yet the check reports
"not a valid bool". -/
theorem checkType_bool_grammar_differs :
    claimedBoolToken "t" = false ∧ ValidateVar noLib "t" boolRule = [] ∧
    claimedBoolToken "tRuE" = true ∧
    ValidateVar noLib "tRuE" boolRule = ["not a valid bool"] := by
  refine ⟨by decide, by decide, by decide, by decide⟩

/-- C15, amended: for a rule of type bool the type check passes exactly when the
value is one of the twelve tokens that `strconv.ParseBool` accepts, "1", "t",
"T", "TRUE", "true", "True", "0", "f", "F", "FALSE", "false", "False"; every
other value yields exactly the one problem "not a valid bool".  Each accepted
token is "true" or "false" up to case, "1", "0", or one of the single letters
t, T, f, F. -/
theorem checkType_bool (lib : Lib) (value : String) (rule : Rule) :
    (typeProblems lib value { rule with Typ := TypeBool } = [] ↔ value ∈ parseBoolTokens) ∧
    (value ∉ parseBoolTokens →
      typeProblems lib value { rule with Typ := TypeBool } = ["not a valid bool"]) ∧
    (checkType lib value TypeBool = none ↔ value ∈ parseBoolTokens) ∧
    (value ∈ parseBoolTokens →
      claimedBoolToken value = true ∨ value ∈ ["t", "T", "f", "F"]) := by
  have hcheck : checkType lib value TypeBool
      = if value ∈ parseBoolTokens then none else some "not a valid bool" := by
    have hp : parseBoolOk value = decide (value ∈ parseBoolTokens) := by
      unfold parseBoolOk parseBoolTokens
      simp
    unfold checkType
    rw [if_neg (by decide), if_neg (by decide), if_pos rfl, hp]
    by_cases hin : value ∈ parseBoolTokens <;> simp [hin]
  have htype : typeProblems lib value { rule with Typ := TypeBool }
      = if value ∈ parseBoolTokens then [] else ["not a valid bool"] := by
    have ht : ({ rule with Typ := TypeBool } : Rule).Typ ≠ "" := by
      show TypeBool ≠ ""
      decide
    unfold typeProblems
    rw [if_pos ht]
    simp only [hcheck]
    by_cases hin : value ∈ parseBoolTokens <;> simp [hin]
  refine ⟨?_, ?_, ?_, ?_⟩
  · rw [htype]; by_cases hin : value ∈ parseBoolTokens <;> simp [hin]
  · intro hin; rw [htype]; simp [hin]
  · rw [hcheck]; by_cases hin : value ∈ parseBoolTokens <;> simp [hin]
  · intro hin
    simp only [parseBoolTokens, List.mem_cons, List.mem_singleton, List.mem_nil_iff,
      or_false] at hin
    rcases hin with h | h | h | h | h | h | h | h | h | h | h | h <;> subst h <;> decide

/-- Witness of C15: `maybe` (test `TestValidateVar_TypeBool`) is none of the
twelve tokens and yields the one problem. -/
theorem checkType_bool_witness :
    "maybe" ∉ parseBoolTokens ∧ typeProblems noLib "maybe" boolRule = ["not a valid bool"] :=
  ⟨by decide, (checkType_bool noLib "maybe" Rule.zero).2.1 (by decide)⟩

/-- C16 as stated fails for a literal outside the range of `int64`: the digits
`9223372036854775808` (2^63) are a base-10 signed integer literal, yet the int
type check reports "not a valid int". -/
theorem checkType_int_out_of_range :
    isSignedDecimal "9223372036854775808" = true ∧
    ValidateVar noLib "9223372036854775808" intRule = ["not a valid int"] := by
  refine ⟨by decide, by decide⟩

/-- C16, amended: for a rule of type int the type check passes exactly when the
value is a base-10 signed integer literal (an optional sign `+` or `-` followed
by one or more decimal digits) whose value lies in the range of a 64-bit signed
integer, from -2^63 to 2^63 - 1; every other value yields exactly the one problem
"not a valid int". -/
theorem checkType_int (lib : Lib) (value : String) (rule : Rule) :
    (typeProblems lib value { rule with Typ := TypeInt } = [] ↔
      isSignedDecimal value = true ∧ -(2 : Int) ^ 63 ≤ literalValue value ∧
        literalValue value < (2 : Int) ^ 63) ∧
    (typeProblems lib value { rule with Typ := TypeInt } = [] ∨
      typeProblems lib value { rule with Typ := TypeInt } = ["not a valid int"]) := by
  have hparse : parseIntOk value = true ↔
      isSignedDecimal value = true ∧ -(2 : Int) ^ 63 ≤ literalValue value ∧
        literalValue value < (2 : Int) ^ 63 := by
    unfold parseIntOk isSignedDecimal literalValue
    split
    · simp only [Bool.and_eq_true, Bool.not_eq_true', Bool.false_eq_true, if_false,
        decide_eq_true_eq]
      constructor
      · rintro ⟨h1, h2⟩; exact ⟨h1, by omega, by omega⟩
      · rintro ⟨h1, _, h3⟩; exact ⟨h1, by omega⟩
    · simp only [Bool.and_eq_true, Bool.not_eq_true', if_true, decide_eq_true_eq]
      constructor
      · rintro ⟨h1, h2⟩; exact ⟨h1, by omega, by omega⟩
      · rintro ⟨h1, h2, _⟩; exact ⟨h1, by omega⟩
    · simp only [Bool.and_eq_true, Bool.not_eq_true', Bool.false_eq_true, if_false,
        decide_eq_true_eq]
      constructor
      · rintro ⟨h1, h2⟩; exact ⟨h1, by omega, by omega⟩
      · rintro ⟨h1, _, h3⟩; exact ⟨h1, by omega⟩
  have htype : typeProblems lib value { rule with Typ := TypeInt }
      = if parseIntOk value then [] else ["not a valid int"] := by
    have ht : ({ rule with Typ := TypeInt } : Rule).Typ ≠ "" := by
      show TypeInt ≠ ""
      decide
    unfold typeProblems
    rw [if_pos ht]
    have hc : checkType lib value TypeInt
        = if parseIntOk value then none else some "not a valid int" := by
      unfold checkType
      rw [if_neg (by decide), if_pos rfl]
    simp only [hc]
    cases parseIntOk value <;> simp
  refine ⟨?_, ?_⟩
  · rw [← hparse, htype]
    cases parseIntOk value <;> simp
  · rw [htype]
    cases parseIntOk value <;> simp

theorem join_foldl (l : List String) (acc : String) :
    l.foldl (fun r s => r ++ s) acc = acc ++ String.join l := by
  induction l generalizing acc with
  | nil => simp [String.join]
  | cons a t ih =>
    simp only [List.foldl_cons, ih]
    unfold String.join
    simp only [List.foldl_cons, ih]
    simp [String.append_assoc]

theorem join_cons (a : String) (l : List String) :
    String.join (a :: l) = a ++ String.join l := by
  unfold String.join
  simp only [List.foldl_cons]
  rw [join_foldl, join_foldl]
  simp [String.join]

theorem intercalate_eq_join (sep a : String) (l : List String) :
    sep ++ String.intercalate sep (a :: l)
      = String.join ((a :: l).map (fun s => sep ++ s)) := by
  have hgo : ∀ (l : List String) (acc : String),
      String.intercalate.go acc sep l
        = acc ++ String.join (l.map (fun s => sep ++ s)) := by
    intro l
    induction l with
    | nil => intro acc; simp [String.intercalate.go, String.join]
    | cons b t ih =>
      intro acc
      simp only [String.intercalate.go, ih, List.map_cons]
      rw [join_cons]
      simp only [String.append_assoc]
  simp only [String.intercalate, hgo, List.map_cons]
  rw [join_cons]
  simp only [String.append_assoc]

/-- C17: in dump-all mode, every snapshot key that no rule names has a result,
and every result with such a key has required = false, valid = true and no
problems, whatever the value, and its secret_like flag is IsSecretLike(key). -/
theorem inspect_dumpAll_unruled_key (lib : Lib) (env : EnvReader) (clock : Clock)
    (rules : List Rule) (cfg : Config) (key : String) (hmode : cfg.DumpAll = true)
    (hkey : key ∈ env.Environ.map cutKey) (hrule : ∀ r ∈ rules, r.Key ≠ key) :
    (∃ vr ∈ (inspect lib env clock rules cfg).Results, vr.Key = key) ∧
    (∀ vr ∈ (inspect lib env clock rules cfg).Results, vr.Key = key →
      vr.Required = false ∧ vr.Valid = true ∧ vr.Problems = [] ∧
      vr.SecretLike = IsSecretLike key) := by
  constructor
  · have hkeys := inspect_keys lib env clock rules cfg
    rw [discoverKeys_dumpAll env rules cfg hmode] at hkeys
    have hin : key ∈ (inspect lib env clock rules cfg).Results.map (fun vr => vr.Key) := by
      rw [hkeys]; exact List.mem_append_left _ hkey
    obtain ⟨vr, hvr, hk⟩ := List.mem_map.mp hin
    exact ⟨vr, hvr, hk⟩
  · intro vr hmem hk
    rw [inspect_results] at hmem
    obtain ⟨k, _, rfl⟩ := List.mem_map.mp hmem
    rw [inspectVar_key] at hk
    subst hk
    have hz : (buildRuleMap rules).index k = Rule.zero := by
      unfold RuleMap.index
      rw [buildRuleMap_none rules k hrule]
      rfl
    rw [hz, inspectVar_eq]
    split <;> simp [Rule.zero, classifySecretLike]

/-- Witness of C17: `SECRET_KEY` of `TestInspect_DumpAllMode`, named by no rule. -/
theorem inspect_dumpAll_unruled_key_witness :
    dumpAllConfig.DumpAll = true ∧ "SECRET_KEY" ∈ dumpAllEnv.Environ.map cutKey ∧
    secretKeyResult ∈ (inspect noLib dumpAllEnv (Clock.mk 0) [keyRule "APP_NAME"]
        dumpAllConfig).Results ∧
    secretKeyResult.Required = false ∧ secretKeyResult.Valid = true ∧
    secretKeyResult.Problems = [] ∧ secretKeyResult.SecretLike = IsSecretLike "SECRET_KEY" :=
  ⟨rfl, by decide, by decide,
   (inspect_dumpAll_unruled_key noLib dumpAllEnv (Clock.mk 0) [keyRule "APP_NAME"]
     dumpAllConfig "SECRET_KEY" rfl (by decide) (by decide)).2 secretKeyResult (by decide) rfl⟩

/-! ### The fail-fast check -/

theorem failFast_loop (rs : List VarResult) (acc : List String) :
    rs.foldl (fun problems r =>
      if r.Required && (!r.Present || !r.Valid) then problems ++ [failFastEntry r]
      else problems) acc
    = acc ++ (rs.filter offending).map failFastEntry := by
  induction rs generalizing acc with
  | nil => simp
  | cons r t ih =>
    simp only [List.foldl_cons, List.filter_cons]
    by_cases h : offending r = true
    · have h2 : (r.Required && (!r.Present || !r.Valid)) = true := h
      simp only [h, h2, if_true, ih, List.map_cons, List.append_assoc, List.singleton_append]
    · have h3 : offending r = false := by simpa using h
      have h2 : (r.Required && (!r.Present || !r.Valid)) = false := h3
      simp only [h3, h2, Bool.false_eq_true, if_false, ih]

theorem CheckFailFast_eq (report : Report) :
    CheckFailFast report true =
      if (report.Results.filter offending).length > 0 then
        some ("envdoc: fail-fast: " ++ toString (report.Results.filter offending).length ++
          " required variable(s) invalid:\n  " ++
          String.intercalate "\n  " ((report.Results.filter offending).map failFastEntry))
      else none := by
  unfold CheckFailFast
  simp only [Bool.not_true, Bool.false_eq_true, if_false, failFast_loop, List.nil_append,
    List.length_map]

/-- C18: CheckFailFast(report, false) returns no error for every report, and
CheckFailFast(report, true) returns an error iff at least one result is
required and (not present or not valid). -/
theorem CheckFailFast_error_iff (report : Report) :
    CheckFailFast report false = none ∧
    ((CheckFailFast report true).isSome = true ↔
      ∃ r ∈ report.Results,
        r.Required = true ∧ (r.Present = false ∨ r.Valid = false)) := by
  refine ⟨rfl, ?_⟩
  rw [CheckFailFast_eq]
  have hoff : (∃ r ∈ report.Results, r.Required = true ∧ (r.Present = false ∨ r.Valid = false))
      ↔ report.Results.filter offending ≠ [] := by
    constructor
    · rintro ⟨r, hr, hreq, hpv⟩ hnil
      have hmem : r ∈ report.Results.filter offending := by
        rw [List.mem_filter]
        refine ⟨hr, ?_⟩
        unfold offending
        rcases hpv with hp | hv
        · simp [hreq, hp]
        · simp [hreq, hv]
      rw [hnil] at hmem
      simp at hmem
    · intro hne
      obtain ⟨r, hr⟩ := List.exists_mem_of_ne_nil _ hne
      rw [List.mem_filter] at hr
      refine ⟨r, hr.1, ?_⟩
      have h := hr.2
      unfold offending at h
      simp only [Bool.and_eq_true, Bool.or_eq_true, Bool.not_eq_true'] at h
      exact h
  rw [hoff]
  cases hf : report.Results.filter offending with
  | nil => simp
  | cons a t => simp

/-- C19: when fail-fast is enabled and k >= 1 results are offending, the error
message is "envdoc: fail-fast: k required variable(s) invalid:" followed by k
entries, one per offending result in report order, each on a line of its own
after a line break and two blanks; an entry is "KEY: present=<bool>
valid=<bool>" with " problems=[p1; p2; ...]" appended when the result has
problems; results that are not offending contribute nothing. -/
theorem CheckFailFast_message (report : Report)
    (hk : (report.Results.filter offending).length ≥ 1) :
    CheckFailFast report true =
      some ("envdoc: fail-fast: " ++ toString (report.Results.filter offending).length ++
        " required variable(s) invalid:" ++
        String.join (((report.Results.filter offending).map failFastEntry).map
          (fun entry => "\n  " ++ entry))) ∧
    (∀ r : VarResult,
      failFastEntry r =
        r.Key ++ ": present=" ++ boolText r.Present ++ " valid=" ++ boolText r.Valid ++
          (if r.Problems = [] then ""
           else " problems=[" ++ String.intercalate "; " r.Problems ++ "]")) ∧
    boolText true = "true" ∧ boolText false = "false" := by
  refine ⟨?_, ?_, rfl, rfl⟩
  · rw [CheckFailFast_eq, if_pos (by omega)]
    have hlit : (" required variable(s) invalid:\n  " : String)
        = " required variable(s) invalid:" ++ "\n  " := by decide
    cases hf : report.Results.filter offending with
    | nil => rw [hf] at hk; simp at hk
    | cons a t =>
      rw [hlit]
      simp only [String.append_assoc, List.map_cons]
      rw [intercalate_eq_join]
      simp only [List.map_cons]
  · intro r
    unfold failFastEntry
    cases hp : r.Problems with
    | nil => simp
    | cons p ps => simp [String.append_assoc]

/-- Witness of C19: the test `TestCheckFailFast_MultipleFailures`. -/
theorem CheckFailFast_message_witness :
    (failingReport.Results.filter offending).length = 2 ∧
    CheckFailFast failingReport true =
      some ("envdoc: fail-fast: 2 required variable(s) invalid:" ++
        "\n  A: present=false valid=false problems=[required but not set]" ++
        "\n  B: present=true valid=false problems=[not a valid int]") :=
  ⟨by decide, (CheckFailFast_message failingReport (by decide)).1.trans (by decide!)⟩

/-! ### Validating rules -/

theorem ruleError_none_iff (lib : Lib) (idx : Nat) (seen : String → Bool) (r : Rule) :
    ruleError lib idx seen r = none ↔ ruleWellFormed lib r = true ∧ seen r.Key = false := by
  unfold ruleError ruleWellFormed
  by_cases hk : r.Key = ""
  · simp [hk]
  · cases hs : seen r.Key
    · by_cases ht : r.Typ = ""
      · by_cases hr : r.Regex = ""
        · cases hlo : r.MinLen <;> cases hhi : r.MaxLen <;> simp [hk, ht, hr]
        · cases hc : lib.regexpCompile r.Regex
          · simp [hk, ht, hr]
          · cases hlo : r.MinLen <;> cases hhi : r.MaxLen <;> simp [hk, ht, hr]
      · cases hv : validTypes r.Typ
        · simp [hk, ht, hv]
        · by_cases hr : r.Regex = ""
          · cases hlo : r.MinLen <;> cases hhi : r.MaxLen <;> simp [hk, ht, hr, hv]
          · cases hc : lib.regexpCompile r.Regex
            · simp [hk, ht, hr, hv]
            · cases hlo : r.MinLen <;> cases hhi : r.MaxLen <;> simp [hk, ht, hr, hv]
    · simp [hk]

theorem ruleWellFormed_key (lib : Lib) (r : Rule) (h : ruleWellFormed lib r = true) :
    r.Key ≠ "" := by
  unfold ruleWellFormed at h
  simp only [Bool.and_eq_true, decide_eq_true_eq] at h
  exact h.1.1.1

theorem ruleError_duplicate (lib : Lib) (idx : Nat) (seen : String → Bool) (r : Rule)
    (hk : r.Key ≠ "") (hs : seen r.Key = true) :
    ruleError lib idx seen r
      = some ("envdoc: rule[" ++ toString idx ++ "]: duplicate key " ++ lib.quote r.Key) := by
  unfold ruleError
  rw [if_neg hk, if_pos hs]

theorem validateRulesFrom_cons_none (lib : Lib) (idx : Nat) (seen : String → Bool) (r : Rule)
    (rest : List Rule) (h : ruleError lib idx seen r = none) :
    validateRulesFrom lib idx seen (r :: rest)
      = validateRulesFrom lib (idx + 1) (fun k => if k = r.Key then true else seen k) rest := by
  rw [validateRulesFrom, h]

theorem validateRulesFrom_cons_some (lib : Lib) (idx : Nat) (seen : String → Bool) (r : Rule)
    (rest : List Rule) (e : String) (h : ruleError lib idx seen r = some e) :
    validateRulesFrom lib idx seen (r :: rest) = some e := by
  rw [validateRulesFrom, h]

theorem validateRulesFrom_none (lib : Lib) (rules : List Rule) (idx : Nat)
    (seen : String → Bool) (h : validateRulesFrom lib idx seen rules = none) :
    (rules.map (fun r => r.Key)).Nodup ∧ ∀ r ∈ rules, seen r.Key = false := by
  induction rules generalizing idx seen with
  | nil => simp
  | cons r rest ih =>
    cases he : ruleError lib idx seen r with
    | some e => rw [validateRulesFrom_cons_some lib idx seen r rest e he] at h; simp at h
    | none =>
      rw [validateRulesFrom_cons_none lib idx seen r rest he] at h
      obtain ⟨hnd, hseen⟩ := ih _ _ h
      obtain ⟨_, hs⟩ := (ruleError_none_iff lib idx seen r).mp he
      refine ⟨?_, ?_⟩
      · simp only [List.map_cons, List.nodup_cons]
        refine ⟨?_, hnd⟩
        intro hin
        obtain ⟨q, hq, hqk⟩ := List.mem_map.mp hin
        have := hseen q hq
        simp [hqk] at this
      · intro q hq
        rcases List.mem_cons.mp hq with hq | hq
        · rw [hq]; exact hs
        · have := hseen q hq
          by_cases hqk : q.Key = r.Key
          · simp [hqk] at this
          · simpa [hqk] using this

theorem validateRulesFrom_append (lib : Lib) (pre rest : List Rule) (idx : Nat)
    (seen : String → Bool) (hwf : ∀ r ∈ pre, ruleWellFormed lib r = true)
    (hnd : (pre.map (fun r => r.Key)).Nodup) (hseen : ∀ r ∈ pre, seen r.Key = false) :
    ∃ seen2 : String → Bool,
      (∀ k, seen2 k = (decide (k ∈ pre.map (fun r => r.Key)) || seen k)) ∧
      validateRulesFrom lib idx seen (pre ++ rest)
        = validateRulesFrom lib (idx + pre.length) seen2 rest := by
  induction pre generalizing idx seen with
  | nil => exact ⟨seen, by simp, by simp⟩
  | cons a t ih =>
    have ha : ruleError lib idx seen a = none :=
      (ruleError_none_iff lib idx seen a).mpr
        ⟨hwf a (List.mem_cons_self _ _), hseen a (List.mem_cons_self _ _)⟩
    have hnd2 := List.nodup_cons.mp hnd
    obtain ⟨seen2, hseen2, heq⟩ := ih (idx + 1) (fun k => if k = a.Key then true else seen k)
      (fun r hr => hwf r (List.mem_cons_of_mem _ hr)) hnd2.2
      (by
        intro r hr
        have hne : r.Key ≠ a.Key := by
          intro he
          exact hnd2.1 (List.mem_map.mpr ⟨r, hr, he⟩)
        simp [hne, hseen r (List.mem_cons_of_mem _ hr)])
    refine ⟨seen2, ?_, ?_⟩
    · intro k
      rw [hseen2 k]
      by_cases hk : k = a.Key
      · simp [hk]
      · simp [hk]
    · simp only [List.cons_append, List.length_cons]
      rw [validateRulesFrom_cons_none lib idx seen a _ ha, heq]
      have hidx : idx + 1 + t.length = idx + (t.length + 1) := by omega
      rw [hidx]

/-- C20: for every rule list in which two rules have the same key,
validateRules returns an error, and so does LoadRules when the YAML text parses
to that list; when the rules before the second occurrence are well-formed and
have pairwise distinct keys, the message is "envdoc: rule[j]: duplicate key "
followed by the key as the verb `%q` renders it, where j is the index of the
second occurrence. -/
theorem validateRules_duplicate_key (lib : Lib) (pre mid post : List Rule) (a b : Rule)
    (hkey : a.Key = b.Key) :
    (validateRules lib ((pre ++ a :: mid) ++ b :: post)).isSome = true ∧
    (∀ data : String, lib.yamlUnmarshal data = Except.ok ((pre ++ a :: mid) ++ b :: post) →
      ∃ e, LoadRules lib data = Except.error e) ∧
    ((∀ r ∈ pre ++ a :: mid, ruleWellFormed lib r = true) →
      ((pre ++ a :: mid).map (fun r => r.Key)).Nodup →
      validateRules lib ((pre ++ a :: mid) ++ b :: post)
        = some ("envdoc: rule[" ++ toString (pre ++ a :: mid).length ++ "]: duplicate key " ++
            lib.quote b.Key) ∧
      ∀ data : String, lib.yamlUnmarshal data = Except.ok ((pre ++ a :: mid) ++ b :: post) →
        LoadRules lib data
          = Except.error ("envdoc: rule[" ++ toString (pre ++ a :: mid).length ++
              "]: duplicate key " ++ lib.quote b.Key)) := by
  have hsome : (validateRules lib ((pre ++ a :: mid) ++ b :: post)).isSome = true := by
    cases hv : validateRules lib ((pre ++ a :: mid) ++ b :: post) with
    | some e => rfl
    | none =>
      exfalso
      have hnd := (validateRulesFrom_none lib _ 0 (fun _ => false) hv).1
      simp only [List.map_append, List.map_cons] at hnd
      have h1 := List.nodup_append.mp hnd
      exact h1.2.2 (List.mem_append_right _ (List.mem_cons_self _ _))
        (hkey ▸ List.mem_cons_self _ _)
  have hload : ∀ (data : String) (e : String),
      lib.yamlUnmarshal data = Except.ok ((pre ++ a :: mid) ++ b :: post) →
      validateRules lib ((pre ++ a :: mid) ++ b :: post) = some e →
      LoadRules lib data = Except.error e := by
    intro data e hparse hv
    unfold LoadRules
    rw [hparse]
    simp only [hv]
  refine ⟨hsome, ?_, ?_⟩
  · intro data hparse
    cases hv : validateRules lib ((pre ++ a :: mid) ++ b :: post) with
    | none => rw [hv] at hsome; simp at hsome
    | some e => exact ⟨e, hload data e hparse hv⟩
  · intro hwf hnd
    have hv : validateRules lib ((pre ++ a :: mid) ++ b :: post)
        = some ("envdoc: rule[" ++ toString (pre ++ a :: mid).length ++ "]: duplicate key " ++
            lib.quote b.Key) := by
      obtain ⟨seen2, hseen2, heq⟩ := validateRulesFrom_append lib (pre ++ a :: mid)
        (b :: post) 0 (fun _ => false) hwf hnd (fun _ _ => rfl)
      unfold validateRules
      rw [heq]
      have hbk : b.Key ≠ "" := by
        rw [← hkey]
        exact ruleWellFormed_key lib a (hwf a (List.mem_append_right _ (List.mem_cons_self _ _)))
      have hbs : seen2 b.Key = true := by
        rw [hseen2, ← hkey]
        simp
      rw [validateRulesFrom_cons_some lib _ seen2 b post _
        (ruleError_duplicate lib _ seen2 b hbk hbs)]
      simp
    exact ⟨hv, fun data hparse => hload data _ hparse hv⟩

/-- Witness of C20: the rules `X`, `Y`, `X`; the second `X` has index 2. -/
theorem validateRules_duplicate_key_witness :
    (keyRule "X").Key = (keyRule "X").Key ∧
    validateRules quotingLib [keyRule "X", keyRule "Y", keyRule "X"]
      = some "envdoc: rule[2]: duplicate key \"X\"" :=
  ⟨rfl,
   (((validateRules_duplicate_key quotingLib [] [keyRule "Y"] [] (keyRule "X") (keyRule "X")
     rfl).2.2 (by decide) (by decide)).1).trans (by decide)⟩

theorem validateRulesFrom_none_iff (lib : Lib) (rules : List Rule) (idx : Nat)
    (seen : String → Bool) :
    validateRulesFrom lib idx seen rules = none ↔
      (∀ r ∈ rules, ruleWellFormed lib r = true) ∧ (rules.map (fun r => r.Key)).Nodup ∧
        ∀ r ∈ rules, seen r.Key = false := by
  constructor
  · intro h
    refine ⟨?_, (validateRulesFrom_none lib rules idx seen h).1,
      (validateRulesFrom_none lib rules idx seen h).2⟩
    induction rules generalizing idx seen with
    | nil => simp
    | cons a t ih =>
      intro r hr
      cases he : ruleError lib idx seen a with
      | some e => rw [validateRulesFrom_cons_some lib idx seen a t e he] at h; simp at h
      | none =>
        rw [validateRulesFrom_cons_none lib idx seen a t he] at h
        rcases List.mem_cons.mp hr with hra | hrt
        · rw [hra]; exact ((ruleError_none_iff lib idx seen a).mp he).1
        · exact ih _ _ h r hrt
  · rintro ⟨hwf, hnd, hseen⟩
    obtain ⟨seen2, _, heq⟩ := validateRulesFrom_append lib rules [] idx seen hwf hnd hseen
    rw [List.append_nil] at heq
    rw [heq]
    rfl

theorem ruleWellFormed_iff (lib : Lib) (r : Rule) :
    ruleWellFormed lib r = true ↔
      r.Key ≠ "" ∧
      (r.Typ ≠ "" → r.Typ ∈ [TypeString, TypeInt, TypeBool, TypeDuration, TypeURL, TypeJSON]) ∧
      (r.Regex ≠ "" → (lib.regexpCompile r.Regex).isSome = true) ∧
      (∀ lo hi : Int, r.MinLen = some lo → r.MaxLen = some hi → lo ≤ hi) := by
  unfold ruleWellFormed validTypes
  have hminmax : (match r.MinLen, r.MaxLen with
      | some lo, some hi => decide (lo ≤ hi)
      | _, _ => true) = true ↔
      (∀ lo hi : Int, r.MinLen = some lo → r.MaxLen = some hi → lo ≤ hi) := by
    cases hlo : r.MinLen <;> cases hhi : r.MaxLen <;> simp
  simp only [Bool.and_eq_true, decide_eq_true_eq, Bool.or_eq_true, beq_iff_eq, hminmax,
    List.mem_cons, List.mem_singleton, List.mem_nil_iff, or_false]
  constructor
  · rintro ⟨⟨⟨hk, ht⟩, hr⟩, hm⟩
    refine ⟨hk, ?_, ?_, hm⟩
    · intro hne
      rcases ht with h | h
      · exact absurd h hne
      · tauto
    · intro hne
      rcases hr with h | h
      · exact absurd h hne
      · exact h
  · rintro ⟨hk, ht, hr, hm⟩
    refine ⟨⟨⟨hk, ?_⟩, ?_⟩, hm⟩
    · by_cases h : r.Typ = ""
      · exact Or.inl h
      · right; have := ht h; tauto
    · by_cases h : r.Regex = ""
      · exact Or.inl h
      · exact Or.inr (hr h)

/-- C21: validateRules accepts a rule list (returns no error) iff every rule has
a non-empty key, all keys are pairwise distinct, every set type is one of
string, int, bool, duration, url, json, every set regex compiles, and
min_len <= max_len whenever both are set; the rules that LoadRules returns were
accepted by validateRules, so they satisfy all of these. -/
theorem validateRules_accepts_iff (lib : Lib) (rules : List Rule) :
    (validateRules lib rules = none ↔
      (∀ r ∈ rules, r.Key ≠ "") ∧
      (rules.map (fun r => r.Key)).Nodup ∧
      (∀ r ∈ rules, r.Typ ≠ "" →
        r.Typ ∈ [TypeString, TypeInt, TypeBool, TypeDuration, TypeURL, TypeJSON]) ∧
      (∀ r ∈ rules, r.Regex ≠ "" → (lib.regexpCompile r.Regex).isSome = true) ∧
      (∀ r ∈ rules, ∀ lo hi : Int, r.MinLen = some lo → r.MaxLen = some hi → lo ≤ hi)) ∧
    (∀ data : String, LoadRules lib data = Except.ok rules → validateRules lib rules = none) := by
  constructor
  · unfold validateRules
    rw [validateRulesFrom_none_iff]
    constructor
    · rintro ⟨hwf, hnd, _⟩
      refine ⟨fun r hr => ((ruleWellFormed_iff lib r).mp (hwf r hr)).1, hnd,
        fun r hr => ((ruleWellFormed_iff lib r).mp (hwf r hr)).2.1,
        fun r hr => ((ruleWellFormed_iff lib r).mp (hwf r hr)).2.2.1,
        fun r hr => ((ruleWellFormed_iff lib r).mp (hwf r hr)).2.2.2⟩
    · rintro ⟨hk, hnd, ht, hr, hm⟩
      exact ⟨fun r hmem => (ruleWellFormed_iff lib r).mpr
        ⟨hk r hmem, ht r hmem, hr r hmem, hm r hmem⟩, hnd, fun _ _ => rfl⟩
  · intro data hload
    unfold LoadRules at hload
    cases hp : lib.yamlUnmarshal data with
    | error e => rw [hp] at hload; simp at hload
    | ok parsed =>
      rw [hp] at hload
      simp only at hload
      cases hv : validateRules lib parsed with
      | some e => rw [hv] at hload; simp at hload
      | none =>
        rw [hv] at hload
        simp only [Except.ok.injEq] at hload
        rw [← hload]; exact hv

/-- C22 as stated fails: the one rule with key `X` and min_len = -1 is accepted
by validateRules, and its min_len is negative. -/
theorem validateRules_accepts_negative_minLen :
    validateRules noLib [{ keyRule "X" with MinLen := some (-1) }] = none ∧
    ({ keyRule "X" with MinLen := some (-1) } : Rule).MinLen = some (-1) ∧ (-1 : Int) < 0 := by
  refine ⟨by decide, rfl, by decide⟩

/-- C22, amended: validateRules puts no sign constraint on min_len and max_len.
Every rule of an accepted list has min_len <= max_len when both are set, and a
rule with a non-empty key and no other field set is accepted with any integer
min_len, any integer max_len, or any two integers min_len <= max_len, negative
ones included. -/
theorem validateRules_length_bounds (lib : Lib) (rules : List Rule) (key : String)
    (lo hi : Int) (hkey : key ≠ "") :
    (validateRules lib rules = none →
      ∀ r ∈ rules, ∀ a b : Int, r.MinLen = some a → r.MaxLen = some b → a ≤ b) ∧
    validateRules lib [{ keyRule key with MinLen := some lo }] = none ∧
    validateRules lib [{ keyRule key with MaxLen := some hi }] = none ∧
    (lo ≤ hi →
      validateRules lib [{ keyRule key with MinLen := some lo, MaxLen := some hi }] = none) := by
  have hone : ∀ r : Rule, ruleWellFormed lib r = true → validateRules lib [r] = none := by
    intro r hr
    unfold validateRules
    rw [validateRulesFrom_none_iff]
    exact ⟨by simpa using hr, by simp, by simp⟩
  refine ⟨?_, ?_, ?_, ?_⟩
  · intro h r hr a b ha hb
    unfold validateRules at h
    have hwf := ((validateRulesFrom_none_iff lib rules 0 _).mp h).1 r hr
    exact ((ruleWellFormed_iff lib r).mp hwf).2.2.2 a b ha hb
  · apply hone
    simp [ruleWellFormed, keyRule, Rule.zero, hkey]
  · apply hone
    simp [ruleWellFormed, keyRule, Rule.zero, hkey]
  · intro hle
    apply hone
    simp [ruleWellFormed, keyRule, Rule.zero, hkey, hle]

/-- Witness of C22: the key `X` with min_len = -5 and max_len = -2. -/
theorem validateRules_length_bounds_witness :
    "X" ≠ "" ∧ (-5 : Int) ≤ -2 ∧
    validateRules noLib [{ keyRule "X" with MinLen := some (-5), MaxLen := some (-2) }]
      = none :=
  ⟨by decide, by decide,
   (validateRules_length_bounds noLib [] "X" (-5) (-2) (by decide)).2.2.2 (by decide)⟩

/-! ### Whitespace and fingerprints -/

theorem length_dropWhile_le_length (p : Char → Bool) (l : List Char) :
    (l.dropWhile p).length ≤ l.length :=
  (List.dropWhile_sublist p).length_le

theorem dropWhile_eq_self (p : Char → Bool) (l : List Char) :
    l.dropWhile p = l ↔ ∀ c, l.head? = some c → p c = false := by
  cases l with
  | nil => simp
  | cons a t =>
    cases hp : p a
    · simp [List.dropWhile_cons, hp]
    · simp only [List.dropWhile_cons, hp, if_true, List.head?_cons, Option.some.injEq,
        forall_eq']
      constructor
      · intro h
        have hlen := length_dropWhile_le_length p t
        rw [h] at hlen
        simp at hlen
      · intro h
        simp at h

theorem trimSpace_eq_self (l : List Char) :
    trimSpace l = l ↔
      (∀ c, l.head? = some c → isSpace c = false) ∧
      (∀ c, l.getLast? = some c → isSpace c = false) := by
  unfold trimSpace
  by_cases hhead : l.dropWhile isSpace = l
  · rw [hhead]
    have h1 : (l.reverse.dropWhile isSpace).reverse = l ↔ l.reverse.dropWhile isSpace = l.reverse := by
      constructor
      · intro h
        have := congrArg List.reverse h
        simpa using this
      · intro h
        rw [h, List.reverse_reverse]
    rw [h1, dropWhile_eq_self, List.head?_reverse]
    constructor
    · intro h
      exact ⟨(dropWhile_eq_self isSpace l).mp hhead, h⟩
    · intro h
      exact h.2
  · constructor
    · intro h
      exfalso
      have hlen1 : ((l.dropWhile isSpace).reverse.dropWhile isSpace).reverse.length
          ≤ (l.dropWhile isSpace).length := by
        rw [List.length_reverse]
        exact (length_dropWhile_le_length _ _).trans (by rw [List.length_reverse])
      rw [h] at hlen1
      have hlen2 := length_dropWhile_le_length isSpace l
      have hsub : (l.dropWhile isSpace).Sublist l := List.dropWhile_sublist isSpace
      exact hhead (hsub.eq_of_length_le hlen1)
    · intro h
      exact absurd ((dropWhile_eq_self isSpace l).mpr h.1) hhead

/-- C23: detectWhitespace(value) is true iff the value differs from its
whitespace-trimmed form, iff the value's first or last character is a
whitespace character; the empty string and a value whose first and last
characters are not whitespace give false; and the trimmed flag of a present
variable is detectWhitespace of its value. -/
theorem detectWhitespace_iff (value : String) :
    (detectWhitespace value = true ↔ String.mk (trimSpace value.data) ≠ value) ∧
    (detectWhitespace value = true ↔
      (∃ c, value.data.head? = some c ∧ isSpace c = true) ∨
      (∃ c, value.data.getLast? = some c ∧ isSpace c = true)) ∧
    detectWhitespace "" = false ∧
    (∀ (a b : Char) (mid : List Char), isSpace a = false → isSpace b = false →
      detectWhitespace (String.mk (a :: (mid ++ [b]))) = false) ∧
    (∀ (lib : Lib) (env : EnvReader) (key : String) (rule : Rule) (cfg : Config),
      (env.LookupEnv key).2 = true →
      (inspectVar lib env key rule cfg).Trimmed = detectWhitespace (env.LookupEnv key).1) := by
  have hdet : detectWhitespace value = true ↔ trimSpace value.data ≠ value.data := by
    unfold detectWhitespace
    simp only [bne_iff_ne, ne_eq]
    exact ⟨fun h e => h e.symm, fun h e => h e.symm⟩
  have hends : ∀ l : List Char, trimSpace l ≠ l ↔
      (∃ c, l.head? = some c ∧ isSpace c = true) ∨
      (∃ c, l.getLast? = some c ∧ isSpace c = true) := by
    intro l
    rw [ne_eq, trimSpace_eq_self]
    constructor
    · intro h
      by_contra hcon
      apply h
      constructor
      · intro c hc
        cases hs : isSpace c
        · rfl
        · exact absurd (Or.inl ⟨c, hc, hs⟩) hcon
      · intro c hc
        cases hs : isSpace c
        · rfl
        · exact absurd (Or.inr ⟨c, hc, hs⟩) hcon
    · rintro (⟨c, hc, hs⟩ | ⟨c, hc, hs⟩) ⟨h1, h2⟩
      · rw [h1 c hc] at hs; exact absurd hs (by decide)
      · rw [h2 c hc] at hs; exact absurd hs (by decide)
  refine ⟨?_, ?_, by decide, ?_, ?_⟩
  · rw [hdet]
    constructor
    · intro h e
      exact h (congrArg String.data e)
    · intro h e
      exact h (String.ext e)
  · rw [hdet]
    exact hends value.data
  · intro a b mid ha hb
    cases hd : detectWhitespace (String.mk (a :: (mid ++ [b])))
    · rfl
    · exfalso
      have h := (hends (a :: (mid ++ [b]))).mp (by
        have : detectWhitespace (String.mk (a :: (mid ++ [b]))) = true ↔
            trimSpace (a :: (mid ++ [b])) ≠ a :: (mid ++ [b]) := by
          unfold detectWhitespace
          simp only [bne_iff_ne, ne_eq]
          exact ⟨fun h e => h e.symm, fun h e => h e.symm⟩
        exact this.mp hd)
      rcases h with ⟨c, hc, hs⟩ | ⟨c, hc, hs⟩
      · simp only [List.head?_cons, Option.some.injEq] at hc
        rw [← hc, ha] at hs; exact absurd hs (by decide)
      · have hl : (a :: (mid ++ [b])).getLast? = some b := by
          rw [← List.cons_append, List.getLast?_append]
          simp
        rw [hl] at hc
        simp only [Option.some.injEq] at hc
        rw [← hc, hb] at hs; exact absurd hs (by decide)
  · intro lib env key rule cfg hset
    rw [inspectVar_eq]
    simp [hset]

/-- Witness of C23: spec scenario 5, the values ` hello ` and `hello`. -/
theorem detectWhitespace_iff_witness :
    detectWhitespace " hello " = true ∧ detectWhitespace "hello" = false :=
  ⟨(detectWhitespace_iff " hello ").2.1.mpr (Or.inl ⟨' ', by decide, by decide⟩),
   (detectWhitespace_iff "").2.2.2.1 'h' 'o' "ell".data (by decide) (by decide)⟩

theorem sha256Round_length (st : List Nat) (kw : Nat × Nat) :
    (sha256Round st kw).length = st.length := by
  unfold sha256Round
  split <;> simp

theorem foldl_sha256Round_length (kws : List (Nat × Nat)) (st : List Nat) :
    (kws.foldl sha256Round st).length = st.length := by
  induction kws generalizing st with
  | nil => rfl
  | cons kw t ih => simp only [List.foldl_cons, ih, sha256Round_length]

theorem sha256Block_length (st block : List Nat) :
    (sha256Block st block).length = st.length := by
  unfold sha256Block
  simp only [List.length_zipWith, foldl_sha256Round_length, Nat.min_self]

theorem sha256Words_length (msg : List Nat) : (sha256Words msg).length = 8 := by
  unfold sha256Words
  have h : ∀ (blocks : List (List Nat)) (st : List Nat),
      (blocks.foldl sha256Block st).length = st.length := by
    intro blocks
    induction blocks with
    | nil => intro st; rfl
    | cons b t ih => intro st; simp only [List.foldl_cons, ih, sha256Block_length]
  simp only [h]
  rfl

theorem hexDigit_mem (n : Nat) : hexDigit n ∈ "0123456789abcdef".data := by
  unfold hexDigit
  have h : n % 16 < 16 := Nat.mod_lt _ (by decide)
  generalize n % 16 = k at h
  interval_cases k <;> decide

theorem FingerprintValue_data (value : String) :
    (FingerprintValue value).data
      = ((wordBytes ((sha256Words (stringBytes value)).getD 0 0)).map hexByte).flatten := rfl

set_option maxRecDepth 100000 in
/-- C24: FingerprintValue(value) is a string of exactly 8 characters, each a
lower-case hexadecimal digit, equal to the hex encoding of the first four bytes
of SHA-256(value); it is a function of the value alone, so equal values give
equal results; "hello" gives "2cf24dba". -/
theorem FingerprintValue_hex (value : String) :
    (FingerprintValue value).data.length = 8 ∧
    (∀ c ∈ (FingerprintValue value).data, c ∈ "0123456789abcdef".data) ∧
    FingerprintValue value = hexEncode ((sha256Sum (stringBytes value)).take 4) ∧
    (sha256Sum (stringBytes value)).length = 32 ∧
    (∀ other : String, other = value → FingerprintValue other = FingerprintValue value) ∧
    FingerprintValue "hello" = "2cf24dba" := by
  refine ⟨?_, ?_, ?_, ?_, ?_, by decide!⟩
  · rw [FingerprintValue_data]
    simp [wordBytes, hexByte]
  · intro c hc
    rw [FingerprintValue_data] at hc
    simp only [wordBytes, hexByte, List.map_cons, List.map_nil, List.flatten_cons,
      List.flatten_nil, List.cons_append, List.nil_append, List.append_nil, List.mem_cons,
      List.mem_nil_iff, or_false] at hc
    rcases hc with h | h | h | h | h | h | h | h <;> (rw [h]; exact hexDigit_mem _)
  · have hlen := sha256Words_length (stringBytes value)
    unfold FingerprintValue hexEncode sha256Sum
    cases hw : sha256Words (stringBytes value) with
    | nil => rw [hw] at hlen; simp at hlen
    | cons w rest =>
      have htake : (((w :: rest).map wordBytes).flatten).take 4 = wordBytes w := by
        simp only [List.map_cons, List.flatten_cons]
        rw [List.take_left' (by simp [wordBytes])]
      rw [htake]
      simp
  · unfold sha256Sum
    have hlen := sha256Words_length (stringBytes value)
    have hgen : ∀ ws : List Nat, ((ws.map wordBytes).flatten).length = 4 * ws.length := by
      intro ws
      induction ws with
      | nil => rfl
      | cons w t ih =>
        simp only [List.map_cons, List.flatten_cons, List.length_append, ih, List.length_cons]
        simp [wordBytes]
        omega
    rw [hgen, hlen]
  · intro other h
    rw [h]

/-- Witness of C24: the value `hello` of `TestFingerprintValue`. -/
theorem FingerprintValue_hex_witness :
    FingerprintValue "hello" = "2cf24dba" ∧ (FingerprintValue "hello").data.length = 8 :=
  ⟨(FingerprintValue_hex "hello").2.2.2.2.2, (FingerprintValue_hex "hello").1⟩

/-! ### The report header, the configuration and the inspector -/

theorem inspect_timestamp (lib : Lib) (env : EnvReader) (clock : Clock) (rules : List Rule)
    (cfg : Config) : (inspect lib env clock rules cfg).Timestamp = clock.Now := by
  unfold inspect
  simp only [inspect_loop]
  split <;> rfl

theorem inspect_mode (lib : Lib) (env : EnvReader) (clock : Clock) (rules : List Rule)
    (cfg : Config) :
    (inspect lib env clock rules cfg).Mode = if cfg.Mode = "" then "allowlist" else cfg.Mode := by
  unfold inspect
  simp only [inspect_loop]
  split <;> rfl

theorem report_ext (a b : Report) (ht : a.Timestamp = b.Timestamp) (hm : a.Mode = b.Mode)
    (hr : a.Results = b.Results) (hs : a.Summary = b.Summary) : a = b := by
  cases a; cases b; simp_all

/-- C25: the time source influences only the timestamp.  For any two time
sources the two reports returned by inspect have the same mode, results and
summary, each report's timestamp is the value its time source returned, and
with the same time value the two reports are identical. -/
theorem inspect_clock_only_timestamp (lib : Lib) (env : EnvReader) (rules : List Rule)
    (cfg : Config) (clock1 clock2 : Clock) :
    (inspect lib env clock1 rules cfg).Mode = (inspect lib env clock2 rules cfg).Mode ∧
    (inspect lib env clock1 rules cfg).Results = (inspect lib env clock2 rules cfg).Results ∧
    (inspect lib env clock1 rules cfg).Summary = (inspect lib env clock2 rules cfg).Summary ∧
    (inspect lib env clock1 rules cfg).Timestamp = clock1.Now ∧
    (inspect lib env clock2 rules cfg).Timestamp = clock2.Now ∧
    (clock1.Now = clock2.Now →
      inspect lib env clock1 rules cfg = inspect lib env clock2 rules cfg) := by
  have hm : (inspect lib env clock1 rules cfg).Mode = (inspect lib env clock2 rules cfg).Mode := by
    rw [inspect_mode, inspect_mode]
  have hr : (inspect lib env clock1 rules cfg).Results
      = (inspect lib env clock2 rules cfg).Results := by
    rw [inspect_results, inspect_results]
  have hs : (inspect lib env clock1 rules cfg).Summary
      = (inspect lib env clock2 rules cfg).Summary := by
    rw [inspect_summary, inspect_summary, hr]
  refine ⟨hm, hr, hs, inspect_timestamp _ _ _ _ _, inspect_timestamp _ _ _ _ _, ?_⟩
  intro hnow
  apply report_ext _ _ _ hm hr hs
  rw [inspect_timestamp, inspect_timestamp, hnow]

/-- Witness of C25: the clocks 1 and 2 give reports that differ in the timestamp
only, and equal time values give equal reports. -/
theorem inspect_clock_only_timestamp_witness :
    (Clock.mk 7).Now = (Clock.mk 7).Now ∧
    inspect noLib dumpAllEnv (Clock.mk 7) [requiredRule] dumpAllConfig
      = inspect noLib dumpAllEnv (Clock.mk 7) [requiredRule] dumpAllConfig ∧
    (inspect noLib dumpAllEnv (Clock.mk 1) [requiredRule] dumpAllConfig).Results
      = (inspect noLib dumpAllEnv (Clock.mk 2) [requiredRule] dumpAllConfig).Results :=
  ⟨rfl,
   (inspect_clock_only_timestamp noLib dumpAllEnv [requiredRule] dumpAllConfig (Clock.mk 7)
     (Clock.mk 7)).2.2.2.2.2 rfl,
   (inspect_clock_only_timestamp noLib dumpAllEnv [requiredRule] dumpAllConfig (Clock.mk 1)
     (Clock.mk 2)).2.1⟩

theorem LoadConfig_mode (lib : Lib) (env : EnvReader) :
    (LoadConfig lib env).DumpAll = parseBool (env.Getenv "ENVDOC_DUMP_ALL") ∧
    (LoadConfig lib env).Mode
      = (if parseBool (env.Getenv "ENVDOC_DUMP_ALL") then ModeDumpAll else ModeAllowlist) ∧
    (LoadConfig lib env).FailFast = parseBool (env.Getenv "ENVDOC_FAIL_FAST") := by
  unfold LoadConfig
  cases hd : parseBool (env.Getenv "ENVDOC_DUMP_ALL") <;>
    by_cases hexp : env.Getenv "ENVDOC_EXPIRES_AT" = "" <;>
    cases ht : lib.parseRFC3339 (env.Getenv "ENVDOC_EXPIRES_AT") <;>
    simp [hexp, ht, Config.zero]

/-- C26 as stated fails: with the configuration `Config{DumpAll: true}` the pass
uses dump-all discovery and the report's mode is "allowlist"; with a mode of
`custom` the report's mode is neither of the two strings. -/
theorem inspect_mode_not_from_dumpAll :
    dumpAllConfig.DumpAll = true ∧
    (inspect noLib (MapEnvReader []) (Clock.mk 0) [] dumpAllConfig).Mode = "allowlist" ∧
    (inspect noLib (MapEnvReader []) (Clock.mk 0) []
        { Config.zero with Mode := "custom" }).Mode = "custom" := by
  refine ⟨rfl, by decide, by decide⟩

/-- C26, amended: the mode recorded in the report returned by inspect is the
configuration's Mode field, or "allowlist" when that field is empty, whatever
DumpAll is; for every configuration that LoadConfig returns this is "dumpall"
when DumpAll is true and "allowlist" otherwise. -/
theorem inspect_mode_recorded (lib : Lib) (env : EnvReader) (clock : Clock)
    (rules : List Rule) (cfg : Config) (libc : Lib) (envc : EnvReader) :
    (inspect lib env clock rules cfg).Mode
      = (if cfg.Mode = "" then "allowlist" else cfg.Mode) ∧
    (inspect lib env clock rules (LoadConfig libc envc)).Mode
      = (if (LoadConfig libc envc).DumpAll then "dumpall" else "allowlist") := by
  refine ⟨inspect_mode lib env clock rules cfg, ?_⟩
  rw [inspect_mode]
  obtain ⟨hd, hm, _⟩ := LoadConfig_mode libc envc
  rw [hm, hd]
  cases parseBool (envc.Getenv "ENVDOC_DUMP_ALL") <;> decide

theorem New_config (lib : Lib) (osEnv : EnvReader) (realClock : Clock) (stderr : Writer)
    (env : EnvReader) (c : Config) :
    (New lib osEnv realClock stderr [WithEnvReader env, WithConfig c]).Config
      = if c = Config.zero then LoadConfig lib env else c := by
  unfold New Inspector.Config
  simp only [List.foldl_cons, List.foldl_nil, WithEnvReader, WithConfig]
  by_cases hc : c = Config.zero
  · simp [hc]
  · simp [hc]

/-- C27 fails at the explicitly supplied zero configuration: the inspector built
by `New(WithEnvReader(env), WithConfig(Config{}))` with `ENVDOC_FAIL_FAST=true`
in `env` reports the configuration loaded from the environment, with mode
"allowlist" and fail-fast on, not the `Config{}` it was given; an explicitly
supplied configuration other than `Config{}` is kept. -/
theorem New_explicit_zero_config :
    (New noLib (MapEnvReader []) (Clock.mk 0) []
        [WithEnvReader failFastEnv, WithConfig Config.zero]).Config
      = { Config.zero with Mode := "allowlist", FailFast := true } ∧
    (New noLib (MapEnvReader []) (Clock.mk 0) []
        [WithEnvReader failFastEnv, WithConfig Config.zero]).Config ≠ Config.zero ∧
    (New noLib (MapEnvReader []) (Clock.mk 0) []
        [WithEnvReader failFastEnv, WithConfig { Config.zero with Token := "t" }]).Config
      = { Config.zero with Token := "t" } := by
  refine ⟨by decide, by decide, by decide⟩

/-! ### The debug handler -/

theorem trimLeadingChars_some (lead s rest : List Char) :
    trimLeadingChars lead s = some rest ↔ s = lead ++ rest := by
  induction lead generalizing s with
  | nil => simp [trimLeadingChars, eq_comm]
  | cons p ps ih =>
    cases s with
    | nil => simp [trimLeadingChars]
    | cons c cs =>
      by_cases hpc : p = c
      · simp [trimLeadingChars, hpc, ih]
      · have hcp : ¬ c = p := fun h => hpc h.symm
        simp [trimLeadingChars, hpc, hcp]

theorem trimLeading_eq_iff (auth lead token : String) :
    trimLeading auth lead = token ↔
      auth = lead ++ token ∨ (auth = token ∧ ∀ rest : String, token ≠ lead ++ rest) := by
  unfold trimLeading
  cases h : trimLeadingChars lead.data auth.data with
  | some rest =>
    have hs := (trimLeadingChars_some _ _ _).mp h
    simp only
    constructor
    · intro ht
      left
      apply String.ext
      rw [String.data_append, hs, ← ht]
    · rintro (ha | ⟨ha, hno⟩)
      · apply String.ext
        have := congrArg String.data ha
        rw [String.data_append, hs] at this
        exact List.append_cancel_left this
      · exfalso
        apply hno (String.mk rest)
        apply String.ext
        rw [← ha, String.data_append, hs]
  | none =>
    simp only
    constructor
    · intro ht
      right
      refine ⟨ht, ?_⟩
      intro rest hrest
      have hd : auth.data = lead.data ++ rest.data := by
        rw [ht, hrest, String.data_append]
      rw [(trimLeadingChars_some _ _ _).mpr hd] at h
      simp at h
    · rintro (ha | ⟨ha, _⟩)
      · exfalso
        have hd : auth.data = lead.data ++ token.data := by
          rw [ha, String.data_append]
        rw [(trimLeadingChars_some _ _ _).mpr hd] at h
        simp at h
      · exact ha

theorem newDebugHandler_status_401 (lib : Lib) (i : Inspector) (r : Request)
    (hget : r.Method = "GET") (htoken : i.config.Token ≠ "") :
    (newDebugHandler lib i r).status = 401 ↔
      trimLeading (r.Authorization.getD "") "Bearer " ≠ i.config.Token := by
  by_cases hm : trimLeading (r.Authorization.getD "") "Bearer " = i.config.Token <;>
    by_cases he : i.config.ExpiresAt = 0 <;>
    by_cases hn : i.clock.Now > i.config.ExpiresAt <;>
    simp [newDebugHandler, hget, htoken, hm, he, hn, Response.status]

/-- C28 as stated fails for a header that is the bare token: with the token
`my-token` configured, a GET request whose Authorization header is `my-token`,
not "Bearer my-token", is answered with 200, not 401. -/
theorem newDebugHandler_bare_token_accepted :
    tokenInspector.config.Token = "my-token" ∧
    ("my-token" : String) ≠ "Bearer " ++ "my-token" ∧
    (newDebugHandler noLib tokenInspector
        { Method := "GET", Authorization := some "my-token" }).status = 200 := by
  refine ⟨by decide, by decide, by decide⟩

/-- C28, amended: when a non-empty token T is configured, the debug handler
answers a GET request with 401 unauthorized unless the request's Authorization
header is "Bearer " followed by T, or is T itself when T does not begin with
"Bearer "; an absent or empty header and any other header value are rejected. -/
theorem newDebugHandler_token_check (lib : Lib) (i : Inspector) (r : Request)
    (hget : r.Method = "GET") (htoken : i.config.Token ≠ "") :
    ((newDebugHandler lib i r).status ≠ 401 ↔
      r.Authorization.getD "" = "Bearer " ++ i.config.Token ∨
      (r.Authorization.getD "" = i.config.Token ∧
        ∀ rest : String, i.config.Token ≠ "Bearer " ++ rest)) ∧
    (r.Authorization = none → (newDebugHandler lib i r).status = 401) ∧
    (r.Authorization = some "" → (newDebugHandler lib i r).status = 401) := by
  have h401 := newDebugHandler_status_401 lib i r hget htoken
  have hempty : trimLeading "" "Bearer " ≠ i.config.Token := by
    intro h
    apply htoken
    rw [← h]
    decide
  refine ⟨?_, ?_, ?_⟩
  · rw [← trimLeading_eq_iff, ne_eq, h401]
    exact not_not
  · intro hnone
    rw [h401, hnone]
    exact hempty
  · intro hsome
    rw [h401, hsome]
    exact hempty

/-- Witness of C28: the test `TestHandler_TokenAuth`; "Bearer my-token" is
accepted and "Bearer wrong-token" gets 401. -/
theorem newDebugHandler_token_check_witness :
    tokenInspector.config.Token ≠ "" ∧
    (newDebugHandler noLib tokenInspector
        { Method := "GET", Authorization := some "Bearer my-token" }).status ≠ 401 ∧
    (newDebugHandler noLib tokenInspector
        { Method := "GET", Authorization := none }).status = 401 :=
  ⟨by decide,
   (newDebugHandler_token_check noLib tokenInspector
     { Method := "GET", Authorization := some "Bearer my-token" } rfl (by decide)).1.mpr
     (Or.inl (by decide)),
   (newDebugHandler_token_check noLib tokenInspector
     { Method := "GET", Authorization := none } rfl (by decide)).2.1 rfl⟩

/-! ### Run and the secret heuristic -/

theorem CheckFailFast_isSome_iff (report : Report) :
    (CheckFailFast report true).isSome = true ↔ ∃ r ∈ report.Results, offending r = true := by
  rw [CheckFailFast_eq]
  cases hf : report.Results.filter offending with
  | nil =>
    simp only [List.length_nil, gt_iff_lt, Nat.lt_irrefl, if_false, Option.isSome_none,
      Bool.false_eq_true, false_iff, not_exists, not_and]
    intro r hr ho
    have : r ∈ report.Results.filter offending := List.mem_filter.mpr ⟨hr, ho⟩
    rw [hf] at this
    simp at this
  | cons a t =>
    have ha : a ∈ report.Results.filter offending := by rw [hf]; exact List.mem_cons_self _ _
    rw [List.mem_filter] at ha
    simp only [List.length_cons, gt_iff_lt, Nat.zero_lt_succ, if_true, Option.isSome_some,
      true_iff]
    exact ⟨a, ha.1, ha.2⟩

theorem offending_inspectVar (lib : Lib) (env : EnvReader) (key : String) (r : Rule)
    (cfg : Config) (hk : r.Key ≠ "") :
    offending (inspectVar lib env key r cfg) = true ↔
      r.Required = true ∧
        ((env.LookupEnv key).2 = false ∨
          ((env.LookupEnv key).2 = true ∧ ValidateVar lib (env.LookupEnv key).1 r ≠ [])) := by
  rw [inspectVar_eq]
  unfold offending
  cases hp : (env.LookupEnv key).2
  · simp
  · cases hv : ValidateVar lib (env.LookupEnv key).1 r <;> simp [hk, hv]

theorem Run_err (lib : Lib) (i : Inspector) :
    (i.Run lib).err = CheckFailFast (i.Inspect lib) i.config.FailFast ∧
    (i.Run lib).report = i.Inspect lib := by
  unfold Inspector.Run
  cases h : CheckFailFast (i.Inspect lib) i.config.FailFast <;> simp [h]

/-- C29: for every snapshot and every rule list with pairwise distinct non-empty
keys, in allow-list mode with fail-fast enabled, Run returns an error iff some
required rule's key is unset in the snapshot or is set to a value for which
ValidateVar yields at least one problem; with fail-fast disabled Run never
returns an error; in both cases the report of the inspection is returned
alongside.  The snapshot, rules and configuration are those of the inspector
that Run builds from its options. -/
theorem Run_error_iff (lib : Lib) (i : Inspector)
    (hmode : i.config.DumpAll = false)
    (hnd : (i.rules.map (fun r => r.Key)).Nodup) (hne : ∀ r ∈ i.rules, r.Key ≠ "") :
    (i.config.FailFast = true →
      ((i.Run lib).err.isSome = true ↔
        ∃ r ∈ i.rules, r.Required = true ∧
          ((i.env.LookupEnv r.Key).2 = false ∨
            ((i.env.LookupEnv r.Key).2 = true ∧
              ValidateVar lib (i.env.LookupEnv r.Key).1 r ≠ [])))) ∧
    (i.config.FailFast = false → (i.Run lib).err = none) ∧
    (i.Run lib).report = inspect lib i.env i.clock i.rules i.config ∧
    (∀ (osEnv : EnvReader) (realClock : Clock) (stderr : Writer) (opts : List InspectorOption),
      Run lib osEnv realClock stderr opts = (New lib osEnv realClock stderr opts).Run lib) := by
  obtain ⟨herr, hrep⟩ := Run_err lib i
  refine ⟨?_, ?_, hrep, fun _ _ _ _ => rfl⟩
  · intro hff
    rw [herr, hff, CheckFailFast_isSome_iff]
    unfold Inspector.Inspect
    rw [inspect_results, discoverKeys_allowlist i.env i.rules i.config hmode]
    constructor
    · rintro ⟨vr, hvr, hoff⟩
      simp only [List.map_map, List.mem_map, Function.comp] at hvr
      obtain ⟨r, hr, rfl⟩ := hvr
      rw [index_unique i.rules r hr hnd] at hoff
      exact ⟨r, hr, (offending_inspectVar lib i.env r.Key r i.config (hne r hr)).mp hoff⟩
    · rintro ⟨r, hr, hoff⟩
      refine ⟨inspectVar lib i.env r.Key r i.config, ?_,
        (offending_inspectVar lib i.env r.Key r i.config (hne r hr)).mpr hoff⟩
      simp only [List.map_map, List.mem_map, Function.comp]
      exact ⟨r, hr, by rw [index_unique i.rules r hr hnd]⟩
  · intro hff
    rw [herr, hff]
    rfl

/-- Witness of C29: the test `TestRun_FailFast`; the required key is unset and
Run returns an error. -/
theorem Run_error_iff_witness :
    failFastInspector.config.DumpAll = false ∧ failFastInspector.config.FailFast = true ∧
    (failFastInspector.Run noLib).err.isSome = true :=
  ⟨by decide, by decide,
   ((Run_error_iff noLib failFastInspector (by decide) (by decide) (by decide)).1
     (by decide)).mpr
     ⟨{ keyRule "REQUIRED_VAR" with Required := true }, by decide, by decide,
      Or.inl (by decide)⟩⟩

theorem foldMatches_of_toLower (c : Char) : foldMatches c.toLower c = true := by
  by_cases hu : 65 ≤ c.toNat ∧ c.toNat ≤ 90
  · have hc : c = Char.ofNat c.toNat := (Char.ofNat_toNat c).symm
    obtain ⟨h1, h2⟩ := hu
    generalize c.toNat = n at h1 h2 hc
    subst hc
    interval_cases n <;> decide
  · have hl : c.toLower = c := by
      unfold Char.toLower
      simp only [ge_iff_le]
      rw [if_neg hu]
    rw [hl]
    simp [foldMatches]

theorem matchesAt_of_startsWith (frag s : List Char) (h : startsWithIgnoreCase frag s = true) :
    matchesAt frag s = true := by
  induction frag generalizing s with
  | nil => simp [matchesAt]
  | cons f fs ih =>
    cases s with
    | nil => simp [startsWithIgnoreCase] at h
    | cons c cs =>
      simp only [startsWithIgnoreCase, Bool.and_eq_true, beq_iff_eq] at h
      simp only [matchesAt, Bool.and_eq_true]
      refine ⟨?_, ih cs h.2⟩
      rw [← h.1]
      exact foldMatches_of_toLower c

theorem matchesAnywhere_of_contains (frag s : List Char)
    (h : containsIgnoreCase frag s = true) : matchesAnywhere frag s = true := by
  induction s with
  | nil =>
    simp only [containsIgnoreCase] at h
    simp only [matchesAnywhere]
    exact matchesAt_of_startsWith frag [] h
  | cons c cs ih =>
    simp only [containsIgnoreCase, Bool.or_eq_true] at h
    simp only [matchesAnywhere, Bool.or_eq_true]
    rcases h with h | h
    · exact Or.inl (matchesAt_of_startsWith frag (c :: cs) h)
    · exact Or.inr (ih h)

/-- C30 as stated fails for the fragment "private key": the key `private key`
contains it, yet IsSecretLike and classifySecretLike with secret unset are
false, since the pattern has `privatekey`, `private_key` and `private-key` only. -/
theorem IsSecretLike_private_key_with_blank :
    "private key" ∈ claimedFragments ∧
    containsIgnoreCase "private key".data "private key".data = true ∧
    IsSecretLike "private key" = false ∧
    classifySecretLike "private key" Rule.zero = false := by
  refine ⟨by decide, by decide, by decide, by decide⟩

/-- C30, amended: for every key that contains, anywhere and compared
case-insensitively, one of the fragments "password", "secret", "token",
"apikey", "privatekey", "private_key", "private-key", "ssh", "pem", "cert",
"jwt", "session", "cookie", "authorization", "bearer", "kms", "encrypt" or
"signing", IsSecretLike(key) is true, and so is classifySecretLike(key, rule)
for every rule that leaves secret unset. -/
theorem IsSecretLike_of_fragment (key fragment : String) (rule : Rule)
    (hfrag : fragment ∈ patternFragments)
    (hcontains : containsIgnoreCase fragment.data key.data = true) :
    IsSecretLike key = true ∧
    (rule.Secret = none → classifySecretLike key rule = true) := by
  have hsecret : IsSecretLike key = true := by
    unfold IsSecretLike
    rw [List.any_eq_true]
    refine ⟨fragment, ?_, matchesAnywhere_of_contains _ _ hcontains⟩
    have hsub : ∀ f ∈ patternFragments, f ∈ secretAlternatives := by decide
    exact hsub fragment hfrag
  refine ⟨hsecret, ?_⟩
  intro hnone
  unfold classifySecretLike
  rw [hnone]
  exact hsecret

/-- Witness of C30: `DB_PASSWORD` contains "password". -/
theorem IsSecretLike_of_fragment_witness :
    "password" ∈ patternFragments ∧
    containsIgnoreCase "password".data "DB_PASSWORD".data = true ∧
    IsSecretLike "DB_PASSWORD" = true :=
  ⟨by decide, by decide,
   (IsSecretLike_of_fragment "DB_PASSWORD" "password" Rule.zero (by decide) (by decide)).1⟩

/-! ### Problem messages and the raw value -/

theorem checkType_message (lib : Lib) (value typ msg : String)
    (h : checkType lib value typ = some msg) : msg = typeMessage typ := by
  unfold checkType at h
  unfold typeMessage
  by_cases h1 : typ = TypeString
  · simp [h1] at h
  by_cases h2 : typ = TypeInt
  · subst h2
    simp only [if_neg h1, if_true] at h
    split at h
    · simp at h
    · simpa using h.symm
  by_cases h3 : typ = TypeBool
  · subst h3
    simp only [if_neg h1, if_neg h2, if_true] at h
    split at h
    · simp at h
    · simpa [h2] using h.symm
  by_cases h4 : typ = TypeDuration
  · subst h4
    simp only [if_neg h1, if_neg h2, if_neg h3, if_true] at h
    split at h
    · simp at h
    · simpa [h2, h3] using h.symm
  by_cases h5 : typ = TypeURL
  · subst h5
    simp only [if_neg h1, if_neg h2, if_neg h3, if_neg h4, if_true] at h
    split at h
    · simpa [h2, h3, h4] using h.symm
    · split at h
      · simpa [h2, h3, h4] using h.symm
      · simp at h
  by_cases h6 : typ = TypeJSON
  · subst h6
    simp only [if_neg h1, if_neg h2, if_neg h3, if_neg h4, if_neg h5, if_true] at h
    split at h
    · simp at h
    · simpa [h2, h3, h4, h5] using h.symm
  simp [h1, h2, h3, h4, h5, h6] at h

theorem typeProblems_eq (lib : Lib) (value : String) (rule : Rule) :
    typeProblems lib value rule =
      if (decide (rule.Typ ≠ "") && (checkType lib value rule.Typ).isSome) = true
      then [typeMessage rule.Typ] else [] := by
  unfold typeProblems
  by_cases ht : rule.Typ = ""
  · simp [ht]
  · cases hc : checkType lib value rule.Typ with
    | none => simp [ht]
    | some msg => simp [ht, checkType_message lib value rule.Typ msg hc]

theorem ValidateVar_problemsFor (lib : Lib) (value : String) (rule : Rule) :
    ValidateVar lib value rule
      = problemsFor lib rule value.utf8ByteSize (violations lib value rule) := by
  rw [ValidateVar_eq, typeProblems_eq]
  unfold problemsFor violations
  simp only [List.getD_cons_zero, List.getD_cons_succ]
  congr 1
  · congr 1
    · congr 1
      · congr 1
        unfold minLenProblems
        cases rule.MinLen with
        | none => simp
        | some m => by_cases h : (value.utf8ByteSize : Int) < m <;> simp [h]
      · unfold maxLenProblems
        cases rule.MaxLen with
        | none => simp
        | some m => by_cases h : (value.utf8ByteSize : Int) > m <;> simp [h]
    · unfold regexProblems
      by_cases hr : rule.Regex = ""
      · simp [hr]
      · cases hc : lib.regexpCompile rule.Regex with
        | none => simp [hr]
        | some re => cases hv : re value <;> simp [hr, hv]
  · unfold allowedProblems
    have hany : rule.Allowed.any (fun a => value == a) = decide (value ∈ rule.Allowed) := by
      generalize rule.Allowed = l
      induction l with
      | nil => simp
      | cons a t ih =>
        by_cases h : value = a
        · simp [h]
        · have hb : (value == a) = false := by simpa using h
          simp only [List.any_cons, ih, List.mem_cons, h, false_or, hb, Bool.false_or]
    have hcont : rule.Allowed.contains value = decide (value ∈ rule.Allowed) := by
      by_cases h : value ∈ rule.Allowed <;> simp [h]
    rw [hany, hcont]
    by_cases ha : rule.Allowed.length > 0 <;> by_cases hm : value ∈ rule.Allowed <;>
      simp only [ha, hm, if_true, if_false, decide_True, decide_False, Bool.not_true,
        Bool.not_false, Bool.and_true, Bool.and_false, Bool.true_and, Bool.false_and,
        Bool.false_eq_true]

/-- C34: problem messages never interpolate the raw value: for every rule and
any two values of equal byte length that fail the same subset of the five
checks, ValidateVar returns identical problem lists; the problem list is the
function problemsFor of the rule's fields, the value's length and the flags of
the failed checks. -/
theorem ValidateVar_value_independent (lib : Lib) (rule : Rule) (v w : String)
    (hlen : v.utf8ByteSize = w.utf8ByteSize)
    (hfail : violations lib v rule = violations lib w rule) :
    ValidateVar lib v rule = ValidateVar lib w rule ∧
    ValidateVar lib v rule = problemsFor lib rule v.utf8ByteSize (violations lib v rule) := by
  refine ⟨?_, ValidateVar_problemsFor lib v rule⟩
  rw [ValidateVar_problemsFor, ValidateVar_problemsFor, hlen, hfail]

/-- Witness of C34: the values `abc` and `xyz` fail the type, min_len, max_len
and allowed-set checks of one rule and get the same four problems. -/
theorem ValidateVar_value_independent_witness :
    ("abc" : String) ≠ "xyz" ∧
    violations noLib "abc" strictRule = [true, true, true, false, true] ∧
    ValidateVar noLib "abc" strictRule = ValidateVar noLib "xyz" strictRule :=
  ⟨by decide, by decide,
   (ValidateVar_value_independent noLib strictRule "abc" "xyz" (by decide) (by decide)).1⟩

theorem newDebugHandler_cases (lib : Lib) (i : Inspector) (r : Request) :
    newDebugHandler lib i r =
      if r.Method ≠ "GET" then Response.error 405 "method not allowed"
      else if i.config.Token ≠ "" ∧
          trimLeading (r.Authorization.getD "") "Bearer " ≠ i.config.Token then
        Response.error 401 "unauthorized"
      else if i.config.ExpiresAt ≠ 0 ∧ i.clock.Now > i.config.ExpiresAt then
        Response.error 410 "endpoint expired"
      else Response.json (inspect lib i.env i.clock i.rules i.config) := by
  by_cases hg : r.Method = "GET" <;>
    by_cases ht : i.config.Token = "" <;>
    by_cases hm : trimLeading (r.Authorization.getD "") "Bearer " = i.config.Token <;>
    by_cases he : i.config.ExpiresAt = 0 <;>
    by_cases hn : i.clock.Now > i.config.ExpiresAt <;>
    simp [newDebugHandler, Inspector.Inspect, hg, ht, hm, he, hn]

/-- C32: the debug handler's response status is decided in a fixed order: 405
for any method other than GET, regardless of token and expiry; otherwise 401
when a token is configured and the presented token (the Authorization header
without a leading "Bearer ") does not match; otherwise 410 iff an expiry instant
is configured and the injected clock's current time is strictly after it (a
request at exactly the expiry instant, and any request when no expiry is
configured, is still served); otherwise 200 with the JSON of one fresh
inspection. -/
theorem newDebugHandler_status_order (lib : Lib) (i : Inspector) (r : Request) :
    (newDebugHandler lib i r).status =
      (if r.Method ≠ "GET" then 405
       else if i.config.Token ≠ "" ∧
           trimLeading (r.Authorization.getD "") "Bearer " ≠ i.config.Token then 401
       else if i.config.ExpiresAt ≠ 0 ∧ i.clock.Now > i.config.ExpiresAt then 410
       else 200) ∧
    ((newDebugHandler lib i r).status = 200 →
      newDebugHandler lib i r = Response.json (inspect lib i.env i.clock i.rules i.config)) ∧
    (r.Method = "GET" →
      (i.config.Token = "" ∨
        trimLeading (r.Authorization.getD "") "Bearer " = i.config.Token) →
      (i.clock.Now = i.config.ExpiresAt ∨ i.config.ExpiresAt = 0) →
      (newDebugHandler lib i r).status = 200) := by
  rw [newDebugHandler_cases]
  refine ⟨?_, ?_, ?_⟩
  · repeat' split
    all_goals rfl
  · repeat' split
    all_goals simp [Response.status]
  · intro hg ht he
    have hgate : ¬ (i.config.Token ≠ "" ∧
        trimLeading (r.Authorization.getD "") "Bearer " ≠ i.config.Token) := by
      rintro ⟨h1, h2⟩
      rcases ht with ht | ht
      · exact h1 ht
      · exact h2 ht
    have hexp : ¬ (i.config.ExpiresAt ≠ 0 ∧ i.clock.Now > i.config.ExpiresAt) := by
      rintro ⟨h1, h2⟩
      rcases he with he | he
      · rw [he] at h2
        exact lt_irrefl _ h2
      · exact h1 he
    rw [if_neg (not_not.mpr hg), if_neg hgate, if_neg hexp]
    rfl

/-- Witness of C32: the test `TestHandler_Expiry` with the clock at exactly the
expiry instant; the request is served. -/
theorem newDebugHandler_status_order_witness :
    (expiryInspector 12).clock.Now = (expiryInspector 12).config.ExpiresAt ∧
    (newDebugHandler noLib (expiryInspector 12)
        { Method := "GET", Authorization := none }).status = 200 ∧
    (newDebugHandler noLib (expiryInspector 13)
        { Method := "GET", Authorization := none }).status = 410 :=
  ⟨by decide,
   (newDebugHandler_status_order noLib (expiryInspector 12)
     { Method := "GET", Authorization := none }).2.2 rfl (Or.inl (by decide))
     (Or.inl (by decide)),
   (newDebugHandler_status_order noLib (expiryInspector 13)
     { Method := "GET", Authorization := none }).1.trans (by decide)⟩

/-! ### Fingerprints in the report -/

theorem FingerprintValue_length (value : String) : (FingerprintValue value).data.length = 8 := by
  rw [FingerprintValue_data]
  simp [wordBytes, hexByte]

theorem FingerprintValue_ne_empty (value : String) : FingerprintValue value ≠ "" := by
  intro h
  have hlen := FingerprintValue_length value
  rw [h] at hlen
  simp at hlen

theorem FingerprintValue_hexChars (value : String) :
    ∀ c ∈ (FingerprintValue value).data, c ∈ "0123456789abcdef".data := by
  intro c hc
  rw [FingerprintValue_data] at hc
  simp only [wordBytes, hexByte, List.map_cons, List.map_nil, List.flatten_cons,
    List.flatten_nil, List.cons_append, List.nil_append, List.append_nil, List.mem_cons,
    List.mem_nil_iff, or_false] at hc
  rcases hc with h | h | h | h | h | h | h | h <;> (rw [h]; exact hexDigit_mem _)

theorem index_nil (k : String) : (buildRuleMap []).index k = Rule.zero := rfl

/-- C33: for every result returned by inspect, the fingerprint is non-empty iff
the variable is present and shouldFingerprint(secret_like, rule,
config.DumpAllFingerprint) is true, where rule is the entry of the rule map for
the result's key, and it then equals FingerprintValue(value), 8 hexadecimal
characters; in particular an absent variable never carries a fingerprint,
whatever its rule sets, and in dump-all-fingerprint mode with no rules a present
non-secret-like key always carries one while a secret-like key never does. -/
theorem inspect_fingerprint_iff (lib : Lib) (env : EnvReader) (clock : Clock)
    (rules : List Rule) (cfg : Config) (vr : VarResult)
    (hmem : vr ∈ (inspect lib env clock rules cfg).Results) :
    (vr.Fingerprint ≠ "" ↔
      vr.Present = true ∧
        shouldFingerprint vr.SecretLike ((buildRuleMap rules).index vr.Key)
          cfg.DumpAllFingerprint = true) ∧
    (vr.Fingerprint ≠ "" →
      vr.Fingerprint = FingerprintValue (env.LookupEnv vr.Key).1 ∧
      vr.Fingerprint.data.length = 8 ∧
      ∀ c ∈ vr.Fingerprint.data, c ∈ "0123456789abcdef".data) ∧
    (vr.Present = false → vr.Fingerprint = "") ∧
    (rules = [] → cfg.DumpAllFingerprint = true →
      (vr.Present = true → vr.SecretLike = false → vr.Fingerprint ≠ "") ∧
      (vr.SecretLike = true → vr.Fingerprint = "")) := by
  rw [inspect_results] at hmem
  obtain ⟨key, _, rfl⟩ := List.mem_map.mp hmem
  rw [inspectVar_key, inspectVar_secretLike, inspectVar_present, inspectVar_fingerprint]
  have hiff : (if (env.LookupEnv key).2 = true ∧
        shouldFingerprint (classifySecretLike key ((buildRuleMap rules).index key))
          ((buildRuleMap rules).index key) cfg.DumpAllFingerprint = true
      then FingerprintValue (env.LookupEnv key).1 else "") ≠ "" ↔
      (env.LookupEnv key).2 = true ∧
        shouldFingerprint (classifySecretLike key ((buildRuleMap rules).index key))
          ((buildRuleMap rules).index key) cfg.DumpAllFingerprint = true := by
    constructor
    · intro h
      by_contra hn
      exact h (if_neg hn)
    · intro h
      rw [if_pos h]
      exact FingerprintValue_ne_empty _
  refine ⟨hiff, ?_, ?_, ?_⟩
  · intro h
    have hc := hiff.mp h
    rw [if_pos hc]
    exact ⟨rfl, FingerprintValue_length _, FingerprintValue_hexChars _⟩
  · intro hp
    rw [if_neg]
    rintro ⟨h, _⟩
    rw [hp] at h
    exact Bool.false_ne_true h
  · intro hrules hdump
    subst hrules
    rw [index_nil]
    constructor
    · intro hp hs
      apply hiff.mpr
      rw [index_nil]
      refine ⟨hp, ?_⟩
      rw [hs, hdump]
      rfl
    · intro hs
      rw [if_neg]
      rintro ⟨_, h⟩
      rw [hs] at h
      exact Bool.false_ne_true h

set_option maxRecDepth 100000 in
/-- Witness of C33: `APP_NAME=myapp` in dump-all-fingerprint mode with no rules;
the key is not secret-like and the result carries the fingerprint of `myapp`. -/
theorem inspect_fingerprint_iff_witness :
    appNameResult ∈ (inspect noLib twoKeyEnv (Clock.mk 0) [] dumpAllFingerprintConfig).Results ∧
    secretKeyResult ∈
      (inspect noLib twoKeyEnv (Clock.mk 0) [] dumpAllFingerprintConfig).Results ∧
    appNameResult.Fingerprint = FingerprintValue "myapp" :=
  ⟨by decide!, by decide!,
   ((inspect_fingerprint_iff noLib twoKeyEnv (Clock.mk 0) [] dumpAllFingerprintConfig
     appNameResult (by decide!)).2.1 (by decide)).1⟩

/-! ### The secret heuristic as a substring test -/

theorem isLower_bounds (p : Char) (h : p.isLower = true) : 97 ≤ p.toNat ∧ p.toNat ≤ 122 := by
  unfold Char.isLower at h
  simp only [ge_iff_le, Bool.and_eq_true, decide_eq_true_eq] at h
  exact ⟨h.1, h.2⟩

theorem simpleFold_toUpper (p : Char) (h : p.isLower = true) : simpleFold p.toUpper = p := by
  obtain ⟨h1, h2⟩ := isLower_bounds p h
  have hc : p = Char.ofNat p.toNat := (Char.ofNat_toNat p).symm
  generalize p.toNat = n at h1 h2 hc
  subst hc
  interval_cases n <;> decide

theorem foldMatches_iff (p c : Char) (hp : simpleFold p = p) :
    foldMatches p c = true ↔ simpleFold c = p := by
  constructor
  · intro h
    unfold foldMatches at h
    simp only [Bool.or_eq_true, Bool.and_eq_true, beq_iff_eq] at h
    rcases h with ((h | ⟨hl, h⟩) | ⟨hk, h⟩) | ⟨hs, h⟩
    · rw [h]; exact hp
    · rw [h]; exact simpleFold_toUpper p hl
    · rw [hk]; unfold simpleFold; rw [if_pos h]
    · rw [hs]; unfold simpleFold
      rw [if_neg (by rw [h]; decide), if_pos h]
  · intro h
    unfold simpleFold at h
    split at h
    · rename_i hk
      rw [← h]
      unfold foldMatches
      simp [hk]
    · split at h
      · rename_i hs
        rw [← h]
        unfold foldMatches
        simp [hs]
      · rw [← h]
        exact foldMatches_of_toLower c

theorem matchesAt_iff_take (pat t : List Char) (hpat : ∀ p ∈ pat, simpleFold p = p) :
    matchesAt pat t = true ↔ (t.map simpleFold).take pat.length = pat := by
  induction pat generalizing t with
  | nil => simp [matchesAt]
  | cons p ps ih =>
    cases t with
    | nil => simp [matchesAt]
    | cons c cs =>
      have hp : simpleFold p = p := hpat p (List.mem_cons_self _ _)
      have hps : ∀ q ∈ ps, simpleFold q = q := fun q hq => hpat q (List.mem_cons_of_mem _ hq)
      simp only [matchesAt, Bool.and_eq_true, List.map_cons, List.length_cons, List.take_succ_cons,
        List.cons.injEq]
      rw [foldMatches_iff p c hp, ih cs hps]

theorem matchesAnywhere_iff_isSubstring (pat key : List Char)
    (hpat : ∀ p ∈ pat, simpleFold p = p) :
    matchesAnywhere pat key = true ↔ isSubstring pat (key.map simpleFold) = true := by
  unfold isSubstring
  induction key with
  | nil =>
    simp only [matchesAnywhere, List.map_nil, List.tails, List.any_cons, List.any_nil,
      Bool.or_false, beq_iff_eq]
    rw [matchesAt_iff_take pat [] hpat]
    rfl
  | cons c cs ih =>
    simp only [matchesAnywhere, List.map_cons, List.tails, List.any_cons, Bool.or_eq_true,
      beq_iff_eq]
    rw [matchesAt_iff_take pat (c :: cs) hpat, ih]
    simp only [List.map_cons, beq_iff_eq]

theorem secretAlternatives_folded :
    ∀ alt ∈ secretAlternatives, ∀ p ∈ alt.data, simpleFold p = p := by decide

theorem matchesAt_append (pat s t : List Char) (h : matchesAt pat s = true) :
    matchesAt pat (s ++ t) = true := by
  induction pat generalizing s with
  | nil => simp [matchesAt]
  | cons p ps ih =>
    cases s with
    | nil => simp [matchesAt] at h
    | cons c cs =>
      simp only [matchesAt, Bool.and_eq_true, List.cons_append] at h ⊢
      exact ⟨h.1, ih cs h.2⟩

theorem matchesAnywhere_of_matchesAt (pat s : List Char) (h : matchesAt pat s = true) :
    matchesAnywhere pat s = true := by
  cases s with
  | nil => simpa [matchesAnywhere] using h
  | cons c cs => simp [matchesAnywhere, h]

theorem matchesAnywhere_append_right (pat s t : List Char)
    (h : matchesAnywhere pat s = true) : matchesAnywhere pat (s ++ t) = true := by
  induction s with
  | nil =>
    simp only [matchesAnywhere] at h
    exact matchesAnywhere_of_matchesAt pat _ (matchesAt_append pat [] t h)
  | cons c cs ih =>
    simp only [matchesAnywhere, Bool.or_eq_true, List.cons_append] at h ⊢
    rcases h with h | h
    · exact Or.inl (matchesAt_append pat (c :: cs) t h)
    · exact Or.inr (ih h)

theorem matchesAnywhere_append_left (pat pre s : List Char)
    (h : matchesAnywhere pat s = true) : matchesAnywhere pat (pre ++ s) = true := by
  induction pre with
  | nil => exact h
  | cons c cs ih =>
    simp only [List.cons_append, matchesAnywhere, Bool.or_eq_true]
    exact Or.inr ih

theorem simpleFold_ascii (c : Char) (h : c.toNat < 128) : simpleFold c = c.toLower := by
  unfold simpleFold
  rw [if_neg (by omega), if_neg (by omega)]

theorem contains_of_matchesAnywhere (pat s : List Char)
    (hpat : ∀ p ∈ pat, simpleFold p = p) (hs : ∀ c ∈ s, c.toNat < 128)
    (h : matchesAnywhere pat s = true) : containsIgnoreCase pat s = true := by
  have hstart : ∀ (pat t : List Char), (∀ p ∈ pat, simpleFold p = p) →
      (∀ c ∈ t, c.toNat < 128) → matchesAt pat t = true →
      startsWithIgnoreCase pat t = true := by
    intro pat
    induction pat with
    | nil => intro t _ _ _; simp [startsWithIgnoreCase]
    | cons p ps ih =>
      intro t hp ht hm
      cases t with
      | nil => simp [matchesAt] at hm
      | cons c cs =>
        simp only [matchesAt, Bool.and_eq_true] at hm
        simp only [startsWithIgnoreCase, Bool.and_eq_true, beq_iff_eq]
        refine ⟨?_, ih cs (fun q hq => hp q (List.mem_cons_of_mem _ hq))
          (fun d hd => ht d (List.mem_cons_of_mem _ hd)) hm.2⟩
        rw [← simpleFold_ascii c (ht c (List.mem_cons_self _ _))]
        exact (foldMatches_iff p c (hp p (List.mem_cons_self _ _))).mp hm.1
  induction s with
  | nil =>
    simp only [matchesAnywhere] at h
    simp only [containsIgnoreCase]
    exact hstart pat [] hpat hs h
  | cons c cs ih =>
    simp only [matchesAnywhere, Bool.or_eq_true] at h
    simp only [containsIgnoreCase, Bool.or_eq_true]
    rcases h with h | h
    · exact Or.inl (hstart pat (c :: cs) hpat hs h)
    · exact Or.inr (ih (fun d hd => hs d (List.mem_cons_of_mem _ hd)) h)

theorem IsSecretLike_iff_exists (key : String) :
    IsSecretLike key = true ↔
      ∃ alt ∈ literalAlternatives, matchesAnywhere alt.data key.data = true := by
  have h1 : ∀ a ∈ literalAlternatives, a ∈ secretAlternatives := by decide
  have h2 : ∀ a ∈ secretAlternatives, a ∈ literalAlternatives := by decide
  unfold IsSecretLike
  rw [List.any_eq_true]
  constructor
  · rintro ⟨alt, hmem, h⟩
    exact ⟨alt, h2 alt hmem, h⟩
  · rintro ⟨alt, hmem, h⟩
    exact ⟨alt, h1 alt hmem, h⟩

theorem literalAlternatives_folded :
    ∀ alt ∈ literalAlternatives, ∀ p ∈ alt.data, simpleFold p = p := by decide

/-- C31: IsSecretLike(key) is true iff the key, compared case-insensitively,
contains as a substring at least one of the pattern's literal alternatives
(password, passwd, pwd, secret, token, apikey, api_key, api-key, privatekey,
private_key, private-key, ssh, pem, cert, jwt, session, cookie, authorization,
bearer, kms, encrypt, signing); a key containing none of them, such as DB_HOST,
APP_NAME, LOG_LEVEL or HOME, is not secret-like, and extending a secret-like key
with any leading or trailing text keeps it secret-like.  The case-insensitive
comparison is the simple case folding of the flag `(?i)`, under which the
Kelvin sign compares equal to `k` and the long s to `s`; for a key of ASCII
characters it is the comparison of the lower-cased characters. -/
theorem IsSecretLike_iff_substring (key : String) :
    (IsSecretLike key = true ↔
      ∃ alt ∈ literalAlternatives, containsFold alt key = true) ∧
    ((∀ c ∈ key.data, c.toNat < 128) →
      (IsSecretLike key = true ↔
        ∃ alt ∈ literalAlternatives, containsIgnoreCase alt.data key.data = true)) ∧
    (IsSecretLike "DB_HOST" = false ∧ IsSecretLike "APP_NAME" = false ∧
      IsSecretLike "LOG_LEVEL" = false ∧ IsSecretLike "HOME" = false) ∧
    (∀ pre post : String,
      IsSecretLike key = true → IsSecretLike (pre ++ key ++ post) = true) := by
  refine ⟨?_, ?_, ⟨by decide, by decide, by decide, by decide⟩, ?_⟩
  · rw [IsSecretLike_iff_exists]
    constructor
    · rintro ⟨alt, hmem, h⟩
      exact ⟨alt, hmem, (matchesAnywhere_iff_isSubstring _ _
        (literalAlternatives_folded alt hmem)).mp h⟩
    · rintro ⟨alt, hmem, h⟩
      exact ⟨alt, hmem, (matchesAnywhere_iff_isSubstring _ _
        (literalAlternatives_folded alt hmem)).mpr h⟩
  · intro hascii
    rw [IsSecretLike_iff_exists]
    constructor
    · rintro ⟨alt, hmem, h⟩
      exact ⟨alt, hmem, contains_of_matchesAnywhere _ _
        (literalAlternatives_folded alt hmem) hascii h⟩
    · rintro ⟨alt, hmem, h⟩
      exact ⟨alt, hmem, matchesAnywhere_of_contains _ _ h⟩
  · intro pre post h
    rw [IsSecretLike_iff_exists] at h ⊢
    obtain ⟨alt, hmem, h⟩ := h
    refine ⟨alt, hmem, ?_⟩
    rw [String.data_append, String.data_append]
    exact matchesAnywhere_append_right _ _ _ (matchesAnywhere_append_left _ _ _ h)

/-- Witness of C31: the ASCII key `DB_PASSWORD` contains `password` and is
secret-like; so is `aws_secret_access_key`. -/
theorem IsSecretLike_iff_substring_witness :
    (∀ c ∈ "DB_PASSWORD".data, c.toNat < 128) ∧
    containsIgnoreCase "password".data "DB_PASSWORD".data = true ∧
    IsSecretLike "DB_PASSWORD" = true ∧
    IsSecretLike "aws_secret_access_key" = true :=
  ⟨by decide, by decide,
   ((IsSecretLike_iff_substring "DB_PASSWORD").2.1 (by decide)).mpr
     ⟨"password", by decide, by decide⟩,
   (IsSecretLike_iff_substring "aws_secret_access_key").1.mpr
     ⟨"secret", by decide, by decide⟩⟩

end Envdoc
